import Mathlib

/-!
Verification of the query-gateway server code: session/connection manager,
SQL pagination rewriter, SQL statement splitter, destructive-operation
simulation in the SQL adapters, stable JSON canonicalization, HMAC request
signing, the fixed-window rate limiter, and the Mongo shell argument parser.

Strings are modelled as Lean `String`/`List Char`.  JavaScript regular
expression tests are modelled as existence of a matching position, encoded
with `List.any` over all start positions.  Character classes (`\s`, `\w`)
are modelled on the ASCII range, which is the range exercised by every
query-text pattern in the code.
-/

namespace QueryHub

/-! ## JavaScript string primitives -/

/-- Characters treated as whitespace by `\s`, `String.prototype.trim` and
friends (ASCII range). -/
def jsIsSpaceChar (c : Char) : Bool :=
  c = ' ' || c = '\t' || c = '\n' || c = '\r' || c = '\x0b' || c = '\x0c'

/-- Word characters of the regex class `\w` : `[A-Za-z0-9_]`. -/
def jsIsWordChar (c : Char) : Bool :=
  c.isAlpha || c.isDigit || c = '_'

/-- Model of `String.prototype.trim` on a character list. -/
def jsTrimList (l : List Char) : List Char :=
  ((l.dropWhile jsIsSpaceChar).reverse.dropWhile jsIsSpaceChar).reverse

/-- Model of `String.prototype.trim`. -/
def jsTrim (s : String) : String :=
  ⟨jsTrimList s.data⟩

/-- Lower-case an ASCII character list (model of case-insensitive matching). -/
def lowerList (l : List Char) : List Char :=
  l.map Char.toLower

/-- Model of `String.prototype.toUpperCase` (ASCII range). -/
def jsToUpper (s : String) : String :=
  ⟨s.data.map Char.toUpper⟩

/-- Does the pattern `pat` occur as the first characters of `s`? -/
def startsWithL : List Char → List Char → Bool
  | [], _ => true
  | _ :: _, [] => false
  | p :: ps, c :: cs => p == c && startsWithL ps cs

/-- Does `pat` occur as a contiguous sublist of `s`?  Model of
`String.prototype.includes`. -/
def containsSub (pat s : List Char) : Bool :=
  (List.range (s.length + 1)).any (fun i => startsWithL pat (s.drop i))

/-- Character before position `i`, if any. -/
def prevCharOpt (s : List Char) : Nat → Option Char
  | 0 => none
  | Nat.succ j => s.get? j

/-- Word-boundary test: the optional neighbouring character is absent or a
non-word character. -/
def nonWordOpt : Option Char → Bool
  | some c => !jsIsWordChar c
  | none => true

/-- Match of the regex `\b<w>\b` (case-insensitive, `w` given lower-case) at
position `i` of `s`. -/
def wordMatchAt (w s : List Char) (i : Nat) : Bool :=
  nonWordOpt (prevCharOpt s i) &&
  startsWithL w (lowerList (s.drop i)) &&
  nonWordOpt (s.get? (i + w.length))

/-- Test of the regex `\b<w>\b` (case-insensitive) against `s`: some start
position matches. -/
def wordSearch (w s : List Char) : Bool :=
  (List.range (s.length + 1)).any (wordMatchAt w s)

/-- Fuel-driven digit extraction (the fuel keeps the recursion structural so
that terms evaluate by kernel reduction). -/
def natDigitsRevFuel : Nat → Nat → List Char
  | 0, _ => []
  | _ + 1, 0 => []
  | fuel + 1, m + 1 => Nat.digitChar ((m + 1) % 10) :: natDigitsRevFuel fuel ((m + 1) / 10)

/-- Model of JavaScript number-to-string conversion for integers: reversed
decimal digits of a natural number. -/
def natDigitsRev (n : Nat) : List Char :=
  natDigitsRevFuel n n

/-- Decimal digit characters of a natural number, most significant first. -/
def natDecChars (n : Nat) : List Char :=
  if n = 0 then ['0'] else (natDigitsRev n).reverse

/-- Model of JavaScript template-literal stringification `${n}` of an
integral number. -/
def intDecString (i : Int) : String :=
  if i < 0 then ⟨'-' :: natDecChars i.natAbs⟩ else ⟨natDecChars i.natAbs⟩

/-! ## Query options (`QueryOptions` in `types`) -/

/-- Optional per-query options; `none` fields model absent (`undefined`)
properties. -/
structure QueryOptions where
  limit : Option Int := none
  offset : Option Int := none
  explain : Option Bool := none
  allowDestructive : Option Bool := none
deriving DecidableEq, Repr

/-- Truthiness of `options?.allowDestructive` for an optional options
object. -/
def optAllowDestructive (options : Option QueryOptions) : Bool :=
  match options with
  | none => false
  | some o => (o.allowDestructive.getD false)

/-- Truthiness of `options?.explain`. -/
def optExplain (options : Option QueryOptions) : Bool :=
  match options with
  | none => false
  | some o => (o.explain.getD false)

/-! ## Rate limiter (`src/lib/rateLimit.ts`) -/

/-- Stored fixed-window record `{count, resetTime}`. -/
structure RateLimitRecord where
  count : Int
  resetTime : Int
deriving DecidableEq, Repr

/-- Limiter configuration (the key prefix only names the Redis key and is
omitted). -/
structure RateLimiterOptions where
  windowMs : Int
  max : Int
deriving DecidableEq, Repr

/-- Result record returned by the limiter. -/
structure RateLimitResult where
  success : Bool
  limit : Int
  remaining : Int
  resetTime : Int
  windowMs : Int
deriving DecidableEq, Repr

/-- Ceiling of `a / b` for positive `b`, via floor division; models
`Math.ceil((resetTime - now) / 1000)`. -/
def ceilDivInt (a b : Int) : Int :=
  Int.fdiv (a + b - 1) b

/-- TTL passed to `redis.setex`: `Math.max(Math.ceil((resetTime - now) /
1000), 1)` (from `setRateLimitRecord`). -/
def setRecordTTL (now resetTime : Int) : Int :=
  max (ceilDivInt (resetTime - now) 1000) 1

/-- One call of the limiter returned by `createRateLimiter`, as a pure
transition: given the stored record (if any) and the current time, produce
the result and the record written back (with its TTL), if any. -/
def rateLimiterLimit (opts : RateLimiterOptions) (now : Int)
    (record : Option RateLimitRecord) :
    RateLimitResult × Option (RateLimitRecord × Int) :=
  match record with
  | none =>
      let resetTime := now + opts.windowMs
      (⟨true, opts.max, opts.max - 1, resetTime, opts.windowMs⟩,
       some (⟨1, resetTime⟩, setRecordTTL now resetTime))
  | some r =>
      if now > r.resetTime then
        let resetTime := now + opts.windowMs
        (⟨true, opts.max, opts.max - 1, resetTime, opts.windowMs⟩,
         some (⟨1, resetTime⟩, setRecordTTL now resetTime))
      else if r.count ≥ opts.max then
        (⟨false, opts.max, 0, r.resetTime, opts.windowMs⟩, none)
      else
        let newCount := r.count + 1
        (⟨true, opts.max, opts.max - newCount, r.resetTime, opts.windowMs⟩,
         some (⟨newCount, r.resetTime⟩, setRecordTTL now r.resetTime))

/-! ## SQL pagination rewriter (`sqlUtils.ts`) -/

/-- Default row cap `DEFAULT_QUERY_LIMIT` (`QUERY_DEFAULT_LIMIT` env unset). -/
def DEFAULT_QUERY_LIMIT : Int := 1000

/-- Test of `LIMIT_REGEX = /\blimit\b/i`. -/
def limitRegexTest (s : List Char) : Bool :=
  wordSearch "limit".data s

/-- Test of `OFFSET_REGEX = /\boffset\b/i`. -/
def offsetRegexTest (s : List Char) : Bool :=
  wordSearch "offset".data s

/-- Match of `FETCH_REGEX = /\bfetch\b\s+first\b/i` at position `i`. -/
def fetchFirstMatchAt (s : List Char) (i : Nat) : Bool :=
  nonWordOpt (prevCharOpt s i) &&
  startsWithL "fetch".data (lowerList (s.drop i)) &&
  (let rest := s.drop (i + 5)
   let sp := (rest.takeWhile jsIsSpaceChar).length
   decide (1 ≤ sp) && startsWithL "first".data (lowerList (rest.drop sp)) &&
   nonWordOpt (rest.get? (sp + 5)))

/-- Test of `FETCH_REGEX`. -/
def fetchRegexTest (s : List Char) : Bool :=
  (List.range (s.length + 1)).any (fetchFirstMatchAt s)

/-- SELECT-like keywords of `SELECT_LIKE_REGEX`. -/
def selectLikeKeywords : List (List Char) :=
  ["select".data, "with".data, "show".data, "describe".data, "explain".data]

/-- Test of `SELECT_LIKE_REGEX = /^\s*(select|with|show|describe|explain)\b/i`. -/
def selectLikeTest (s : List Char) : Bool :=
  let rest := s.dropWhile jsIsSpaceChar
  selectLikeKeywords.any
    (fun kw => startsWithL kw (lowerList rest) && nonWordOpt (rest.get? kw.length))

/-- Model of `stripTrailingSemicolon` (`/;\s*$/` test and removal) on a
character list; returns the stripped list and `hadSemicolon`. -/
def stripTrailSemiList (l : List Char) : List Char × Bool :=
  match l.reverse.dropWhile jsIsSpaceChar with
  | ';' :: rest => (rest.reverse, true)
  | _ => (l, false)

/-- Model of `hasMultipleStatements`. -/
def hasMultipleStatements (query : String) : Bool :=
  let trimmed := jsTrimList query.data
  if !trimmed.contains ';' then false
  else ((stripTrailSemiList trimmed).1.contains ';')

/-- Model of `applySqlPagination`. -/
def applySqlPagination (query : String) (options : Option QueryOptions) : String :=
  if (jsTrimList query.data).isEmpty then query
  else if !selectLikeTest query.data then query
  else if hasMultipleStatements query then query
  else if limitRegexTest query.data || fetchRegexTest query.data then query
  else
    let stripped := stripTrailSemiList (jsTrimList query.data)
    let base := stripped.1
    let hadSemicolon := stripped.2
    let limit := (options.bind QueryOptions.limit).getD DEFAULT_QUERY_LIMIT
    let offset := options.bind QueryOptions.offset
    let withLimit := base ++ " LIMIT ".data ++ (intDecString limit).data
    let paginated :=
      match offset with
      | some off =>
          if 0 < off && !offsetRegexTest query.data then
            withLimit ++ " OFFSET ".data ++ (intDecString off).data
          else withLimit
      | none => withLimit
    if hadSemicolon then ⟨paginated ++ [';']⟩ else ⟨paginated⟩

/-! ## Database kinds and default configuration (`databaseConfig.ts`) -/

/-- Supported engine kinds (`DatabaseType`). -/
inductive DatabaseType where
  | postgresql
  | mongodb
  | mysql
deriving DecidableEq, Repr

/-- One entry of the configured default databases
(`DefaultDatabaseConfig`). -/
structure DefaultDbConfig where
  type : DatabaseType
  url : String
  name : String
deriving DecidableEq, Repr

/-! ## Destructive-pattern detection (`PostgresAdapter.isDestructiveQuery`,
`MySQLAdapter.isDestructiveQuery`) -/

/-- Match at position `i` of the regex `\b<w1>\s+<w2>\b`, with characters
normalised by `norm` (lower-casing for a case-insensitive test, identity
for a case-sensitive one). -/
def spacedPairMatchAt (norm : Char → Char) (w1 w2 s : List Char) (i : Nat) : Bool :=
  nonWordOpt (prevCharOpt s i) &&
  startsWithL w1 ((s.drop i).map norm) &&
  (let rest := s.drop (i + w1.length)
   let sp := (rest.takeWhile jsIsSpaceChar).length
   decide (1 ≤ sp) && startsWithL w2 ((rest.drop sp).map norm) &&
   nonWordOpt (rest.get? (sp + w2.length)))

/-- Test of the regex `\b<w1>\s+<w2>\b`. -/
def spacedPairTest (norm : Char → Char) (w1 w2 s : List Char) : Bool :=
  (List.range (s.length + 1)).any (spacedPairMatchAt norm w1 w2 s)

/-- Match at position `i` of `\bDROP\s+(<kw1>|<kw2>|…)\b` with `norm` as in
`spacedPairMatchAt`. -/
def dropAltMatchAt (norm : Char → Char) (dropW : List Char) (kws : List (List Char))
    (s : List Char) (i : Nat) : Bool :=
  nonWordOpt (prevCharOpt s i) &&
  startsWithL dropW ((s.drop i).map norm) &&
  (let rest := s.drop (i + dropW.length)
   let sp := (rest.takeWhile jsIsSpaceChar).length
   decide (1 ≤ sp) &&
   kws.any (fun kw =>
     startsWithL kw ((rest.drop sp).map norm) && nonWordOpt (rest.get? (sp + kw.length))))

/-- Test of `\bDROP\s+(DATABASE|SCHEMA|TABLE|VIEW|INDEX|FUNCTION|PROCEDURE|TRIGGER)\b`. -/
def dropAltTest (norm : Char → Char) (dropW : List Char) (kws : List (List Char))
    (s : List Char) : Bool :=
  (List.range (s.length + 1)).any (dropAltMatchAt norm dropW kws s)

/-- The alternation keywords, lower-case (for the case-insensitive Postgres
test on the raw query). -/
def dropKeywordsLower : List (List Char) :=
  ["database".data, "schema".data, "table".data, "view".data, "index".data,
   "function".data, "procedure".data, "trigger".data]

/-- The alternation keywords, upper-case (for the case-sensitive MySQL test
on the upper-cased query). -/
def dropKeywordsUpper : List (List Char) :=
  ["DATABASE".data, "SCHEMA".data, "TABLE".data, "VIEW".data, "INDEX".data,
   "FUNCTION".data, "PROCEDURE".data, "TRIGGER".data]

/-- Match at position `i` of `\bDROP\s+(\w+)` (case-insensitive, used by
`query.match` to extract the operation word). -/
def dropCaptureAt (s : List Char) (i : Nat) : Bool :=
  nonWordOpt (prevCharOpt s i) &&
  startsWithL "drop".data (lowerList (s.drop i)) &&
  (let rest := s.drop (i + 4)
   let sp := (rest.takeWhile jsIsSpaceChar).length
   decide (1 ≤ sp) && !((rest.drop sp).takeWhile jsIsWordChar).isEmpty)

/-- Leftmost capture of `query.match(/\bDROP\s+(\w+)/i)`. -/
def dropCapture (s : List Char) : Option (List Char) :=
  ((List.range (s.length + 1)).find? (fun i => dropCaptureAt s i)).map (fun i =>
    let rest := s.drop (i + 4)
    let sp := (rest.takeWhile jsIsSpaceChar).length
    (rest.drop sp).takeWhile jsIsWordChar)

/-- Operation label `DROP <word>` produced from the capture, upper-cased,
falling back to `DROP` when the capture regex does not match. -/
def dropOperationLabel (query : String) : String :=
  match dropCapture query.data with
  | some w => ⟨"DROP ".data ++ w.map Char.toUpper⟩
  | none => "DROP"

/-- Model of `PostgresAdapter.isDestructiveQuery`: case-insensitive tests on
the raw query; the `WHERE 1=0` exemption is checked on the trimmed
upper-cased query. -/
def pgIsDestructiveQuery (query : String) : Bool × Option String :=
  let normalizedQuery := jsToUpper (jsTrim query)
  if dropAltTest Char.toLower "drop".data dropKeywordsLower query.data then
    (true, some (dropOperationLabel query))
  else if spacedPairTest Char.toLower "truncate".data "table".data query.data then
    (true, some "TRUNCATE TABLE")
  else if spacedPairTest Char.toLower "delete".data "from".data query.data &&
      !containsSub "WHERE 1=0".data normalizedQuery.data then
    (true, some "DELETE")
  else (false, none)

/-- Model of `MySQLAdapter.isDestructiveQuery`: case-sensitive tests on the
trimmed upper-cased query; the operation capture still runs case-insensitive
on the raw query. -/
def mysqlIsDestructiveQuery (query : String) : Bool × Option String :=
  let normalizedQuery := jsToUpper (jsTrim query)
  if dropAltTest id "DROP".data dropKeywordsUpper normalizedQuery.data then
    (true, some (dropOperationLabel query))
  else if spacedPairTest id "TRUNCATE".data "TABLE".data normalizedQuery.data then
    (true, some "TRUNCATE TABLE")
  else if spacedPairTest id "DELETE".data "FROM".data normalizedQuery.data &&
      !containsSub "WHERE 1=0".data normalizedQuery.data then
    (true, some "DELETE")
  else (false, none)

/-! ## SQL adapters (`PostgresAdapter`, `MySQLAdapter`) -/

/-- Values appearing in result cells. -/
inductive CellValue where
  | boolV : Bool → CellValue
  | strV : String → CellValue
  | intV : Int → CellValue
deriving DecidableEq, Repr

/-- Column descriptor `{name, type}`. -/
structure ColumnInfo where
  name : String
  type : String
deriving DecidableEq, Repr

/-- Normalised query result (`QueryResult`); a row is an ordered list of
field-name/value pairs. -/
structure QueryResult where
  rows : List (List (String × CellValue))
  columns : List ColumnInfo
  rowCount : Int
  executionTime : Int
deriving DecidableEq, Repr

/-- Default statement timeout `DEFAULT_QUERY_TIMEOUT_MS` (env unset). -/
def DEFAULT_QUERY_TIMEOUT_MS : Int := 30000

/-- Connection-relevant state of a SQL adapter: pool liveness, the bound
URL, and the default-configuration flag set by `connect`. -/
structure SqlAdapterState where
  connected : Bool
  connectionUrl : String
  isDefaultConfig : Bool
deriving DecidableEq, Repr

/-- Model of `PostgresAdapter.connect`: records the URL and whether it
equals a configured default Postgres URL (`loadDefaultDatabases`). -/
def pgConnect (defaults : List DefaultDbConfig) (connectionUrl : String) : SqlAdapterState :=
  { connected := true
    connectionUrl := connectionUrl
    isDefaultConfig := defaults.any
      (fun db => db.type = DatabaseType.postgresql && db.url = connectionUrl) }

/-- Model of `MySQLAdapter.connect`. -/
def mysqlConnect (defaults : List DefaultDbConfig) (connectionUrl : String) : SqlAdapterState :=
  { connected := true
    connectionUrl := connectionUrl
    isDefaultConfig := defaults.any
      (fun db => db.type = DatabaseType.mysql && db.url = connectionUrl) }

/-- Model of `simulateDestructiveOperation` (Postgres wording), called
without `details` as in `executeQuery`. -/
def pgSimulateDestructiveOperation (operation : String) : QueryResult :=
  let message := "Query executed successfully (simulated). Your query syntax is correct, but destructive operations like " ++ operation ++ " are only allowed when connecting to your own database. Use your own PostgreSQL connection URL to perform this operation."
  { rows := [[("acknowledged", CellValue.boolV true), ("simulated", CellValue.boolV true),
      ("message", CellValue.strV message), ("operation", CellValue.strV operation)]]
    columns := [⟨"acknowledged", "boolean"⟩, ⟨"simulated", "boolean"⟩,
      ⟨"message", "string"⟩, ⟨"operation", "string"⟩]
    rowCount := 1
    executionTime := 0 }

/-- Model of `simulateDestructiveOperation` (MySQL wording). -/
def mysqlSimulateDestructiveOperation (operation : String) : QueryResult :=
  let message := "Query executed successfully (simulated). Your query syntax is correct, but destructive operations like " ++ operation ++ " are only allowed when connecting to your own database. Use your own MySQL connection URL to perform this operation."
  { rows := [[("acknowledged", CellValue.boolV true), ("simulated", CellValue.boolV true),
      ("message", CellValue.strV message), ("operation", CellValue.strV operation)]]
    columns := [⟨"acknowledged", "boolean"⟩, ⟨"simulated", "boolean"⟩,
      ⟨"message", "string"⟩, ⟨"operation", "string"⟩]
    rowCount := 1
    executionTime := 0 }

/-- Reply of the Postgres driver to one statement. -/
structure PgReply where
  rows : List (List (String × CellValue))
  fields : List (String × Nat)
  rowCount : Option Int
deriving DecidableEq, Repr

/-- The `PG_TYPE_MAP` oid-to-name table. -/
def PG_TYPE_MAP : List (Nat × String) :=
  [(16, "boolean"), (17, "bytea"), (18, "char"), (19, "name"), (20, "bigint"),
   (21, "smallint"), (23, "integer"), (25, "text"), (26, "oid"), (114, "json"),
   (142, "xml"), (700, "real"), (701, "double precision"), (790, "money"),
   (1042, "char"), (1043, "varchar"), (1082, "date"), (1083, "time"),
   (1114, "timestamp"), (1184, "timestamptz"), (1186, "interval"), (1560, "bit"),
   (1700, "numeric"), (2950, "uuid"), (3802, "jsonb")]

/-- Model of `pgTypeToString`. -/
def pgTypeToString (oid : Nat) : String :=
  match (PG_TYPE_MAP.find? (fun p => p.1 = oid)).map Prod.snd with
  | some s => s
  | none => ⟨"unknown(".data ++ natDecChars oid ++ ")".data⟩

/-- Model of `sanitizeSchemaName`: strip every character outside
`[a-zA-Z0-9_]`, defaulting to `public`. -/
def sanitizeSchemaName (schema : String) : String :=
  if schema.isEmpty then "public"
  else
    let cleaned : String := ⟨schema.data.filter (fun c => c.isAlpha || c.isDigit || c = '_')⟩
    if cleaned.isEmpty then "public" else cleaned

/-- The non-simulated path of `PostgresAdapter.executeQuery`: optional
`SET search_path`, the statement timeout, then the (EXPLAIN-rewritten or
paginated) query, threaded through the engine `run`; the issued statements
are returned as a trace. -/
def pgRunPath {σ : Type} (run : σ → String → σ × PgReply) (query : String)
    (database : Option String) (options : Option QueryOptions) (engine : σ) :
    QueryResult × σ × List String :=
  let searchPath :=
    match database with
    | some db =>
        some ("SET search_path TO \"" ++ sanitizeSchemaName db ++ "\", public")
    | none => none
  let e1 := match searchPath with
    | some stmt => (run engine stmt).1
    | none => engine
  let timeoutStmt := "SET statement_timeout = " ++ intDecString DEFAULT_QUERY_TIMEOUT_MS
  let e2 := (run e1 timeoutStmt).1
  let finalQuery :=
    if optExplain options then "EXPLAIN (ANALYZE, COSTS, BUFFERS, FORMAT TEXT) " ++ query
    else applySqlPagination query options
  let out := run e2 finalQuery
  let reply := out.2
  ({ rows := reply.rows
     columns := reply.fields.map (fun f => ⟨f.1, pgTypeToString f.2⟩)
     rowCount := reply.rowCount.getD (reply.rows.length : Int)
     executionTime := 0 },
   out.1,
   (match searchPath with | some stmt => [stmt] | none => []) ++ [timeoutStmt, finalQuery])

/-- Model of `PostgresAdapter.executeQuery`: destructive simulation first
(for default configurations without `allowDestructive`), then the engine
path.  Returns the result, the engine state after the call, and the list of
statements issued to the engine. -/
def pgExecuteQuery {σ : Type} (run : σ → String → σ × PgReply)
    (st : SqlAdapterState) (query : String) (database : Option String)
    (options : Option QueryOptions) (engine : σ) :
    Except String (QueryResult × σ × List String) :=
  if !st.connected then .error "Not connected"
  else if st.isDefaultConfig && !(optAllowDestructive options) then
    match pgIsDestructiveQuery query with
    | (true, op) =>
        .ok (pgSimulateDestructiveOperation (op.getD "destructive operation"), engine, [])
    | (false, _) => .ok (pgRunPath run query database options engine)
  else .ok (pgRunPath run query database options engine)

/-- Reply of the MySQL driver to one statement: either a row set with field
descriptors or a result-set header. -/
inductive MysqlReply where
  | rowSet : List (List (String × CellValue)) → List (String × String) → MysqlReply
  | header : Int → Int → Int → MysqlReply
deriving DecidableEq, Repr

/-- The `MYSQL_TYPE_MAP` name table, in declaration order. -/
def MYSQL_TYPE_MAP : List (String × String) :=
  [("TINYINT", "tinyint"), ("SMALLINT", "smallint"), ("MEDIUMINT", "mediumint"),
   ("INT", "integer"), ("INTEGER", "integer"), ("BIGINT", "bigint"),
   ("FLOAT", "float"), ("DOUBLE", "double"), ("DECIMAL", "decimal"),
   ("NUMERIC", "numeric"), ("DATE", "date"), ("DATETIME", "datetime"),
   ("TIMESTAMP", "timestamp"), ("TIME", "time"), ("YEAR", "year"),
   ("CHAR", "char"), ("VARCHAR", "varchar"), ("TEXT", "text"),
   ("TINYTEXT", "tinytext"), ("MEDIUMTEXT", "mediumtext"), ("LONGTEXT", "longtext"),
   ("BINARY", "binary"), ("VARBINARY", "varbinary"), ("BLOB", "blob"),
   ("TINYBLOB", "tinyblob"), ("MEDIUMBLOB", "mediumblob"), ("LONGBLOB", "longblob"),
   ("ENUM", "enum"), ("SET", "set"), ("JSON", "json"), ("BIT", "bit"),
   ("BOOLEAN", "boolean"), ("BOOL", "boolean")]

/-- Model of `mysqlTypeToString`: first map entry whose key is a prefix of
the upper-cased type name, else the lower-cased name. -/
def mysqlTypeToString (type : String) : String :=
  let upperType := jsToUpper type
  match MYSQL_TYPE_MAP.find? (fun p => startsWithL p.1.data upperType.data) with
  | some p => p.2
  | none => ⟨type.data.map Char.toLower⟩

/-- Model of `sanitizeDatabaseName`: trim, reject empty or non
`[a-zA-Z0-9_]+` names. -/
def sanitizeDatabaseName (database : String) : Except String String :=
  let trimmed := jsTrim database
  if trimmed.isEmpty then .error "Database name cannot be empty"
  else if trimmed.data.all (fun c => c.isAlpha || c.isDigit || c = '_') then .ok trimmed
  else .error "Invalid database name: only letters, numbers, and underscores are allowed"

/-- Map a MySQL driver reply to a `QueryResult` as `executeQuery` does. -/
def mysqlMkResult : MysqlReply → QueryResult
  | .rowSet rows fields =>
      { rows := rows
        columns := fields.map (fun f => ⟨f.1, mysqlTypeToString f.2⟩)
        rowCount := (rows.length : Int)
        executionTime := 0 }
  | .header affectedRows insertId warningStatus =>
      { rows := [[("affectedRows", CellValue.intV affectedRows),
          ("insertId", CellValue.intV insertId),
          ("warningStatus", CellValue.intV warningStatus)]]
        columns := [⟨"affectedRows", "integer"⟩, ⟨"insertId", "integer"⟩,
          ⟨"warningStatus", "integer"⟩]
        rowCount := affectedRows
        executionTime := 0 }

/-- The non-simulated path of `MySQLAdapter.executeQuery`. -/
def mysqlRunPath {σ : Type} (run : σ → String → σ × MysqlReply) (query : String)
    (database : Option String) (options : Option QueryOptions) (engine : σ) :
    Except String (QueryResult × σ × List String) :=
  match database with
  | some db =>
      match sanitizeDatabaseName db with
      | .error e => .error e
      | .ok safeName =>
          let useStmt := "USE `" ++ safeName ++ "`"
          let e1 := (run engine useStmt).1
          let finalQuery :=
            if optExplain options then "EXPLAIN " ++ query
            else applySqlPagination query options
          let out := run e1 finalQuery
          .ok (mysqlMkResult out.2, out.1, [useStmt, finalQuery])
  | none =>
      let finalQuery :=
        if optExplain options then "EXPLAIN " ++ query
        else applySqlPagination query options
      let out := run engine finalQuery
      .ok (mysqlMkResult out.2, out.1, [finalQuery])

/-- Model of `MySQLAdapter.executeQuery`. -/
def mysqlExecuteQuery {σ : Type} (run : σ → String → σ × MysqlReply)
    (st : SqlAdapterState) (query : String) (database : Option String)
    (options : Option QueryOptions) (engine : σ) :
    Except String (QueryResult × σ × List String) :=
  if !st.connected then .error "Not connected"
  else if st.isDefaultConfig then
    match mysqlIsDestructiveQuery query with
    | (true, op) =>
        .ok (mysqlSimulateDestructiveOperation (op.getD "destructive operation"), engine, [])
    | (false, _) => mysqlRunPath run query database options engine
  else mysqlRunPath run query database options engine

/-! ## JSON values and stable canonicalization (`stableStringify`) -/

/-- JSON-like values; object entries keep insertion order, as JavaScript
objects do.  Numeric payloads are modelled as integers. -/
inductive JsValue where
  | nullV
  | boolV : Bool → JsValue
  | numV : Int → JsValue
  | strV : String → JsValue
  | arrV : List JsValue → JsValue
  | objV : List (String × JsValue) → JsValue

/-- Lexicographic code-unit comparison of character lists (the default
`Array.prototype.sort` string comparison, on the BMP range where code
units and code points agree). -/
def listCharLt : List Char → List Char → Bool
  | [], [] => false
  | [], _ :: _ => true
  | _ :: _, [] => false
  | a :: as, b :: bs =>
      if a.toNat < b.toNat then true
      else if a.toNat = b.toNat then listCharLt as bs
      else false

/-- String order used by `Object.keys(obj).sort()`: `s ≤ t`. -/
def jsStrLe (s t : String) : Bool :=
  !(listCharLt t.data s.data)

/-- Escaping of one character by `JSON.stringify` for string values. -/
def jsonEscapeChar (c : Char) : List Char :=
  if c = '"' then ['\\', '"']
  else if c = '\\' then ['\\', '\\']
  else if c = '\x08' then ['\\', 'b']
  else if c = '\t' then ['\\', 't']
  else if c = '\n' then ['\\', 'n']
  else if c = '\x0c' then ['\\', 'f']
  else if c = '\r' then ['\\', 'r']
  else if c.toNat < 32 then
    ['\\', 'u', '0', '0', Nat.digitChar (c.toNat / 16), Nat.digitChar (c.toNat % 16)]
  else [c]

/-- Model of `JSON.stringify` on a string. -/
def jsonQuote (s : String) : String :=
  ⟨'"' :: (s.data.map jsonEscapeChar).join ++ ['"']⟩

/-- Join pieces with `,`, as `Array.prototype.join(',')` does. -/
def joinComma : List (List Char) → List Char
  | [] => []
  | [x] => x
  | x :: xs => x ++ ',' :: joinComma xs

mutual

/-- Model of `stableStringify`: canonical JSON with the object keys sorted
(`Object.keys(obj).sort()`) at every nesting level.  Entries are sorted by
key after stringifying the values, which agrees with the source's
sort-keys-then-lookup because a JavaScript object cannot hold two entries
with the same key. -/
def stableStringify : JsValue → String
  | .nullV => "null"
  | .boolV b => if b then "true" else "false"
  | .numV n => intDecString n
  | .strV s => jsonQuote s
  | .arrV items => ⟨'[' :: joinComma (stringifyList items) ++ [']']⟩
  | .objV kvs =>
      let sorted := List.insertionSort (fun a b => jsStrLe a.1 b.1 = true) (stringifyEntries kvs)
      ⟨'\x7b' :: joinComma (sorted.map (fun kv => (jsonQuote kv.1).data ++ ':' :: kv.2)) ++
        ['\x7d']⟩
termination_by structural v => v

/-- Stringify each array element in order. -/
def stringifyList : List JsValue → List (List Char)
  | [] => []
  | v :: vs => (stableStringify v).data :: stringifyList vs
termination_by structural l => l

/-- Stringify the value of each object entry, keeping the key. -/
def stringifyEntries : List (String × JsValue) → List (String × List Char)
  | [] => []
  | kv :: rest => (kv.1, (stableStringify kv.2).data) :: stringifyEntries rest
termination_by structural l => l

end

mutual

/-- Canonical form of a JSON-like value: object entries sorted by key at
every nesting level.  Two values are structurally equal up to object-key
insertion order exactly when their canonical forms coincide. -/
def keyNormal : JsValue → JsValue
  | .nullV => .nullV
  | .boolV b => .boolV b
  | .numV n => .numV n
  | .strV s => .strV s
  | .arrV items => .arrV (keyNormalList items)
  | .objV kvs =>
      .objV (List.insertionSort (fun a b => jsStrLe a.1 b.1 = true) (keyNormalEntries kvs))
termination_by structural v => v

/-- Canonical forms of array elements, in order. -/
def keyNormalList : List JsValue → List JsValue
  | [] => []
  | v :: vs => keyNormal v :: keyNormalList vs
termination_by structural l => l

/-- Canonical forms of object entry values, in order. -/
def keyNormalEntries : List (String × JsValue) → List (String × JsValue)
  | [] => []
  | kv :: rest => (kv.1, keyNormal kv.2) :: keyNormalEntries rest
termination_by structural l => l

end

/-! ## SHA-256 and HMAC (the `node:crypto` primitives used by
`requestSigning.ts`, implemented per FIPS 180-4 / RFC 2104) -/

/-- Right rotation of a 32-bit word. -/
def rotr32 (n x : Nat) : Nat :=
  ((x >>> n) ||| (x <<< (32 - n))) &&& 0xffffffff

/-- The SHA-256 round constants. -/
def sha256K : List Nat :=
  [  1116352408, 1899447441, 3049323471, 3921009573, 961987163, 1508970993,
   2453635748, 2870763221, 3624381080, 310598401, 607225278, 1426881987,
   1925078388, 2162078206, 2614888103, 3248222580, 3835390401, 4022224774,
   264347078, 604807628, 770255983, 1249150122, 1555081692, 1996064986,
   2554220882, 2821834349, 2952996808, 3210313671, 3336571891, 3584528711,
   113926993, 338241895, 666307205, 773529912, 1294757372, 1396182291,
   1695183700, 1986661051, 2177026350, 2456956037, 2730485921, 2820302411,
   3259730800, 3345764771, 3516065817, 3600352804, 4094571909, 275423344,
   430227734, 506948616, 659060556, 883997877, 958139571, 1322822218,
   1537002063, 1747873779, 1955562222, 2024104815, 2227730452, 2361852424,
   2428436474, 2756734187, 3204031479, 3329325298]

/-- The SHA-256 initial hash value. -/
def sha256H0 : List Nat :=
  [  1779033703, 3144134277, 1013904242, 2773480762, 1359893119, 2600822924,
   528734635, 1541459225]

/-- Big-endian bytes of a value, fixed width. -/
def toBytesBE (numBytes v : Nat) : List Nat :=
  (List.range numBytes).map (fun i => (v >>> (8 * (numBytes - 1 - i))) &&& 0xff)

/-- Big-endian 32-bit words from bytes (length a multiple of 4). -/
def bytesToWordsBE : List Nat → List Nat
  | b0 :: b1 :: b2 :: b3 :: rest =>
      (((b0 <<< 8 ||| b1) <<< 8 ||| b2) <<< 8 ||| b3) :: bytesToWordsBE rest
  | _ => []

/-- SHA-256 message padding. -/
def sha256Pad (msg : List Nat) : List Nat :=
  let z := (64 + 56 - (msg.length + 1) % 64) % 64
  msg ++ [0x80] ++ List.replicate z 0 ++ toBytesBE 8 (msg.length * 8)

/-- Extend the sixteen block words to the 64-entry message schedule. -/
def sha256Extend (w : List Nat) : Nat → List Nat
  | 0 => w
  | n + 1 =>
      let i := w.length
      let s0 := rotr32 7 (w.getD (i - 15) 0) ^^^ rotr32 18 (w.getD (i - 15) 0) ^^^
        ((w.getD (i - 15) 0) >>> 3)
      let s1 := rotr32 17 (w.getD (i - 2) 0) ^^^ rotr32 19 (w.getD (i - 2) 0) ^^^
        ((w.getD (i - 2) 0) >>> 10)
      sha256Extend (w ++ [(w.getD (i - 16) 0 + s0 + w.getD (i - 7) 0 + s1) % 4294967296]) n

/-- One round of the SHA-256 compression function. -/
def sha256Round (st : List Nat) (kw : Nat × Nat) : List Nat :=
  let a := st.getD 0 0
  let b := st.getD 1 0
  let c := st.getD 2 0
  let d := st.getD 3 0
  let e := st.getD 4 0
  let f := st.getD 5 0
  let g := st.getD 6 0
  let h := st.getD 7 0
  let s1 := rotr32 6 e ^^^ rotr32 11 e ^^^ rotr32 25 e
  let ch := (e &&& f) ^^^ ((e ^^^ 0xffffffff) &&& g)
  let temp1 := (h + s1 + ch + kw.1 + kw.2) % 4294967296
  let s0 := rotr32 2 a ^^^ rotr32 13 a ^^^ rotr32 22 a
  let maj := (a &&& b) ^^^ (a &&& c) ^^^ (b &&& c)
  let temp2 := (s0 + maj) % 4294967296
  [(temp1 + temp2) % 4294967296, a, b, c, (d + temp1) % 4294967296, e, f, g]

/-- Compress one 64-byte block into the running hash. -/
def sha256Block (h : List Nat) (block : List Nat) : List Nat :=
  let w := sha256Extend (bytesToWordsBE block) 48
  let st := (sha256K.zip w).foldl sha256Round h
  (h.zip st).map (fun p => (p.1 + p.2) % 4294967296)

/-- Split into 64-byte blocks (the fuel keeps the recursion structural). -/
def chunk64Fuel : Nat → List Nat → List (List Nat)
  | 0, _ => []
  | _, [] => []
  | fuel + 1, l => l.take 64 :: chunk64Fuel fuel (l.drop 64)

/-- Split into 64-byte blocks. -/
def chunk64 (l : List Nat) : List (List Nat) :=
  chunk64Fuel l.length l

/-- SHA-256 of a byte list. -/
def sha256 (msg : List Nat) : List Nat :=
  let final := (chunk64 (sha256Pad msg)).foldl sha256Block sha256H0
  (final.map (toBytesBE 4)).join

/-- HMAC-SHA256 (RFC 2104) over byte lists. -/
def hmacSha256 (key msg : List Nat) : List Nat :=
  let k0 := if 64 < key.length then sha256 key else key
  let k := k0 ++ List.replicate (64 - k0.length) 0
  let ipad := k.map (fun b => b ^^^ 0x36)
  let opad := k.map (fun b => b ^^^ 0x5c)
  sha256 (opad ++ sha256 (ipad ++ msg))

/-! ## Request signing (`src/lib/requestSigning.ts`) -/

/-- Lower-case hex digit pair of a byte (`Buffer.prototype.toString('hex')`,
`digest('hex')`). -/
def byteToHexChars (b : Nat) : List Char :=
  [Nat.digitChar (b / 16 % 16), Nat.digitChar (b % 16)]

/-- Hex string of a byte list. -/
def bytesToHex (bs : List Nat) : String :=
  ⟨(bs.map byteToHexChars).join⟩

/-- Value of one hex digit, if any. -/
def hexVal? (c : Char) : Option Nat :=
  if c.isDigit then some (c.toNat - '0'.toNat)
  else if 'a' ≤ c ∧ c ≤ 'f' then some (c.toNat - 'a'.toNat + 10)
  else if 'A' ≤ c ∧ c ≤ 'F' then some (c.toNat - 'A'.toNat + 10)
  else none

/-- Node's lenient hex decoding (`Buffer.from(str, 'hex')`): decode byte
pairs until the first invalid pair; a trailing odd digit is dropped. -/
def nodeHexDecode : List Char → List Nat
  | c1 :: c2 :: rest =>
      match hexVal? c1, hexVal? c2 with
      | some hi, some lo => (16 * hi + lo) :: nodeHexDecode rest
      | _, _ => []
  | _ => []

/-- Bytes of a string (ASCII fragment of UTF-8). -/
def stringToBytes (s : String) : List Nat :=
  s.data.map Char.toNat

/-- Model of `createSignature`: hex HMAC-SHA256 of
`<timestamp>.<stableStringify(payload)>` under the hex-decoded signing
key. -/
def createSignature (signingKey : String) (payload : JsValue) (timestamp : String) : String :=
  let message := timestamp ++ "." ++ stableStringify payload
  bytesToHex (hmacSha256 (nodeHexDecode signingKey.data) (stringToBytes message))

/-- Model of `isSignatureValid`: hex-decode the expected and presented
signatures, compare lengths, then compare contents
(`crypto.timingSafeEqual`). -/
def isSignatureValid (signingKey : String) (payload : JsValue)
    (timestamp signature : String) : Bool :=
  let expected := createSignature signingKey payload timestamp
  let expectedBuffer := nodeHexDecode expected.data
  let signatureBuffer := nodeHexDecode signature.data
  if expectedBuffer.length ≠ signatureBuffer.length then false
  else expectedBuffer == signatureBuffer

/-- Decimal digits to a natural number. -/
def digitsToNat (ds : List Char) : Nat :=
  ds.foldl (fun acc c => 10 * acc + (c.toNat - '0'.toNat)) 0

/-- Model of `Number(timestamp)` on the canonical fragment: optional
whitespace, optional minus sign, decimal digits ("" gives 0); other number
forms (exponents, fractions, hex) are outside the model and map to `none`
(NaN). -/
def jsNumberOfString (s : String) : Option Int :=
  let t := jsTrimList s.data
  if t.isEmpty then some 0
  else
    match t with
    | '-' :: ds =>
        if !ds.isEmpty && ds.all (fun c => c.isDigit) then some (-(digitsToNat ds : Int))
        else none
    | ds =>
        if ds.all (fun c => c.isDigit) then some ((digitsToNat ds : Int))
        else none

/-- Model of `isTimestampFresh` with the clock passed explicitly. -/
def isTimestampFresh (now : Int) (timestamp : String) (maxSkewMs : Int := 300000) : Bool :=
  match jsNumberOfString timestamp with
  | none => false
  | some ts => decide (|now - ts| ≤ maxSkewMs)

/-- Model of `validateRequestSignature`; `none` or the empty string are the
falsy header values rejected as missing. -/
def validateRequestSignature (now : Int) (signingKey : String) (payload : JsValue)
    (timestamp signature : Option String) : Bool × Option String :=
  let tPresent := match timestamp with
    | some t => !t.isEmpty
    | none => false
  let sPresent := match signature with
    | some s => !s.isEmpty
    | none => false
  if !(tPresent && sPresent) then (false, some "Missing request signature")
  else if !isTimestampFresh now (timestamp.getD "") then
    (false, some "Request timestamp is invalid or expired")
  else if !isSignatureValid signingKey payload (timestamp.getD "") (signature.getD "") then
    (false, some "Invalid request signature")
  else (true, none)

/-! ## SQL statement splitting (`src/lib/sqlStatements.ts`) -/

/-- Items of a linear regular expression: a literal character, a character
class, a starred character class, and the end-of-input anchor `$`. -/
inductive RItem where
  | lit (c : Char)
  | cls (f : Char → Bool)
  | star (f : Char → Bool)
  | atEnd

/-- Backtracking loop for a starred class: try the continuation at every
point of the remaining input reachable through `g`-characters. -/
def rStar (g : Char → Bool) (cont : List Char → Bool) : List Char → Bool
  | [] => cont []
  | x :: xs => cont (x :: xs) || (g x && rStar g cont xs)

/-- Anchored match of an item sequence against the whole input prefix
position 0 (the test is used fully anchored: `^...$`). -/
def rMatchL : List RItem → List Char → Bool
  | [], _ => true
  | RItem.lit _ :: _, [] => false
  | RItem.lit c :: ps, x :: xs => x == c && rMatchL ps xs
  | RItem.cls _ :: _, [] => false
  | RItem.cls g :: ps, x :: xs => g x && rMatchL ps xs
  | RItem.star g :: ps, xs => rStar g (rMatchL ps) xs
  | RItem.atEnd :: ps, xs => xs.isEmpty && rMatchL ps xs

/-- First character of a dollar-quote tag name: `[A-Za-z_]`. -/
def tagStartChar (c : Char) : Bool :=
  c.isAlpha || c = '_'

/-- The tag-validation regex of `splitSqlStatements`, item by item.  The
source file contains the literal `/^\\$[A-Za-z_][A-Za-z0-9_]*\\$$/`, in
which each `\\` is an escaped backslash and the `$` after it is an
end-of-input anchor (not an escaped dollar sign), followed by the final
anchor. -/
def sqlDollarTagItems : List RItem :=
  [RItem.lit '\\', RItem.atEnd, RItem.cls tagStartChar, RItem.star jsIsWordChar,
    RItem.lit '\\', RItem.atEnd, RItem.atEnd]

/-- `regex.test(tag)` for the dollar-tag regex. -/
def tagRegexTest (tag : List Char) : Bool :=
  rMatchL sqlDollarTagItems tag

/-- `indexOf`-style first-occurrence split: `some (before, after)` when the
input is `before ++ c :: after` and `c` does not occur in `before`. -/
def splitAtChar (c : Char) : List Char → Option (List Char × List Char)
  | [] => none
  | x :: xs =>
      if x = c then some ([], xs)
      else
        match splitAtChar c xs with
        | some (b, a) => some (x :: b, a)
        | none => none

/-- Loop of `splitSqlStatements`.  `rem` is the input from the current
index, `prev` is `query[i-1]` (`""` at position 0; after an index jump over
a dollar tag the preceding character is the tag's final `'$'`).  The quote
guards compare `prev` against the two-character string `\x5c\x5c` because
the source literally writes `prev !== '\\\\'`, a comparison of a
one-character string with a two-character one. -/
def splitSqlGo (fuel : Nat) (rem : List Char) (prev : String)
    (inSingle inDouble : Bool) (dollarTag : Option (List Char))
    (current : List Char) (statements : List String) : List String :=
  match fuel, rem with
  | _, [] =>
      if jsTrimList current = [] then statements
      else statements ++ [⟨jsTrimList current⟩]
  | 0, _ :: _ => statements
  | Nat.succ f, c :: rest =>
      match dollarTag with
      | some tag =>
          if startsWithL tag (c :: rest) then
            splitSqlGo f ((c :: rest).drop tag.length) "$" inSingle inDouble none
              (current ++ tag) statements
          else
            splitSqlGo f rest ⟨[c]⟩ inSingle inDouble (some tag)
              (current ++ [c]) statements
      | none =>
          if inSingle then
            splitSqlGo f rest ⟨[c]⟩
              (if c = '\'' ∧ prev ≠ "\\\\" then false else true) inDouble none
              (current ++ [c]) statements
          else if inDouble then
            splitSqlGo f rest ⟨[c]⟩ inSingle
              (if c = '"' ∧ prev ≠ "\\\\" then false else true) none
              (current ++ [c]) statements
          else if c = '\'' then
            splitSqlGo f rest ⟨[c]⟩ true inDouble none (current ++ [c]) statements
          else if c = '"' then
            splitSqlGo f rest ⟨[c]⟩ inSingle true none (current ++ [c]) statements
          else if c = '$' then
            match splitAtChar '$' rest with
            | some (middle, after) =>
                let tag := '$' :: (middle ++ ['$'])
                if tagRegexTest tag || tag = ['$', '$'] then
                  splitSqlGo f after "$" inSingle inDouble (some tag)
                    (current ++ tag) statements
                else
                  splitSqlGo f rest ⟨[c]⟩ inSingle inDouble none
                    (current ++ [c]) statements
            | none =>
                splitSqlGo f rest ⟨[c]⟩ inSingle inDouble none
                  (current ++ [c]) statements
          else if c = ';' then
            splitSqlGo f rest ⟨[c]⟩ inSingle inDouble none []
              (if jsTrimList current = [] then statements
               else statements ++ [⟨jsTrimList current⟩])
          else
            splitSqlGo f rest ⟨[c]⟩ inSingle inDouble none
              (current ++ [c]) statements

/-- Model of `splitSqlStatements`; one unit of fuel per input position is
enough because every iteration consumes at least one character. -/
def splitSqlStatements (query : String) : List String :=
  splitSqlGo (query.data.length + 1) query.data "" false false none [] []

/-- Modes of the reference splitter. -/
inductive SqlRefMode where
  | top | single | double | dollar

/-- Reference splitter following the amended specification text: split at
semicolons outside single quotes, double quotes and `$$`-quoted bodies;
backslash escapes, SQL comments and named `$tag$` delimiters are not
recognised; trimmed non-empty pieces are emitted in order. -/
def refSplitSqlGo : (rem : List Char) → SqlRefMode → List Char → List String → List String
  | [], _, current, acc =>
      if jsTrimList current = [] then acc else acc ++ [⟨jsTrimList current⟩]
  | c :: rest, mode, current, acc =>
      match mode with
      | SqlRefMode.top =>
          if c = '\'' then refSplitSqlGo rest SqlRefMode.single (current ++ [c]) acc
          else if c = '"' then refSplitSqlGo rest SqlRefMode.double (current ++ [c]) acc
          else if c = '$' then
            match rest with
            | r2 :: rest2 =>
                if r2 = '$' then
                  refSplitSqlGo rest2 SqlRefMode.dollar (current ++ ['$', '$']) acc
                else refSplitSqlGo (r2 :: rest2) SqlRefMode.top (current ++ [c]) acc
            | [] => refSplitSqlGo [] SqlRefMode.top (current ++ [c]) acc
          else if c = ';' then
            refSplitSqlGo rest SqlRefMode.top []
              (if jsTrimList current = [] then acc else acc ++ [⟨jsTrimList current⟩])
          else refSplitSqlGo rest SqlRefMode.top (current ++ [c]) acc
      | SqlRefMode.single =>
          if c = '\'' then refSplitSqlGo rest SqlRefMode.top (current ++ [c]) acc
          else refSplitSqlGo rest SqlRefMode.single (current ++ [c]) acc
      | SqlRefMode.double =>
          if c = '"' then refSplitSqlGo rest SqlRefMode.top (current ++ [c]) acc
          else refSplitSqlGo rest SqlRefMode.double (current ++ [c]) acc
      | SqlRefMode.dollar =>
          match rest with
          | r2 :: rest2 =>
              if c = '$' ∧ r2 = '$' then
                refSplitSqlGo rest2 SqlRefMode.top (current ++ ['$', '$']) acc
              else refSplitSqlGo (r2 :: rest2) SqlRefMode.dollar (current ++ [c]) acc
          | [] => refSplitSqlGo [] SqlRefMode.dollar (current ++ [c]) acc
termination_by structural rem => rem

/-- Reference splitter on strings. -/
def refSplitSql (query : String) : List String :=
  refSplitSqlGo query.data SqlRefMode.top [] []

/-! ## Session / Connection Manager (`src/lib/ConnectionManager.ts`) -/

/-- Lookup in a JavaScript `Map` modelled as an association list (first
match). -/
def mapGet {α : Type} : List (String × α) → String → Option α
  | [], _ => none
  | p :: rest, k => if p.1 == k then some p.2 else mapGet rest k

/-- `Map.set`: replace the existing entry in place, else append. -/
def mapSet {α : Type} : List (String × α) → String → α → List (String × α)
  | [], k, v => [(k, v)]
  | p :: rest, k, v => if p.1 == k then (k, v) :: rest else p :: mapSet rest k v

/-- `Map.delete`. -/
def mapDelete {α : Type} : List (String × α) → String → List (String × α)
  | [], _ => []
  | p :: rest, k => if p.1 == k then mapDelete rest k else p :: mapDelete rest k

/-- JavaScript truthiness of an optional string (`undefined` and `""` are
falsy). -/
def optTruthy : Option String → Bool
  | some s => !s.isEmpty
  | none => false

/-- Server-side session record (`Session`). `adapterUrl` stands for the URL
the owned adapter is connected to. -/
structure Session where
  id : String
  type : DatabaseType
  adapterUrl : String
  signingKey : String
  userId : Option String
  isIsolated : Bool
  isDefaultConnection : Bool
  allowDestructive : Option Bool
  userDatabase : Option String
  lastActivity : Int
deriving DecidableEq, Repr

/-- Connection-manager state: the session registry and the per-user session
binding. -/
structure CMState where
  sessions : List (String × Session)
  userSessions : List (String × String)
deriving DecidableEq, Repr

/-- The empty registry. -/
def initialCMState : CMState := ⟨[], []⟩

/-- Model of `ConnectionManager.closeSession`: drop the session entry and
unbind its user only when the binding still points at this session
(`disconnect` errors are swallowed by the source and not modelled). -/
def closeSession (st : CMState) (sessionId : String) : CMState :=
  match mapGet st.sessions sessionId with
  | none => st
  | some session =>
      let sessions' := mapDelete st.sessions sessionId
      let userSessions' :=
        if optTruthy session.userId then
          match mapGet st.userSessions (session.userId.getD "") with
          | some current =>
              if current == sessionId then mapDelete st.userSessions (session.userId.getD "")
              else st.userSessions
          | none => st.userSessions
        else st.userSessions
      ⟨sessions', userSessions'⟩

/-- Per-tenant isolation database name:
`u_` + first 32 hex characters of SHA-256 of the user id. -/
def userDatabaseName (userId : String) : String :=
  ⟨'u' :: '_' :: ((bytesToHex (sha256 (stringToBytes userId))).data.take 32)⟩

/-- Model of rewriting the `pathname` of a well-formed `scheme://host/...`
URL (the WHATWG URL surgery done by `createSession`): keep everything up to
the first `/` after the `://` separator, then append the new path. -/
def urlWithPath (url path : String) : String :=
  let rec afterScheme : List Char → List Char
    | ':' :: '/' :: '/' :: rest => rest.dropWhile (fun c => !(c = '/'))
    | _ :: rest => afterScheme rest
    | [] => []
  let tail := afterScheme url.data
  ⟨url.data.take (url.data.length - tail.length) ++ path.data⟩

/-- Failure scenario for one `createSession` call: whether a step inside the
isolation-provisioning `try` block throws (the inner `CREATE DATABASE`
try/catch swallows its own errors and is not a failure here), whether the
`catch`-block reconnect to the original URL throws, and whether a plain
(non-isolated) connect throws. -/
structure CreateEnv where
  provisionFails : Bool
  fallbackConnectFails : Bool
  plainConnectFails : Bool
deriving DecidableEq, Repr

/-- First phase of `createSession`: close the user's previous session, if
one is bound. -/
def closePrevious (st : CMState) (userId : Option String) : CMState :=
  if optTruthy userId then
    match mapGet st.userSessions (userId.getD "") with
    | some previousSessionId => closeSession st previousSessionId
    | none => st
  else st

/-- Model of `ConnectionManager.createSession`.  The temp-adapter traffic
(existence check / `CREATE DATABASE`) acts only on the external engine and
is abstracted into `CreateEnv`; the state effects modelled are the close of
the user's previous session, the URL the main adapter ends up connected
to, and the recorded session and bindings.  `sessionId` and `signingKey`
stand for the fresh random values. -/
def createSession (env : CreateEnv) (st : CMState) (type : DatabaseType)
    (connectionUrl : String) (userId : Option String)
    (isIsolated : Bool) (isDefaultConnection : Bool)
    (sessionId signingKey : String) (now : Int) :
    Except String (CMState × Session) :=
  -- close the user's previous session, if bound
  let st1 := closePrevious st userId
  -- provisioning: the adapter's final URL and the userDatabase value
  let provisioned : Except String (String × Option String) :=
    if isIsolated && optTruthy userId then
      let userDb := userDatabaseName (userId.getD "")
      if env.provisionFails then
        if env.fallbackConnectFails then .error "connect failed"
        else .ok (connectionUrl, none)
      else
        match type with
        | DatabaseType.mongodb => .ok (connectionUrl, some userDb)
        | DatabaseType.postgresql =>
            .ok (urlWithPath connectionUrl ("/" ++ userDb), some userDb)
        | DatabaseType.mysql =>
            .ok (urlWithPath connectionUrl ("/" ++ userDb), some userDb)
    else if env.plainConnectFails then .error "connect failed"
    else .ok (connectionUrl, none)
  match provisioned with
  | .error e => .error e
  | .ok (adapterUrl, userDatabase) =>
      let session : Session :=
        { id := sessionId
          type := type
          adapterUrl := adapterUrl
          signingKey := signingKey
          userId := userId
          isIsolated := isIsolated
          isDefaultConnection := isDefaultConnection
          allowDestructive := none
          userDatabase := userDatabase
          lastActivity := now }
      let st2 : CMState :=
        { sessions := mapSet st1.sessions sessionId session
          userSessions :=
            if optTruthy userId then mapSet st1.userSessions (userId.getD "") sessionId
            else st1.userSessions }
      .ok (st2, session)

/-- Model of `ConnectionManager.getSession`: touch `lastActivity`. -/
def getSession (st : CMState) (sessionId : String) (now : Int) : CMState × Option Session :=
  match mapGet st.sessions sessionId with
  | some s =>
      let s' := { s with lastActivity := now }
      (⟨mapSet st.sessions sessionId s', st.userSessions⟩, some s')
  | none => (st, none)

/-- Model of `ConnectionManager.setSessionAllowDestructive`. -/
def setSessionAllowDestructive (st : CMState) (sessionId : String) (allow : Bool)
    (now : Int) : CMState × Bool :=
  match mapGet st.sessions sessionId with
  | none => (st, false)
  | some s =>
      if !s.isDefaultConnection then (st, false)
      else
        (⟨mapSet st.sessions sessionId
          { s with allowDestructive := some allow, lastActivity := now }, st.userSessions⟩,
         true)

/-- One observable operation of the connection manager.  A `createSession`
call that fails after closing the previous session leaves the state of the
close, which is the `close` step, so failed creates add no reachable
states. -/
inductive CMStep : CMState → CMState → Prop where
  | create {env st type connectionUrl userId isIsolated isDefaultConnection
      sessionId signingKey now st' sess} :
      createSession env st type connectionUrl userId isIsolated isDefaultConnection
        sessionId signingKey now = .ok (st', sess) →
      mapGet st.sessions sessionId = none →
      CMStep st st'
  | close {st} (sessionId : String) : CMStep st (closeSession st sessionId)
  | get {st} (sessionId : String) (now : Int) : CMStep st (getSession st sessionId now).1
  | setAllow {st} (sessionId : String) (allow : Bool) (now : Int) :
      CMStep st (setSessionAllowDestructive st sessionId allow now).1

/-- States reachable from the empty registry. -/
def CMReachable (st : CMState) : Prop :=
  Relation.ReflTransGen CMStep initialCMState st

/-- Registry invariant: every user binding points at a registered session
carrying that (non-empty) user id, and every registered session with a
non-empty user id is the one its user is bound to. -/
def CMInv (st : CMState) : Prop :=
  (∀ u sid, mapGet st.userSessions u = some sid →
    ∃ s, mapGet st.sessions sid = some s ∧ s.userId = some u ∧ u ≠ "") ∧
  (∀ sid s u, mapGet st.sessions sid = some s → s.userId = some u → u ≠ "" →
    mapGet st.userSessions u = some sid)

/-- Example session produced by a plain (non-isolated) `createSession`. -/
def exSessionA : Session :=
  ⟨"sid1", DatabaseType.postgresql, "postgres://h/db", "k", some "alice",
    false, false, none, none, 0⟩

/-- Example registry holding `exSessionA` bound to its user. -/
def exStateA : CMState := ⟨[("sid1", exSessionA)], [("alice", "sid1")]⟩

/-- A stale session for user alice (the binding has moved on to `sid2`). -/
def exStaleSession : Session :=
  ⟨"sid1", DatabaseType.postgresql, "postgres://h/db", "k", some "alice",
    false, false, none, none, 0⟩

/-- The user's current session `sid2`. -/
def exNewSession : Session :=
  ⟨"sid2", DatabaseType.postgresql, "postgres://h/db", "k", some "alice",
    false, false, none, none, 1⟩

/-- Registry with both the stale `sid1` and the current `sid2`, the user
bound to `sid2`. -/
def exStaleState : CMState :=
  ⟨[("sid1", exStaleSession), ("sid2", exNewSession)], [("alice", "sid2")]⟩

/-- The session recorded by an isolated `createSession` whose provisioning
failed: `isIsolated` still true, `userDatabase` cleared. -/
def exDowngradeSession : Session :=
  ⟨"sid1", DatabaseType.postgresql, "postgres://h/db", "k", some "alice",
    true, false, none, none, 0⟩

/-- Registry holding `exDowngradeSession`. -/
def exDowngradeState : CMState :=
  ⟨[("sid1", exDowngradeSession)], [("alice", "sid1")]⟩

/-! ## Mongo shell argument parsing (`parseMongoArgs` and `reviveMongoTypes`
in `src/unnamed/part_022`; an older revision without type revival lives in
`src/lib/adapters/mongoParser.ts`) -/

/-- Is the character one of the two JavaScript quote characters? -/
def isQuote (c : Char) : Bool := c = '"' || c = '\''

/-- Case-insensitive literal match (the `i` regex flag): the pattern is
given in lowercase; returns the rest of the input on success. -/
def matchLitCI : List Char → List Char → Option (List Char)
  | [], l => some l
  | _ :: _, [] => none
  | p :: ps, c :: cs => if c.toLower = p then matchLitCI ps cs else none

/-- `\s*` (ASCII model, consistent with `jsIsSpaceChar`). -/
def skipWs (l : List Char) : List Char := l.dropWhile jsIsSpaceChar

/-- The common tail `\s*\(\s*["']([^"']+)["']\s*\)` of the `ObjectId`,
`ISODate` and `new Date` rewrites: the capture is one-plus characters that
are not a quote of either kind, and the closing quote may be either kind. -/
def parenQuotedPart (l : List Char) : Option (List Char × List Char) :=
  match skipWs l with
  | '(' :: r3 =>
      match skipWs r3 with
      | q :: r5 =>
          if isQuote q then
            match r5.span (fun c => !(isQuote c)) with
            | (content, q2 :: r7) =>
                if content.isEmpty then none
                else if isQuote q2 then
                  match skipWs r7 with
                  | ')' :: r9 => some (content, r9)
                  | _ => none
                else none
            | (_, []) => none
          else none
      | [] => none
  | _ => none

/-- The common tail `\s*\(\s*["']?(D+)["']?\s*\)` of the numeric rewrites;
`digitPred` is `\d` for `NumberLong`/`NumberInt` and `[0-9.]` for
`NumberDecimal`; `allowQuote` is false for `NumberInt`.  Both optional
quotes are independent, exactly as in the source regexes. -/
def parenNumPart (allowQuote : Bool) (digitPred : Char → Bool) (l : List Char) :
    Option (List Char × List Char) :=
  match skipWs l with
  | '(' :: r3 =>
      let r4 := skipWs r3
      let r5 :=
        if allowQuote then
          match r4 with
          | q :: rq => if isQuote q then rq else r4
          | [] => r4
        else r4
      match r5.span digitPred with
      | ([], _) => none
      | (digits, r6) =>
          let r7 :=
            if allowQuote then
              match r6 with
              | q :: rq => if isQuote q then rq else r6
              | [] => r6
            else r6
          match skipWs r7 with
          | ')' :: r9 => some (digits, r9)
          | _ => none
  | _ => none

/-- Body of a shell regex literal: one-plus units `[^/\x5c]|\x5c.`, taken
greedily.  Greedy matching here coincides with the backtracking JS engine:
a shorter unit sequence is never followed by the required `/`. -/
def regexBodySpan : List Char → List Char × List Char
  | [] => ([], [])
  | '\\' :: c :: rest =>
      let (b, r) := regexBodySpan rest
      ('\\' :: c :: b, r)
  | '\\' :: [] => ([], ['\\'])
  | c :: rest =>
      if c = '/' then ([], c :: rest)
      else
        let (b, r) := regexBodySpan rest
        (c :: b, r)

/-- Body of a single-quoted string `[^'\x5c]*(\x5c.[^'\x5c]*)*`, taken
greedily (again equivalent to the backtracking engine). -/
def sqBodySpan : List Char → List Char × List Char
  | [] => ([], [])
  | '\\' :: c :: rest =>
      let (b, r) := sqBodySpan rest
      ('\\' :: c :: b, r)
  | '\\' :: [] => ([], ['\\'])
  | c :: rest =>
      if c = '\'' then ([], c :: rest)
      else
        let (b, r) := sqBodySpan rest
        (c :: b, r)

/-- The replacement-callback escaping
`.replace(/\x5c/g,'\x5c\x5c').replace(/"/g,'\x5c"')`, fused per character. -/
def jsonEscapeBody (l : List Char) : List Char :=
  l.flatMap (fun c =>
    if c = '\\' then ['\\', '\\']
    else if c = '"' then ['\\', '"']
    else [c])

/-- Opening of the `__$oid` marker object: `{"__$oid":"`. -/
def oidMarkPre : List Char :=
  ['{', '"', '_', '_', '$', 'o', 'i', 'd', '"', ':', '"']

/-- Closing of every marker object: `"}`. -/
def markSuf : List Char := ['"', '}']

/-- Opening of the `__$date` marker. -/
def dateMarkPre : List Char :=
  ['{', '"', '_', '_', '$', 'd', 'a', 't', 'e', '"', ':', '"']

/-- Opening of the `__$numberLong` marker. -/
def longMarkPre : List Char :=
  ['{', '"', '_', '_', '$', 'n', 'u', 'm', 'b', 'e', 'r', 'L', 'o', 'n', 'g',
    '"', ':', '"']

/-- The lookahead `(?=\s*[,}\x5d]|$)`: either whitespace then one of
`,`, `}`, `]`, or the end of the input right here. -/
def regexLookaheadOk (r : List Char) : Bool :=
  (match skipWs r with
   | c :: _ => c = ',' || c = '}' || c = ']'
   | [] => false) || r.isEmpty

/-- One rewrite attempt of the regex-literal pass
`/\x2f((?:[^/\x5c]|\x5c.)+)\x2f([gimsu]*)(?=\s*[,}\x5d]|$)/g`, replaced by
`{"__$regex":"<escaped pattern>","__$options":"<flags>"}`. -/
def matchRegexLitPass (l : List Char) : Option (List Char × List Char) :=
  match l with
  | '/' :: r1 =>
      match regexBodySpan r1 with
      | ([], _) => none
      | (_, []) => none
      | (body, c2 :: r2) =>
          if c2 = '/' then
            let (flags, r3) := r2.span
              (fun c => c = 'g' || c = 'i' || c = 'm' || c = 's' || c = 'u')
            if regexLookaheadOk r3 then
              some (['{', '"', '_', '_', '$', 'r', 'e', 'g', 'e', 'x', '"', ':', '"'] ++
                jsonEscapeBody body ++
                ['"', ',', '"', '_', '_', '$', 'o', 'p', 't', 'i', 'o', 'n', 's', '"', ':', '"'] ++
                flags ++ markSuf, r3)
            else none
          else none
  | _ => none

/-- One rewrite attempt of the `ObjectId` pass. -/
def matchObjectIdPass (l : List Char) : Option (List Char × List Char) :=
  match matchLitCI ['o', 'b', 'j', 'e', 'c', 't', 'i', 'd'] l with
  | some r1 =>
      match parenQuotedPart r1 with
      | some (id, rest) => some (oidMarkPre ++ id ++ markSuf, rest)
      | none => none
  | none => none

/-- One rewrite attempt of the `ISODate` pass. -/
def matchISODatePass (l : List Char) : Option (List Char × List Char) :=
  match matchLitCI ['i', 's', 'o', 'd', 'a', 't', 'e'] l with
  | some r1 =>
      match parenQuotedPart r1 with
      | some (d, rest) => some (dateMarkPre ++ d ++ markSuf, rest)
      | none => none
  | none => none

/-- One rewrite attempt of the `new\s+Date` pass. -/
def matchNewDatePass (l : List Char) : Option (List Char × List Char) :=
  match matchLitCI ['n', 'e', 'w'] l with
  | some r1 =>
      match r1 with
      | c :: _ =>
          if jsIsSpaceChar c then
            match matchLitCI ['d', 'a', 't', 'e'] (skipWs r1) with
            | some r2 =>
                match parenQuotedPart r2 with
                | some (d, rest) => some (dateMarkPre ++ d ++ markSuf, rest)
                | none => none
            | none => none
          else none
      | [] => none
  | none => none

/-- One rewrite attempt of the `NumberLong` pass. -/
def matchNumberLongPass (l : List Char) : Option (List Char × List Char) :=
  match matchLitCI ['n', 'u', 'm', 'b', 'e', 'r', 'l', 'o', 'n', 'g'] l with
  | some r1 =>
      match parenNumPart true Char.isDigit r1 with
      | some (digits, rest) => some (longMarkPre ++ digits ++ markSuf, rest)
      | none => none
  | none => none

/-- One rewrite attempt of the `NumberInt` pass (replaced by the bare
digits). -/
def matchNumberIntPass (l : List Char) : Option (List Char × List Char) :=
  match matchLitCI ['n', 'u', 'm', 'b', 'e', 'r', 'i', 'n', 't'] l with
  | some r1 =>
      match parenNumPart false Char.isDigit r1 with
      | some (digits, rest) => some (digits, rest)
      | none => none
  | none => none

/-- One rewrite attempt of the `NumberDecimal` pass (replaced by the
quoted literal). -/
def matchNumberDecimalPass (l : List Char) : Option (List Char × List Char) :=
  match matchLitCI ['n', 'u', 'm', 'b', 'e', 'r', 'd', 'e', 'c', 'i', 'm', 'a', 'l'] l with
  | some r1 =>
      match parenNumPart true (fun c => c.isDigit || c = '.') r1 with
      | some (digits, rest) => some ('"' :: digits ++ ['"'], rest)
      | none => none
  | none => none

/-- One rewrite attempt of the single-quoted-string pass
`/'([^'\x5c]*(\x5c.[^'\x5c]*)*)'/g`. -/
def matchSingleQuotePass (l : List Char) : Option (List Char × List Char) :=
  match l with
  | '\'' :: r1 =>
      match sqBodySpan r1 with
      | (content, '\'' :: r2) =>
          some ('"' :: jsonEscapeBody content ++ ['"'], r2)
      | _ => none
  | _ => none

/-- First character of a JavaScript identifier: `[a-zA-Z_$]`. -/
def jsIdentStart (c : Char) : Bool := c.isAlpha || c = '_' || c = '$'

/-- Later character of a JavaScript identifier: `[a-zA-Z0-9_$]`. -/
def jsIdentChar (c : Char) : Bool := c.isAlpha || c.isDigit || c = '_' || c = '$'

/-- One rewrite attempt of the unquoted-key pass
`/([{,]\s*)([a-zA-Z_$][a-zA-Z0-9_$]*)\s*:/g`, replaced by `$1"$2":`. -/
def matchUnquotedKeyPass (l : List Char) : Option (List Char × List Char) :=
  match l with
  | c :: r1 =>
      if c = '{' || c = ',' then
        let sp := r1.takeWhile jsIsSpaceChar
        match r1.dropWhile jsIsSpaceChar with
        | k :: r3 =>
            if jsIdentStart k then
              let ident := k :: r3.takeWhile jsIdentChar
              match skipWs (r3.dropWhile jsIdentChar) with
              | ':' :: r6 => some (c :: sp ++ '"' :: ident ++ ['"', ':'], r6)
              | _ => none
            else none
        | [] => none
      else none
  | [] => none

/-- Driver of a global regex replace: scan left to right, at every position
attempt the match, emit its replacement and continue after the consumed
text (the replacement itself is not rescanned, as with `String.replace`).
Every matcher consumes at least one character, so one unit of fuel per
input character is enough. -/
def replaceScanFuel (fuel : Nat) (m : List Char → Option (List Char × List Char)) :
    List Char → List Char
  | l =>
    match fuel, l with
    | _, [] => []
    | 0, l => l
    | Nat.succ f, c :: rest =>
        match m (c :: rest) with
        | some (rep, rest2) => rep ++ replaceScanFuel f m rest2
        | none => c :: replaceScanFuel f m rest

/-- One full global-replace pass. -/
def passRun (m : List Char → Option (List Char × List Char)) (l : List Char) :
    List Char :=
  replaceScanFuel l.length m l

/-- The normalization pipeline of `parseMongoArgs`, pass by pass in source
order. -/
def mongoNormalize (l : List Char) : List Char :=
  let n1 := passRun matchRegexLitPass l
  let n2 := passRun matchObjectIdPass n1
  let n3 := passRun matchISODatePass n2
  let n4 := passRun matchNewDatePass n3
  let n5 := passRun matchNumberLongPass n4
  let n6 := passRun matchNumberIntPass n5
  let n7 := passRun matchNumberDecimalPass n6
  let n8 := passRun matchSingleQuotePass n7
  passRun matchUnquotedKeyPass n8

/-! ### JSON.parse model (ECMA-404 grammar; numbers keep their lexeme) -/

/-- Parsed JSON values.  `JSON.parse` produces IEEE numbers; the model
keeps the numeric lexeme, which none of the verified code inspects. -/
inductive JVal where
  | jnull
  | jbool (b : Bool)
  | jnum (lexeme : List Char)
  | jstr (s : List Char)
  | jarr (elems : List JVal)
  | jobj (entries : List (String × JVal))

/-- The four JSON whitespace characters. -/
def jsonWsChar (c : Char) : Bool :=
  c = ' ' || c = '\t' || c = '\n' || c = '\r'

/-- Drop JSON whitespace. -/
def jsonWsDrop (l : List Char) : List Char := l.dropWhile jsonWsChar

/-- Single-character string escapes. -/
def jsonEscChar? (e : Char) : Option Char :=
  if e = '"' then some '"'
  else if e = '\\' then some '\\'
  else if e = '/' then some '/'
  else if e = 'b' then some '\x08'
  else if e = 'f' then some '\x0c'
  else if e = 'n' then some '\n'
  else if e = 'r' then some '\r'
  else if e = 't' then some '\t'
  else none

/-- Scan a JSON string body up to and including the closing quote,
returning the decoded characters and the rest of the input.  A `\u` escape
outside the scalar range falls back to `Char.ofNat`'s default. -/
def jsonStringBody : List Char → Option (List Char × List Char)
  | [] => none
  | '"' :: rest => some ([], rest)
  | '\\' :: rest =>
      match rest with
      | 'u' :: h1 :: h2 :: h3 :: h4 :: rest2 =>
          match hexVal? h1, hexVal? h2, hexVal? h3, hexVal? h4 with
          | some a, some b, some c, some d =>
              match jsonStringBody rest2 with
              | some (s, r) =>
                  some (Char.ofNat (((a * 16 + b) * 16 + c) * 16 + d) :: s, r)
              | none => none
          | _, _, _, _ => none
      | e :: rest2 =>
          match jsonEscChar? e with
          | some c =>
              match jsonStringBody rest2 with
              | some (s, r) => some (c :: s, r)
              | none => none
          | none => none
      | [] => none
  | c :: rest =>
      if c.toNat < 32 then none
      else
        match jsonStringBody rest with
        | some (s, r) => some (c :: s, r)
        | none => none

/-- Lex a JSON number `-?(0|[1-9][0-9]*)(\.[0-9]+)?([eE][+-]?[0-9]+)?`,
returning the lexeme. -/
def jsonNumberLex (l : List Char) : Option (List Char × List Char) :=
  let (sign, r1) :=
    match l with
    | '-' :: r => (['-'], r)
    | _ => (([] : List Char), l)
  match r1 with
  | '0' :: r2 => jsonNumberFrac sign ['0'] r2
  | c :: r2 =>
      if c.isDigit then
        jsonNumberFrac sign (c :: r2.takeWhile Char.isDigit)
          (r2.dropWhile Char.isDigit)
      else none
  | [] => none
where
  jsonNumberFrac (sign intPart : List Char) (r : List Char) :
      Option (List Char × List Char) :=
    match r with
    | '.' :: rf =>
        match rf.takeWhile Char.isDigit with
        | [] => none
        | fds =>
            jsonNumberExp (sign ++ intPart ++ '.' :: fds)
              (rf.dropWhile Char.isDigit)
    | _ => jsonNumberExp (sign ++ intPart) r
  jsonNumberExp (pre : List Char) (r : List Char) :
      Option (List Char × List Char) :=
    match r with
    | e :: rf =>
        if e = 'e' || e = 'E' then
          let (es, rf2) :=
            match rf with
            | '+' :: rr => (['+'], rr)
            | '-' :: rr => (['-'], rr)
            | _ => (([] : List Char), rf)
          match rf2.takeWhile Char.isDigit with
          | [] => none
          | eds =>
              some (pre ++ e :: es ++ eds, rf2.dropWhile Char.isDigit)
        else some (pre, r)
    | [] => some (pre, r)

mutual

/-- Parse one JSON value (leading whitespace allowed); the fuel bounds the
nesting/iteration depth. -/
def jsonValue : Nat → List Char → Option (JVal × List Char)
  | 0, _ => none
  | Nat.succ f, l =>
      match jsonWsDrop l with
      | 'n' :: 'u' :: 'l' :: 'l' :: r => some (JVal.jnull, r)
      | 't' :: 'r' :: 'u' :: 'e' :: r => some (JVal.jbool true, r)
      | 'f' :: 'a' :: 'l' :: 's' :: 'e' :: r => some (JVal.jbool false, r)
      | '"' :: r =>
          match jsonStringBody r with
          | some (s, r2) => some (JVal.jstr s, r2)
          | none => none
      | '[' :: r =>
          match jsonWsDrop r with
          | ']' :: r2 => some (JVal.jarr [], r2)
          | _ => jsonArrayTail f r []
      | '{' :: r =>
          match jsonWsDrop r with
          | '}' :: r2 => some (JVal.jobj [], r2)
          | _ => jsonObjectTail f r []
      | l1 =>
          match jsonNumberLex l1 with
          | some (lex, r) => some (JVal.jnum lex, r)
          | none => none

/-- Parse the elements of a non-empty array, then the closing bracket. -/
def jsonArrayTail : Nat → List Char → List JVal → Option (JVal × List Char)
  | 0, _, _ => none
  | Nat.succ f, l, acc =>
      match jsonValue f l with
      | none => none
      | some (v, r) =>
          match jsonWsDrop r with
          | ',' :: r2 => jsonArrayTail f r2 (acc ++ [v])
          | ']' :: r2 => some (JVal.jarr (acc ++ [v]), r2)
          | _ => none

/-- Parse the members of a non-empty object, then the closing brace.
Duplicate keys overwrite in place, as `JSON.parse` does. -/
def jsonObjectTail : Nat → List Char → List (String × JVal) →
    Option (JVal × List Char)
  | 0, _, _ => none
  | Nat.succ f, l, acc =>
      match jsonWsDrop l with
      | '"' :: r =>
          match jsonStringBody r with
          | none => none
          | some (k, r2) =>
              match jsonWsDrop r2 with
              | ':' :: r3 =>
                  match jsonValue f r3 with
                  | none => none
                  | some (v, r4) =>
                      let acc2 := mapSet acc ⟨k⟩ v
                      match jsonWsDrop r4 with
                      | ',' :: r5 => jsonObjectTail f r5 acc2
                      | '}' :: r5 => some (JVal.jobj acc2, r5)
                      | _ => none
              | _ => none
      | _ => none

end

/-- `JSON.parse` on a character list: one value, then only whitespace. -/
def jsonParse (l : List Char) : Option JVal :=
  match jsonValue (l.length + 1) l with
  | some (v, r) => if (jsonWsDrop r).isEmpty then some v else none
  | none => none

/-! ### reviveMongoTypes and the BSON value domain -/

/-- Values produced by `reviveMongoTypes`: JSON values plus the four BSON
shell types.  `blong` holds the 64-bit value `Long.fromString` wraps to;
`bdate` holds milliseconds since the epoch; `bregex` holds source and
flags. -/
inductive BVal where
  | bnull
  | bbool (b : Bool)
  | bnum (lexeme : List Char)
  | bstr (s : List Char)
  | barr (elems : List BVal)
  | bobj (entries : List (String × BVal))
  | boid (hex : List Char)
  | bdate (ms : Int)
  | blong (v : Int)
  | bregex (pattern flags : List Char)

mutual

/-- Structural injection of parsed JSON into the BSON domain (the
`return value` paths of `reviveMongoTypes`, which keep the object as-is). -/
def jvalToB : JVal → BVal
  | JVal.jnull => BVal.bnull
  | JVal.jbool b => BVal.bbool b
  | JVal.jnum x => BVal.bnum x
  | JVal.jstr s => BVal.bstr s
  | JVal.jarr l => BVal.barr (jvalToBList l)
  | JVal.jobj entries => BVal.bobj (jvalToBEntries entries)

/-- `jvalToB` on a list of values. -/
def jvalToBList : List JVal → List BVal
  | [] => []
  | v :: rest => jvalToB v :: jvalToBList rest

/-- `jvalToB` on object entries. -/
def jvalToBEntries : List (String × JVal) → List (String × BVal)
  | [] => []
  | (k, v) :: rest => (k, jvalToB v) :: jvalToBEntries rest

end

/-- `typeof obj.k === 'string'` together with the read of the property. -/
def getStr? (entries : List (String × JVal)) (k : String) : Option (List Char) :=
  match mapGet entries k with
  | some (JVal.jstr s) => some s
  | _ => none

/-- The `Object.keys(obj).length === 1 && typeof obj.__$oid === 'string'`
guard (and its two siblings). -/
def singletonStr? (entries : List (String × JVal)) (k : String) :
    Option (List Char) :=
  if entries.length = 1 then getStr? entries k else none

/-- `new ObjectId(s)` succeeds exactly on 24 hexadecimal characters. -/
def objectIdValid (s : List Char) : Bool :=
  s.length = 24 && s.all (fun c => (hexVal? c).isSome)

/-- Decimal value of a digit list (most significant first). -/
def decDigitsVal (l : List Char) : Nat :=
  l.foldl (fun acc c => acc * 10 + (c.toNat - '0'.toNat)) 0

/-- `Long.fromString`: an optional sign and one-plus decimal digits,
wrapped into a signed 64-bit value; anything else throws. -/
def longFromString? (s : List Char) : Option Int :=
  let (neg, ds) :=
    match s with
    | '-' :: rest => (true, rest)
    | _ => (false, s)
  if ds.isEmpty || !ds.all Char.isDigit then none
  else
    let v : Int := if neg then -(decDigitsVal ds : Int) else (decDigitsVal ds : Int)
    let w := ((v % (2 ^ 64 : Int)) + 2 ^ 64) % 2 ^ 64
    some (if w < 2 ^ 63 then w else w - 2 ^ 64)

/-- Days between 1970-01-01 and the given civil date (Gregorian,
era-based computation). -/
def daysFromCivil (y m d : Int) : Int :=
  let y2 := if m ≤ 2 then y - 1 else y
  let era := Int.fdiv (if 0 ≤ y2 then y2 else y2 - 399) 400
  let yoe := y2 - era * 400
  let mp := if 2 < m then m - 3 else m + 9
  let doy := Int.fdiv (153 * mp + 2) 5 + d - 1
  let doe := yoe * 365 + Int.fdiv yoe 4 - Int.fdiv yoe 100 + doy
  era * 146097 + doe - 719468

/-- Two decimal digits to a number, if both are digits. -/
def twoDigits? : List Char → Option (Nat × List Char)
  | a :: b :: rest =>
      if a.isDigit && b.isDigit then
        some ((a.toNat - '0'.toNat) * 10 + (b.toNat - '0'.toNat), rest)
      else none
  | _ => none

/-- Days in a month of a (possibly leap) year. -/
def daysInMonth (y m : Nat) : Nat :=
  if m = 2 then
    if y % 4 = 0 && (y % 100 ≠ 0 || y % 400 = 0) then 29 else 28
  else if m = 4 || m = 6 || m = 9 || m = 11 then 30
  else 31

/-- Model of `Date.parse` on the complete ECMA simplified ISO format
`YYYY-MM-DDTHH:MM:SS.sssZ`; every other input is treated as unparseable
(the engine-specific fallback formats are outside this model). -/
def dateParse? (s : List Char) : Option Int :=
  match s with
  | y1 :: y2 :: y3 :: y4 :: '-' :: rest =>
      if (y1 :: y2 :: y3 :: [y4]).all Char.isDigit then
        let y := decDigitsVal (y1 :: y2 :: y3 :: [y4])
        match twoDigits? rest with
        | some (mo, '-' :: rest2) =>
            match twoDigits? rest2 with
            | some (d, 'T' :: rest3) =>
                match twoDigits? rest3 with
                | some (h, ':' :: rest4) =>
                    match twoDigits? rest4 with
                    | some (mi, ':' :: rest5) =>
                        match twoDigits? rest5 with
                        | some (sec, '.' :: f1 :: f2 :: f3 :: 'Z' :: []) =>
                            if f1.isDigit && f2.isDigit && f3.isDigit &&
                                (1 ≤ mo && mo ≤ 12) && (1 ≤ d && d ≤ daysInMonth y mo) &&
                                h ≤ 23 && mi ≤ 59 && sec ≤ 59 then
                              let ms := decDigitsVal (f1 :: f2 :: [f3])
                              some ((daysFromCivil y mo d * 86400 +
                                h * 3600 + mi * 60 + sec) * 1000 + ms)
                            else none
                        | _ => none
                    | _ => none
                | _ => none
            | _ => none
        | _ => none
      else none
  | _ => none

/-- Validity of a `new RegExp(pattern, flags)` construction: the flags must
be known and unrepeated.  Syntactic validity of the pattern itself is not
modelled (construction from a syntactically invalid pattern is treated as
succeeding). -/
def regexCtorOk (flags : List Char) : Bool :=
  flags.all (fun c => c = 'd' || c = 'g' || c = 'i' || c = 'm' || c = 's' ||
    c = 'u' || c = 'v' || c = 'y') && nodupChars flags
where
  nodupChars : List Char → Bool
    | [] => true
    | c :: rest => !rest.contains c && nodupChars rest

mutual

/-- Model of `reviveMongoTypes`: arrays map recursively; a singleton
`__$oid` / `__$date` / `__$numberLong` object becomes the BSON value when
the constructor succeeds and is otherwise returned as-is; an object with a
string `__$regex` becomes a regular expression; other objects revive their
values recursively. -/
def reviveMongoTypes (v : JVal) : BVal :=
  match v with
  | JVal.jarr l => BVal.barr (reviveList l)
  | JVal.jobj entries =>
      match singletonStr? entries "__$oid" with
      | some s =>
          if objectIdValid s then BVal.boid s else jvalToB (JVal.jobj entries)
      | none =>
        match singletonStr? entries "__$date" with
        | some s =>
            match dateParse? s with
            | some t => BVal.bdate t
            | none => jvalToB (JVal.jobj entries)
        | none =>
          match singletonStr? entries "__$numberLong" with
          | some s =>
              match longFromString? s with
              | some v2 => BVal.blong v2
              | none => jvalToB (JVal.jobj entries)
          | none =>
            match getStr? entries "__$regex" with
            | some pat =>
                let flags := (getStr? entries "__$options").getD []
                if regexCtorOk flags then BVal.bregex pat flags
                else jvalToB (JVal.jobj entries)
            | none => BVal.bobj (reviveEntries entries)
  | JVal.jnull => BVal.bnull
  | JVal.jbool b => BVal.bbool b
  | JVal.jnum x => BVal.bnum x
  | JVal.jstr s => BVal.bstr s

/-- `reviveMongoTypes` on a list. -/
def reviveList : List JVal → List BVal
  | [] => []
  | v :: rest => reviveMongoTypes v :: reviveList rest

/-- `reviveMongoTypes` on object entries. -/
def reviveEntries : List (String × JVal) → List (String × BVal)
  | [] => []
  | (k, v) :: rest => (k, reviveMongoTypes v) :: reviveEntries rest

end

/-- `Array.isArray(parsed) ? parsed : [parsed]`. -/
def asArgsList (b : BVal) : List BVal :=
  match b with
  | BVal.barr l => l
  | _ => [b]

/-- The hand-walk fallback of `parseMongoArgs`: split the normalized text
at top-level commas (tracking strings with their quote kind and a working
escape guard, and bracket depth), `JSON.parse` and revive each trimmed
non-empty piece; a piece that fails to parse throws to the outer catch. -/
def commaWalkGo (rem : List Char) (prev : Option Char) (inString : Bool)
    (stringChar : Option Char) (depth : Int) (current : List Char)
    (args : List BVal) : Except Unit (List BVal) :=
  match rem with
  | [] =>
      if (jsTrimList current).isEmpty then Except.ok args
      else
        match jsonParse (jsTrimList current) with
        | some v => Except.ok (args ++ [reviveMongoTypes v])
        | none => Except.error ()
  | c :: rest =>
      let strState :=
        if (c = '"' || c = '\'') && prev ≠ some '\\' then
          if !inString then (true, some c)
          else if some c = stringChar then (false, (none : Option Char))
          else (inString, stringChar)
        else (inString, stringChar)
      let inString2 := strState.1
      let stringChar2 := strState.2
      let depth2 :=
        if !inString2 then
          if c = '{' || c = '[' then depth + 1
          else if c = '}' || c = ']' then depth - 1
          else depth
        else depth
      if !inString2 && c = ',' && depth2 = 0 then
        if (jsTrimList current).isEmpty then
          commaWalkGo rest (some c) inString2 stringChar2 depth2 [] args
        else
          match jsonParse (jsTrimList current) with
          | some v =>
              commaWalkGo rest (some c) inString2 stringChar2 depth2 []
                (args ++ [reviveMongoTypes v])
          | none => Except.error ()
      else commaWalkGo rest (some c) inString2 stringChar2 depth2
        (current ++ [c]) args

/-- The inner try of `parseMongoArgs` on the normalized text: `JSON.parse`
directly, then wrapped in brackets, then the comma walk (whose own
`args.length > 0 ? args : [.. JSON.parse(normalized)]` fallback re-parses
the whole text). -/
def parseMongoAttempt (normalized : List Char) : Except Unit (List BVal) :=
  match jsonParse normalized with
  | some v => Except.ok (asArgsList (reviveMongoTypes v))
  | none =>
      match jsonParse (if startsWithL ['['] normalized then normalized
        else '[' :: (normalized ++ [']'])) with
      | some v => Except.ok (asArgsList (reviveMongoTypes v))
      | none =>
          match commaWalkGo normalized none false none 0 [] [] with
          | Except.ok args =>
              if args.isEmpty then
                match jsonParse normalized with
                | some v => Except.ok [reviveMongoTypes v]
                | none => Except.error ()
              else Except.ok args
          | Except.error e => Except.error e

/-- Model of `parseMongoArgs` (the `part_022` revision with markers and
`reviveMongoTypes`): empty input gives no arguments; otherwise normalize
and attempt the parses; the outer catch turns `{}` and `[]` into their
literal values and otherwise reports the failure (the source re-trims
`argsStr` at each of these uses). -/
def parseMongoArgs (argsStr : String) : Except String (List BVal) :=
  if (jsTrimList argsStr.data).isEmpty then Except.ok []
  else
    match parseMongoAttempt (mongoNormalize (jsTrimList argsStr.data)) with
    | Except.ok args => Except.ok args
    | Except.error _ =>
        if jsTrimList argsStr.data = "{}".data then Except.ok [BVal.bobj []]
        else if jsTrimList argsStr.data = "[]".data then Except.ok [BVal.barr []]
        else Except.error ("Failed to parse query arguments: " ++
          ⟨argsStr.data.take 100⟩)

/-! ## Theorems -/

theorem lowerList_append (l₁ l₂ : List Char) :
    lowerList (l₁ ++ l₂) = lowerList l₁ ++ lowerList l₂ :=
  List.map_append _ _ _

theorem startsWithL_self_append : ∀ (p l : List Char), startsWithL p (p ++ l) = true
  | [], _ => rfl
  | c :: cs, l => by simp [startsWithL, startsWithL_self_append cs l]

theorem startsWithL_iff_exists {p l : List Char} :
    startsWithL p l = true ↔ ∃ u, l = p ++ u := by
  induction p generalizing l with
  | nil => simp [startsWithL]
  | cons c cs ih =>
    cases l with
    | nil => simp [startsWithL]
    | cons d ds =>
      simp only [startsWithL, Bool.and_eq_true, beq_iff_eq, ih]
      constructor
      · rintro ⟨rfl, u, rfl⟩
        exact ⟨u, rfl⟩
      · rintro ⟨u, h⟩
        rw [List.cons_append] at h
        cases h
        exact ⟨rfl, u, rfl⟩

theorem startsWithL_append_right {p l : List Char} (m : List Char)
    (h : startsWithL p l = true) : startsWithL p (l ++ m) = true := by
  rcases startsWithL_iff_exists.mp h with ⟨u, rfl⟩
  rw [List.append_assoc]
  exact startsWithL_self_append p (u ++ m)

theorem length_le_of_startsWithL {p l : List Char} (h : startsWithL p l = true) :
    p.length ≤ l.length := by
  rcases startsWithL_iff_exists.mp h with ⟨u, rfl⟩
  simp

theorem dropWhile_cons_of_neg {p : Char → Bool} {c : Char} (l : List Char)
    (h : p c = false) : (c :: l).dropWhile p = c :: l := by
  simp [List.dropWhile, h]

theorem jsTrimList_eq_self {l : List Char}
    (h1 : l.dropWhile jsIsSpaceChar = l)
    (h2 : l.reverse.dropWhile jsIsSpaceChar = l.reverse) : jsTrimList l = l := by
  simp [jsTrimList, h1, h2]

theorem trimRight_decomp (l : List Char) :
    ∃ u, l = (l.reverse.dropWhile jsIsSpaceChar).reverse ++ u ∧
      ∀ c ∈ u, jsIsSpaceChar c = true := by
  refine ⟨(l.reverse.takeWhile jsIsSpaceChar).reverse, ?_, ?_⟩
  · conv_lhs => rw [← l.reverse_reverse,
      ← List.takeWhile_append_dropWhile (p := jsIsSpaceChar) (l := l.reverse)]
    rw [List.reverse_append]
  · intro c hc
    rw [List.mem_reverse] at hc
    exact List.mem_takeWhile_imp hc

theorem stripTrailSemi_decomp (t : List Char) :
    ∃ u, t = (stripTrailSemiList t).1 ++ u ∧
      ((stripTrailSemiList t).2 = true →
        ∃ w, u = ';' :: w ∧ ∀ c ∈ w, jsIsSpaceChar c = true) ∧
      ((stripTrailSemiList t).2 = false → u = []) := by
  rcases trimRight_decomp t with ⟨w, hw, hwsp⟩
  unfold stripTrailSemiList
  split
  · next rest heq =>
      refine ⟨';' :: w, ?_, fun _ => ⟨w, rfl, hwsp⟩, fun h => by cases h⟩
      rw [heq] at hw
      simpa using hw
  · exact ⟨[], by simp, by simp, fun _ => rfl⟩

theorem space_char_cases {c : Char} (h : jsIsSpaceChar c = true) :
    c = ' ' ∨ c = '\t' ∨ c = '\n' ∨ c = '\r' ∨ c = '\x0b' ∨ c = '\x0c' := by
  simp [jsIsSpaceChar] at h
  tauto

theorem toLower_not_alpha_of_sep {c : Char} (h : c = ';' ∨ jsIsSpaceChar c = true) :
    c.toLower.isAlpha = false := by
  rcases h with rfl | h
  · decide
  · rcases space_char_cases h with rfl | rfl | rfl | rfl | rfl | rfl <;> decide

theorem not_space_of_lower_alpha {b : Char} (ha : b.toLower.isAlpha = true) :
    jsIsSpaceChar b = false := by
  by_contra h
  rw [Bool.not_eq_false] at h
  rw [toLower_not_alpha_of_sep (Or.inr h)] at ha
  cases ha

theorem digitChar_isDigit {d : Nat} (h : d < 10) : (Nat.digitChar d).isDigit = true := by
  interval_cases d <;> decide

theorem natDigitsRevFuel_digits (fuel n : Nat) :
    ∀ c ∈ natDigitsRevFuel fuel n, c.isDigit = true := by
  induction fuel generalizing n with
  | zero => simp [natDigitsRevFuel]
  | succ f ih =>
    cases n with
    | zero => simp [natDigitsRevFuel]
    | succ m =>
      intro c hc
      rcases List.mem_cons.mp hc with rfl | hc
      · exact digitChar_isDigit (Nat.mod_lt _ (by decide))
      · exact ih _ c hc

theorem natDigitsRev_digits (n : Nat) : ∀ c ∈ natDigitsRev n, c.isDigit = true :=
  natDigitsRevFuel_digits n n

theorem natDecChars_digits (n : Nat) : ∀ c ∈ natDecChars n, c.isDigit = true := by
  unfold natDecChars
  split
  · simp
  · intro c hc
    exact natDigitsRev_digits n c (List.mem_reverse.mp hc)

theorem natDecChars_ne_nil (n : Nat) : natDecChars n ≠ [] := by
  unfold natDecChars
  split
  · simp
  · next h =>
    obtain ⟨m, rfl⟩ := Nat.exists_eq_succ_of_ne_zero h
    simp [natDigitsRev, natDigitsRevFuel]

theorem intDecString_chars (i : Int) :
    ∀ c ∈ (intDecString i).data, c.isDigit = true ∨ c = '-' := by
  unfold intDecString
  split <;> intro c hc
  · rcases List.mem_cons.mp hc with rfl | hc
    · exact Or.inr rfl
    · exact Or.inl (natDecChars_digits _ c hc)
  · exact Or.inl (natDecChars_digits _ c hc)

theorem intDecString_rev_head (i : Int) :
    ∃ c cs, (intDecString i).data.reverse = c :: cs ∧ c.isDigit = true := by
  have hd : ∃ c cs, (natDecChars i.natAbs).reverse = c :: cs ∧ c.isDigit = true := by
    rcases hr : (natDecChars i.natAbs).reverse with _ | ⟨c, cs⟩
    · exact absurd (by simpa using congrArg List.reverse hr) (natDecChars_ne_nil i.natAbs)
    · refine ⟨c, cs, rfl, natDecChars_digits i.natAbs c ?_⟩
      rw [← List.mem_reverse, hr]
      simp
  rcases hd with ⟨c, cs, hc, hdig⟩
  unfold intDecString
  split
  · exact ⟨c, cs ++ ['-'], by simp [hc], hdig⟩
  · exact ⟨c, cs, by simp [hc], hdig⟩

theorem semi_not_digit_dash {c : Char} (h : c.isDigit = true ∨ c = '-') : c ≠ ';' := by
  rcases h with h | rfl
  · rintro rfl
    cases h
  · decide

theorem wordSearch_of_matchAt {w s : List Char} {i : Nat}
    (hm : wordMatchAt w s i = true) (hi : i ≤ s.length) : wordSearch w s = true := by
  unfold wordSearch
  rw [List.any_eq_true]
  exact ⟨i, List.mem_range.mpr (by omega), hm⟩

theorem contains_iff_memC {l : List Char} {a : Char} : l.contains a = true ↔ a ∈ l := by
  simp

theorem not_semi_in_base {q : String} (h : hasMultipleStatements q = false) :
    ';' ∉ (stripTrailSemiList (jsTrimList q.data)).1 := by
  simp only [hasMultipleStatements] at h
  by_cases hc : (jsTrimList q.data).contains ';'
  · rw [hc] at h
    simp only [Bool.not_true, Bool.false_eq_true, if_false] at h
    intro hmem
    rw [← contains_iff_memC] at hmem
    rw [hmem] at h
    cases h
  · intro hmem
    rcases stripTrailSemi_decomp (jsTrimList q.data) with ⟨u, hu, _⟩
    apply hc
    rw [contains_iff_memC, hu]
    exact List.mem_append_left _ hmem

theorem startsWithL_lower_trans {kw : List Char} (base rp : List Char)
    (hk : ∀ c ∈ kw, c.isAlpha = true)
    (hrp : ∀ c, rp.head? = some c → c.toLower.isAlpha = false)
    (h : startsWithL kw (lowerList (base ++ rp)) = true) :
    startsWithL kw (lowerList base) = true := by
  induction kw generalizing base with
  | nil => rfl
  | cons k ks ih =>
    cases base with
    | nil =>
      cases rp with
      | nil => cases h
      | cons r0 rs =>
        simp only [List.nil_append, lowerList, List.map_cons, startsWithL,
          Bool.and_eq_true, beq_iff_eq] at h
        have halpha := hk k (List.mem_cons_self _ _)
        rw [h.1] at halpha
        rw [hrp r0 rfl] at halpha
        cases halpha
    | cons b bs =>
      simp only [List.cons_append, lowerList, List.map_cons, startsWithL,
        Bool.and_eq_true] at h ⊢
      exact ⟨h.1, ih bs (fun c hc => hk c (List.mem_cons_of_mem _ hc)) h.2⟩

theorem selectLike_keyword_facts :
    ∀ kw ∈ selectLikeKeywords, kw ≠ [] ∧ ∀ c ∈ kw, c.isAlpha = true := by
  decide

theorem selectLike_of_base {kw : List Char} (base v : List Char)
    (hkw : kw ∈ selectLikeKeywords)
    (hkbase : startsWithL kw (lowerList base) = true)
    (hbnd : kw.length < base.length → nonWordOpt (base.get? kw.length) = true)
    (hv : v.head? = some ' ') :
    selectLikeTest (base ++ v) = true := by
  obtain ⟨hkne, hkalpha⟩ := selectLike_keyword_facts kw hkw
  obtain ⟨k, ks, rfl⟩ := List.exists_cons_of_ne_nil hkne
  cases base with
  | nil => simp [lowerList, startsWithL] at hkbase
  | cons b bs =>
    have hk : k = b.toLower ∧ startsWithL ks (lowerList bs) = true := by
      simpa [lowerList, startsWithL] using hkbase
    have hba : b.toLower.isAlpha = true := by
      rw [← hk.1]; exact hkalpha k (List.mem_cons_self _ _)
    have hbns : jsIsSpaceChar b = false := not_space_of_lower_alpha hba
    have hdw : ((b :: bs) ++ v).dropWhile jsIsSpaceChar = (b :: bs) ++ v := by
      rw [List.cons_append]
      exact dropWhile_cons_of_neg _ hbns
    simp only [selectLikeTest, List.any_eq_true, Bool.and_eq_true]
    refine ⟨k :: ks, hkw, ?_, ?_⟩
    · rw [hdw, lowerList_append]
      exact startsWithL_append_right _ hkbase
    · rw [hdw]
      have hlen : (k :: ks).length ≤ (b :: bs).length := by
        have := length_le_of_startsWithL hkbase
        simpa [lowerList] using this
      rcases Nat.lt_or_ge (k :: ks).length (b :: bs).length with hlt | hge
      · rw [List.get?_append hlt]
        exact hbnd hlt
      · have heq : (k :: ks).length = (b :: bs).length := le_antisymm hlen hge
        rw [heq, List.get?_append_right (le_refl _), Nat.sub_self]
        cases v with
        | nil => cases hv
        | cons v0 vs =>
          rw [List.head?_cons, Option.some_inj] at hv
          subst hv
          rfl

theorem base_facts {q : String} (hsel : selectLikeTest q.data = true) :
    ∃ b bs, (stripTrailSemiList (jsTrimList q.data)).1 = b :: bs ∧
      jsIsSpaceChar b = false ∧
      ∀ v : List Char, v.head? = some ' ' →
        selectLikeTest ((stripTrailSemiList (jsTrimList q.data)).1 ++ v) = true := by
  simp only [selectLikeTest, List.any_eq_true, Bool.and_eq_true] at hsel
  obtain ⟨kw, hkw, hstart, hbound⟩ := hsel
  obtain ⟨hkne, hkalpha⟩ := selectLike_keyword_facts kw hkw
  -- decompose the trimmed query around the stripped base
  obtain ⟨w, hw, hwsp⟩ := trimRight_decomp (q.data.dropWhile jsIsSpaceChar)
  obtain ⟨u, hu, hu1, hu0⟩ := stripTrailSemi_decomp (jsTrimList q.data)
  have htrim : jsTrimList q.data =
      ((q.data.dropWhile jsIsSpaceChar).reverse.dropWhile jsIsSpaceChar).reverse := rfl
  have ht0base : q.data.dropWhile jsIsSpaceChar =
      (stripTrailSemiList (jsTrimList q.data)).1 ++ (u ++ w) := by
    conv_lhs => rw [hw, ← htrim, hu]
    rw [List.append_assoc]
  -- the residue after the base starts with a separator if nonempty
  have hrp : ∀ c, (u ++ w).head? = some c → c.toLower.isAlpha = false := by
    intro c hc
    rcases hu2 : (stripTrailSemiList (jsTrimList q.data)).2 with _ | _
    · rw [hu0 hu2] at hc
      simp only [List.nil_append] at hc
      cases w with
      | nil => cases hc
      | cons w0 ws =>
        rw [List.head?_cons, Option.some_inj] at hc
        subst hc
        exact toLower_not_alpha_of_sep (Or.inr (hwsp w0 (List.mem_cons_self _ _)))
    · obtain ⟨w2, hw2, _⟩ := hu1 hu2
      rw [hw2, List.cons_append, List.head?_cons, Option.some_inj] at hc
      subst hc
      exact toLower_not_alpha_of_sep (Or.inl rfl)
  have hkbase : startsWithL kw (lowerList (stripTrailSemiList (jsTrimList q.data)).1) = true := by
    apply startsWithL_lower_trans _ (u ++ w) hkalpha hrp
    rw [← ht0base]
    exact hstart
  have hbnd : kw.length < (stripTrailSemiList (jsTrimList q.data)).1.length →
      nonWordOpt ((stripTrailSemiList (jsTrimList q.data)).1.get? kw.length) = true := by
    intro hlt
    have hsame : (q.data.dropWhile jsIsSpaceChar).get? kw.length =
        (stripTrailSemiList (jsTrimList q.data)).1.get? kw.length := by
      rw [ht0base, List.get?_append hlt]
    rw [← hsame]
    exact hbound
  have hbne : (stripTrailSemiList (jsTrimList q.data)).1 ≠ [] := by
    intro h0
    rw [h0] at hkbase
    obtain ⟨k, ks, rfl⟩ := List.exists_cons_of_ne_nil hkne
    simp [lowerList, startsWithL] at hkbase
  obtain ⟨b, bs, hb⟩ := List.exists_cons_of_ne_nil hbne
  have hbns : jsIsSpaceChar b = false := by
    obtain ⟨k, ks, rfl⟩ := List.exists_cons_of_ne_nil hkne
    rw [hb] at hkbase
    have hk : k = b.toLower ∧ startsWithL ks (lowerList bs) = true := by
      simpa [lowerList, startsWithL] using hkbase
    exact not_space_of_lower_alpha (by rw [← hk.1]; exact hkalpha k (List.mem_cons_self _ _))
  exact ⟨b, bs, hb, hbns, fun v hv => selectLike_of_base _ v hkw hkbase hbnd hv⟩

theorem mem_jsTrimList {c : Char} {l : List Char} (h : c ∈ jsTrimList l) : c ∈ l := by
  unfold jsTrimList at h
  rw [List.mem_reverse] at h
  have h2 := (List.dropWhile_sublist (l := (l.dropWhile jsIsSpaceChar).reverse)
    (p := jsIsSpaceChar)).mem h
  rw [List.mem_reverse] at h2
  exact (List.dropWhile_sublist (l := l) (p := jsIsSpaceChar)).mem h2

theorem jsTrimList_eq_of_ends {b ce : Char} {bs l' l : List Char}
    (hl : l = b :: bs) (hb : jsIsSpaceChar b = false)
    (hr : l.reverse = ce :: l') (hc : jsIsSpaceChar ce = false) :
    jsTrimList l = l := by
  unfold jsTrimList
  rw [hl, dropWhile_cons_of_neg _ hb, ← hl, hr, dropWhile_cons_of_neg _ hc, ← hr,
    List.reverse_reverse]

theorem hasMultiple_false_of_no_semi {s : String} (h : ';' ∉ s.data) :
    hasMultipleStatements s = false := by
  simp only [hasMultipleStatements]
  have hcon : (jsTrimList s.data).contains ';' = false := by
    rw [← Bool.not_eq_true, contains_iff_memC]
    exact fun hc => h (mem_jsTrimList hc)
  rw [hcon]
  simp

theorem hasMultiple_false_of_end_semi {pag : List Char} {b : Char} {bs : List Char}
    (hp : pag = b :: bs) (hb : jsIsSpaceChar b = false) (hsemi : ';' ∉ pag) :
    hasMultipleStatements ⟨pag ++ [';']⟩ = false := by
  have htrim : jsTrimList (pag ++ [';']) = pag ++ [';'] :=
    jsTrimList_eq_of_ends (by rw [hp, List.cons_append]) hb
      (by rw [List.reverse_append]; rfl) (by decide)
  simp only [hasMultipleStatements, htrim]
  have hcon : (pag ++ [';']).contains ';' = true := by
    rw [contains_iff_memC]
    exact List.mem_append_right _ (List.mem_singleton.mpr rfl)
  rw [hcon]
  simp only [Bool.not_true, Bool.false_eq_true, if_false]
  have hstrip : stripTrailSemiList (pag ++ [';']) = (pag, true) := by
    unfold stripTrailSemiList
    rw [List.reverse_append, List.reverse_singleton, List.singleton_append,
      dropWhile_cons_of_neg _ (by decide)]
    simp
  rw [hstrip]
  rw [← Bool.not_eq_true, contains_iff_memC]
  exact hsemi

theorem limitChars_eq : "limit".data = ['l', 'i', 'm', 'i', 't'] := rfl

theorem limitRegexTest_of_append (base rest : List Char) :
    limitRegexTest (base ++ (" LIMIT ".data ++ rest)) = true := by
  unfold limitRegexTest
  apply wordSearch_of_matchAt (i := base.length + 1)
  · unfold wordMatchAt
    rw [limitChars_eq]
    simp only [Bool.and_eq_true]
    refine ⟨⟨?_, ?_⟩, ?_⟩
    · show nonWordOpt ((base ++ (" LIMIT ".data ++ rest)).get? base.length) = true
      rw [List.get?_append_right (le_refl _), Nat.sub_self]
      rfl
    · have hsplit : base ++ (" LIMIT ".data ++ rest) =
          (base ++ [' ']) ++ (['L', 'I', 'M', 'I', 'T', ' '] ++ rest) := by
        show base ++ ([' '] ++ (['L', 'I', 'M', 'I', 'T', ' '] ++ rest)) = _
        rw [List.append_assoc]
      rw [hsplit, List.drop_left' (by simp)]
      rfl
    · show nonWordOpt ((base ++ (" LIMIT ".data ++ rest)).get? (base.length + 1 + 5)) = true
      rw [List.get?_append_right (by omega)]
      have h5 : base.length + 1 + 5 - base.length = 6 := by omega
      rw [h5]
      rfl
  · rw [List.length_append, List.length_append]
    have h7 : (" LIMIT ".data).length = 7 := rfl
    rw [h7]
    omega

theorem applySqlPagination_fix {q : String} (o : Option QueryOptions)
    (h2 : selectLikeTest q.data = true)
    (h3 : hasMultipleStatements q = false)
    (m mrest : List Char)
    (hm : m = " LIMIT ".data ++ mrest)
    (hmsemi : ';' ∉ m)
    (hmrev : ∃ c cs, m.reverse = c :: cs ∧ jsIsSpaceChar c = false)
    (r : String)
    (hr : r.data = (stripTrailSemiList (jsTrimList q.data)).1 ++ m ∨
      r.data = ((stripTrailSemiList (jsTrimList q.data)).1 ++ m) ++ [';']) :
    applySqlPagination r o = r := by
  obtain ⟨b, bs, hb, hbns, hext⟩ := base_facts h2
  obtain ⟨c, cs, hcrev, hcns⟩ := hmrev
  have hbsemi : ';' ∉ (stripTrailSemiList (jsTrimList q.data)).1 := not_semi_in_base h3
  have hm0 : m.head? = some ' ' := by rw [hm]; rfl
  -- the select-like test holds on the rewritten query
  have hsel : selectLikeTest r.data = true := by
    rcases hr with hr | hr
    · rw [hr]
      exact hext m hm0
    · rw [hr, List.append_assoc]
      refine hext (m ++ [';']) ?_
      rw [hm]
      rfl
  -- the rewritten query still holds a LIMIT keyword
  have hlim : limitRegexTest r.data = true := by
    rcases hr with hr | hr
    · rw [hr, hm, ← List.append_assoc]
      rw [List.append_assoc]
      exact limitRegexTest_of_append _ _
    · rw [hr, hm]
      rw [List.append_assoc, List.append_assoc, ← List.append_assoc (" LIMIT ".data)]
      exact limitRegexTest_of_append _ (mrest ++ [';'])
  -- the rewritten query trims to itself
  have hcons : (stripTrailSemiList (jsTrimList q.data)).1 ++ m = b :: (bs ++ m) := by
    rw [hb]
    rfl
  have htrim : jsTrimList r.data = r.data := by
    rcases hr with hr | hr
    · refine @jsTrimList_eq_of_ends b c (bs ++ m)
        (cs ++ (stripTrailSemiList (jsTrimList q.data)).1.reverse) _
        (by rw [hr, hcons]) hbns ?_ hcns
      rw [hr, List.reverse_append, hcrev]
      rfl
    · refine @jsTrimList_eq_of_ends b ';' ((bs ++ m) ++ [';'])
        (((stripTrailSemiList (jsTrimList q.data)).1 ++ m).reverse) _
        (by rw [hr, hcons]; rfl) hbns ?_ (by decide)
      rw [hr, List.reverse_append]
      rfl
  have hne : (jsTrimList r.data).isEmpty = false := by
    rw [htrim]
    rcases hr with hr | hr <;> rw [hr]
    · rw [hcons]
      rfl
    · rw [hcons]
      rfl
  -- the rewritten query is still a single statement
  have hmul : hasMultipleStatements r = false := by
    rcases hr with hr | hr
    · have : r = ⟨(stripTrailSemiList (jsTrimList q.data)).1 ++ m⟩ := by
        cases r
        exact congrArg String.mk (by simpa using hr)
      rw [this]
      refine hasMultiple_false_of_no_semi ?_
      intro hmem
      rcases List.mem_append.mp hmem with h | h
      · exact hbsemi h
      · exact hmsemi h
    · have : r = ⟨((stripTrailSemiList (jsTrimList q.data)).1 ++ m) ++ [';']⟩ := by
        cases r
        exact congrArg String.mk (by simpa using hr)
      rw [this]
      refine hasMultiple_false_of_end_semi hcons hbns ?_
      intro hmem
      rcases List.mem_append.mp hmem with h | h
      · exact hbsemi h
      · exact hmsemi h
  simp [applySqlPagination, hne, hsel, hmul, hlim]

theorem not_space_of_digit {c : Char} (h : c.isDigit = true) : jsIsSpaceChar c = false := by
  by_contra hs
  rw [Bool.not_eq_false] at hs
  rcases space_char_cases hs with rfl | rfl | rfl | rfl | rfl | rfl <;> cases h

theorem semi_not_mem_intDec (i : Int) : ';' ∉ (intDecString i).data := by
  intro h
  exact semi_not_digit_dash (intDecString_chars i ';' h) rfl

theorem char_eq_of_toNat_eq {a b : Char} (h : a.toNat = b.toNat) : a = b := by
  have := congrArg Char.ofNat h
  rwa [Char.ofNat_toNat, Char.ofNat_toNat] at this

theorem listCharLt_asymm : ∀ {x y : List Char},
    listCharLt x y = true → listCharLt y x = false
  | [], [] => by intro h; cases h
  | [], _ :: _ => by intro _; rfl
  | _ :: _, [] => by intro h; cases h
  | a :: as, b :: bs => by
      intro h
      simp only [listCharLt] at h ⊢
      split at h
      · next hab =>
          rw [if_neg (by omega), if_neg (by omega)]
      · split at h
        · next _ hba =>
            rw [if_neg (by omega), if_pos (by omega)]
            exact listCharLt_asymm h
        · cases h

theorem listCharLt_eq_of_not : ∀ {x y : List Char},
    listCharLt x y = false → listCharLt y x = false → x = y
  | [], [] => fun _ _ => rfl
  | [], _ :: _ => fun h _ => by cases h
  | _ :: _, [] => fun _ h => by cases h
  | a :: as, b :: bs => by
      intro h1 h2
      simp only [listCharLt] at h1 h2
      split at h1
      · cases h1
      · split at h1
        · next hab heq =>
            split at h2
            · cases h2
            · rw [if_pos (by omega)] at h2
              rw [char_eq_of_toNat_eq heq, listCharLt_eq_of_not h1 h2]
        · next hab heq =>
            split at h2
            · cases h2
            · next hba => omega

theorem listCharLt_trans : ∀ {x y z : List Char},
    listCharLt x y = true → listCharLt y z = true → listCharLt x z = true
  | [], [], _ => by intro h _; cases h
  | _ :: _, [], _ => by intro h _; cases h
  | [], _ :: _, [] => by intro _ h; cases h
  | [], _ :: _, _ :: _ => by intro _ _; rfl
  | _ :: _, _ :: _, [] => by intro _ h; cases h
  | a :: as, b :: bs, c :: cs => by
      intro h1 h2
      simp only [listCharLt] at h1 h2 ⊢
      split at h1
      · next hab =>
          split at h2
          · next hbc => rw [if_pos (by omega)]
          · split at h2
            · next _ hbc => rw [if_pos (by omega)]
            · cases h2
      · split at h1
        · next _ hab =>
            split at h2
            · next hbc => rw [if_pos (by omega)]
            · split at h2
              · next _ hbc =>
                  rw [if_neg (by omega), if_pos (by omega)]
                  exact listCharLt_trans h1 h2
              · cases h2
        · cases h1

theorem jsStrLe_total : ∀ a b : String, jsStrLe a b = true ∨ jsStrLe b a = true := by
  intro a b
  unfold jsStrLe
  rcases h : listCharLt b.data a.data with _ | _
  · left; rfl
  · right
    rw [listCharLt_asymm h]
    rfl

theorem jsStrLe_trans {a b c : String} (h1 : jsStrLe a b = true) (h2 : jsStrLe b c = true) :
    jsStrLe a c = true := by
  unfold jsStrLe at *
  rw [Bool.not_eq_true'] at h1 h2
  rw [Bool.not_eq_true']
  by_contra hca
  rw [Bool.not_eq_false] at hca
  rcases hab : listCharLt a.data b.data with _ | _
  · have heq : a.data = b.data := listCharLt_eq_of_not hab h1
    rw [heq] at hca
    rw [hca] at h2
    cases h2
  · have := listCharLt_trans hca hab
    rw [this] at h2
    cases h2

theorem stringifyList_eq_map (l : List JsValue) :
    stringifyList l = l.map (fun v => (stableStringify v).data) := by
  induction l with
  | nil => simp [stringifyList]
  | cons v vs ih => simp [stringifyList, ih]

theorem stringifyEntries_eq_map (l : List (String × JsValue)) :
    stringifyEntries l = l.map (fun kv => (kv.1, (stableStringify kv.2).data)) := by
  induction l with
  | nil => simp [stringifyEntries]
  | cons kv rest ih => simp [stringifyEntries, ih]

theorem keyNormalList_eq_map (l : List JsValue) :
    keyNormalList l = l.map keyNormal := by
  induction l with
  | nil => simp [keyNormalList]
  | cons v vs ih => simp [keyNormalList, ih]

theorem keyNormalEntries_eq_map (l : List (String × JsValue)) :
    keyNormalEntries l = l.map (fun kv => (kv.1, keyNormal kv.2)) := by
  induction l with
  | nil => simp [keyNormalEntries]
  | cons kv rest ih => simp [keyNormalEntries, ih]

theorem sizeOf_lt_of_mem_arr {x : JsValue} {items : List JsValue} (hx : x ∈ items) :
    sizeOf x < sizeOf (JsValue.arrV items) := by
  have := List.sizeOf_lt_of_mem hx
  simp only [JsValue.arrV.sizeOf_spec]
  omega

theorem sizeOf_snd_lt_of_mem_obj {kv : String × JsValue} {kvs : List (String × JsValue)}
    (h : kv ∈ kvs) : sizeOf kv.2 < sizeOf (JsValue.objV kvs) := by
  have h1 := List.sizeOf_lt_of_mem h
  rcases kv with ⟨k, v⟩
  simp only [JsValue.objV.sizeOf_spec]
  simp only [Prod.mk.sizeOf_spec] at h1
  omega

theorem stableStringify_keyNormal (v : JsValue) :
    stableStringify (keyNormal v) = stableStringify v := by
  suffices H : ∀ (n : Nat) (v : JsValue), sizeOf v ≤ n →
      stableStringify (keyNormal v) = stableStringify v from H (sizeOf v) v le_rfl
  intro n
  induction n with
  | zero =>
    intro v hv
    exfalso
    cases v <;> simp at hv
  | succ n ih =>
    intro v hv
    match v with
    | .nullV => rfl
    | .boolV b => rfl
    | .numV m => rfl
    | .strV s => rfl
    | .arrV items =>
      rw [keyNormal, stableStringify, stableStringify]
      have hlist : stringifyList (keyNormalList items) = stringifyList items := by
        rw [stringifyList_eq_map, stringifyList_eq_map, keyNormalList_eq_map, List.map_map]
        apply List.map_congr_left
        intro x hx
        have hsz : sizeOf x ≤ n := by
          have := sizeOf_lt_of_mem_arr hx
          omega
        simp only [Function.comp]
        rw [ih x hsz]
      rw [hlist]
    | .objV kvs =>
      rw [keyNormal, stableStringify, stableStringify]
      have hmain : List.insertionSort (fun a b => jsStrLe a.1 b.1 = true)
          (stringifyEntries (List.insertionSort (fun a b => jsStrLe a.1 b.1 = true)
            (keyNormalEntries kvs)))
          = List.insertionSort (fun a b => jsStrLe a.1 b.1 = true) (stringifyEntries kvs) := by
        rw [stringifyEntries_eq_map, stringifyEntries_eq_map, keyNormalEntries_eq_map]
        have hcomm := List.map_insertionSort
          (r := fun (a b : String × JsValue) => jsStrLe a.1 b.1 = true)
          (s := fun (a b : String × List Char) => jsStrLe a.1 b.1 = true)
          (fun kv => (kv.1, (stableStringify kv.2).data))
          (kvs.map (fun kv => (kv.1, keyNormal kv.2)))
          (fun a _ b _ => Iff.rfl)
        rw [hcomm]
        rw [List.map_map]
        have hpt : (kvs.map ((fun kv => (kv.1, (stableStringify kv.2).data)) ∘
            (fun kv => (kv.1, keyNormal kv.2)))) =
            kvs.map (fun kv => (kv.1, (stableStringify kv.2).data)) := by
          apply List.map_congr_left
          intro kv hkv
          have hsz : sizeOf kv.2 ≤ n := by
            have := sizeOf_snd_lt_of_mem_obj hkv
            omega
          simp only [Function.comp]
          rw [ih kv.2 hsz]
        rw [hpt]
        haveI : IsTotal (String × List Char) (fun a b => jsStrLe a.1 b.1 = true) :=
          ⟨fun a b => jsStrLe_total a.1 b.1⟩
        haveI : IsTrans (String × List Char) (fun a b => jsStrLe a.1 b.1 = true) :=
          ⟨fun _ _ _ hab hbc => jsStrLe_trans hab hbc⟩
        exact List.Sorted.insertionSort_eq
          (List.sorted_insertionSort (fun (a b : String × List Char) => jsStrLe a.1 b.1 = true) _)
      rw [hmain]

theorem toBytesBE_lt (n v : Nat) : ∀ b ∈ toBytesBE n v, b < 256 := by
  intro b hb
  unfold toBytesBE at hb
  rcases List.mem_map.mp hb with ⟨i, _, rfl⟩
  have : (v >>> (8 * (n - 1 - i))) &&& 255 ≤ 255 := Nat.and_le_right
  omega

theorem sha256_bytes_lt (msg : List Nat) : ∀ b ∈ sha256 msg, b < 256 := by
  intro b hb
  unfold sha256 at hb
  rcases List.mem_join.mp hb with ⟨l, hl, hbl⟩
  rcases List.mem_map.mp hl with ⟨x, _, rfl⟩
  exact toBytesBE_lt 4 x b hbl

theorem hmacSha256_bytes_lt (key msg : List Nat) : ∀ b ∈ hmacSha256 key msg, b < 256 := by
  intro b hb
  unfold hmacSha256 at hb
  exact sha256_bytes_lt _ b hb

theorem hexVal?_digitChar {d : Nat} (h : d < 16) : hexVal? (Nat.digitChar d) = some d := by
  interval_cases d <;> decide

theorem nodeHexDecode_bytesToHex (bs : List Nat) (h : ∀ b ∈ bs, b < 256) :
    nodeHexDecode (bytesToHex bs).data = bs := by
  induction bs with
  | nil => rfl
  | cons b rest ih =>
    have hb : b < 256 := h b (List.mem_cons_self _ _)
    have e1 : hexVal? (Nat.digitChar (b / 16 % 16)) = some (b / 16 % 16) :=
      hexVal?_digitChar (Nat.mod_lt _ (by decide))
    have e2 : hexVal? (Nat.digitChar (b % 16)) = some (b % 16) :=
      hexVal?_digitChar (Nat.mod_lt _ (by decide))
    show nodeHexDecode (((b :: rest).map byteToHexChars).join) = b :: rest
    rw [List.map_cons]
    show nodeHexDecode (Nat.digitChar (b / 16 % 16) :: Nat.digitChar (b % 16) ::
      ((rest.map byteToHexChars).join)) = b :: rest
    rw [nodeHexDecode, e1, e2]
    show (16 * (b / 16 % 16) + b % 16) :: nodeHexDecode ((rest.map byteToHexChars).join) =
      b :: rest
    have hval : 16 * (b / 16 % 16) + b % 16 = b := by omega
    rw [hval]
    exact congrArg (b :: ·) (ih (fun x hx => h x (List.mem_cons_of_mem _ hx)))

theorem foldl_sha256Round_length (l : List (Nat × Nat)) (st : List Nat)
    (h : st.length = 8) : (l.foldl sha256Round st).length = 8 := by
  induction l generalizing st with
  | nil => exact h
  | cons x xs ih => exact ih _ rfl

theorem sha256Block_length (h block : List Nat) (hh : h.length = 8) :
    (sha256Block h block).length = 8 := by
  unfold sha256Block
  rw [List.length_map, List.length_zip, hh,
    foldl_sha256Round_length _ _ hh]
  omega

theorem foldl_sha256Block_length (blocks : List (List Nat)) (h : List Nat)
    (hh : h.length = 8) : (blocks.foldl sha256Block h).length = 8 := by
  induction blocks generalizing h with
  | nil => exact hh
  | cons b bs ih => exact ih _ (sha256Block_length _ _ hh)

theorem join_map_toBytes4_length (l : List Nat) :
    ((l.map (toBytesBE 4)).join).length = 4 * l.length := by
  induction l with
  | nil => rfl
  | cons x xs ih =>
    rw [List.map_cons]
    show (toBytesBE 4 x ++ (xs.map (toBytesBE 4)).join).length = 4 * (x :: xs).length
    rw [List.length_append, ih]
    have h4 : (toBytesBE 4 x).length = 4 := rfl
    rw [h4, List.length_cons]
    ring

theorem sha256_length (msg : List Nat) : (sha256 msg).length = 32 := by
  unfold sha256
  rw [join_map_toBytes4_length, foldl_sha256Block_length _ _ (by rfl)]

theorem bytesToHex_data_length (bs : List Nat) :
    (bytesToHex bs).data.length = 2 * bs.length := by
  induction bs with
  | nil => rfl
  | cons b rest ih =>
    show (byteToHexChars b ++ ((rest.map byteToHexChars).join)).length = 2 * (b :: rest).length
    rw [List.length_append]
    have h2 : (byteToHexChars b).length = 2 := rfl
    rw [h2]
    have hrest : ((rest.map byteToHexChars).join).length = 2 * rest.length := ih
    rw [hrest, List.length_cons]
    ring

theorem hmacSha256_length (key msg : List Nat) : (hmacSha256 key msg).length = 32 := by
  unfold hmacSha256
  exact sha256_length _

theorem createSignature_ne_empty (key : String) (payload : JsValue) (ts : String) :
    createSignature key payload ts ≠ "" := by
  intro h
  have hd := congrArg (fun s => s.data.length) h
  simp only [createSignature] at hd
  rw [bytesToHex_data_length, hmacSha256_length] at hd
  simp at hd

theorem isSignatureValid_iff (key : String) (payload : JsValue) (ts sig : String) :
    isSignatureValid key payload ts sig = true ↔
      nodeHexDecode sig.data =
        hmacSha256 (nodeHexDecode key.data)
          (stringToBytes (ts ++ "." ++ stableStringify payload)) := by
  simp only [isSignatureValid, createSignature]
  rw [nodeHexDecode_bytesToHex _ (hmacSha256_bytes_lt _ _)]
  by_cases hlen : (hmacSha256 (nodeHexDecode key.data)
      (stringToBytes (ts ++ "." ++ stableStringify payload))).length =
      (nodeHexDecode sig.data).length
  · simp only [hlen, ne_eq, not_true_eq_false, if_false]
    constructor
    · intro h
      exact (eq_of_beq h).symm
    · intro h
      exact beq_iff_eq.mpr h.symm
  · simp only [ne_eq, hlen, not_false_eq_true, if_true]
    constructor
    · intro h
      cases h
    · intro h
      exact absurd (congrArg List.length h).symm hlen

theorem one_le_setRecordTTL (now resetTime : Int) : 1 ≤ setRecordTTL now resetTime :=
  le_max_right _ _

/-- C7: on each call the rate limiter performs the fixed-window transition:
with no record or an expired one it writes `{count = 1, resetTime = now +
window}` and allows with `remaining = max - 1`; at `count ≥ max` it denies
with `remaining = 0` writing nothing; otherwise it increments the count,
keeps `resetTime`, and allows with `remaining = max - (count + 1)`; and
every written record carries a TTL of at least one second. -/
theorem claim_C7_rate_limiter_fixed_window (opts : RateLimiterOptions) (now : Int)
    (record : Option RateLimitRecord) :
    ((record = none ∨ ∃ r, record = some r ∧ now > r.resetTime) →
      rateLimiterLimit opts now record =
        (⟨true, opts.max, opts.max - 1, now + opts.windowMs, opts.windowMs⟩,
         some (⟨1, now + opts.windowMs⟩, setRecordTTL now (now + opts.windowMs))))
    ∧ (∀ r, record = some r → ¬(now > r.resetTime) → r.count ≥ opts.max →
      rateLimiterLimit opts now record =
        (⟨false, opts.max, 0, r.resetTime, opts.windowMs⟩, none))
    ∧ (∀ r, record = some r → ¬(now > r.resetTime) → r.count < opts.max →
      rateLimiterLimit opts now record =
        (⟨true, opts.max, opts.max - (r.count + 1), r.resetTime, opts.windowMs⟩,
         some (⟨r.count + 1, r.resetTime⟩, setRecordTTL now r.resetTime)))
    ∧ (∀ rec ttl, (rateLimiterLimit opts now record).2 = some (rec, ttl) → 1 ≤ ttl) := by
  refine ⟨?_, ?_, ?_, ?_⟩
  · rintro (rfl | ⟨r, rfl, hr⟩)
    · rfl
    · simp [rateLimiterLimit, hr]
  · rintro r rfl hnow hcount
    simp [rateLimiterLimit, hnow, hcount]
  · rintro r rfl hnow hcount
    simp [rateLimiterLimit, hnow, not_le.mpr hcount]
  · intro rec ttl h
    rcases record with _ | r
    · simp [rateLimiterLimit] at h
      have := one_le_setRecordTTL now (now + opts.windowMs)
      omega
    · by_cases hnow : now > r.resetTime
      · simp [rateLimiterLimit, hnow] at h
        have := one_le_setRecordTTL now (now + opts.windowMs)
        omega
      · by_cases hcount : r.count ≥ opts.max
        · simp [rateLimiterLimit, hnow, hcount] at h
        · simp [rateLimiterLimit, hnow, hcount] at h
          have := one_le_setRecordTTL now r.resetTime
          omega

/-- Witness for C7: the increment branch at a concrete store, with TTL one
second when the window is one millisecond from expiring. -/
theorem claim_C7_rate_limiter_fixed_window_witness :
    rateLimiterLimit ⟨60000, 100⟩ 5999 (some ⟨7, 6000⟩) =
      (⟨true, 100, 92, 6000, 60000⟩, some (⟨8, 6000⟩, 1)) :=
  (claim_C7_rate_limiter_fixed_window ⟨60000, 100⟩ 5999 (some ⟨7, 6000⟩)).2.2.1
    ⟨7, 6000⟩ rfl (by decide) (by decide)

/-- C1: on a Postgres or MySQL adapter connected to a configured default
URL, with options not setting `allowDestructive`, a query matching a
destructive pattern is answered by a single synthetic simulated row
(`acknowledged`/`simulated`/`message`/`operation`, `rowCount = 1`) and no
statement reaches the engine: the engine state is returned unchanged and
the issued-statement trace is empty. -/
theorem claim_C1_destructive_simulation {σ : Type}
    (runPg : σ → String → σ × PgReply) (runMy : σ → String → σ × MysqlReply)
    (defaults : List DefaultDbConfig) (url query : String)
    (database : Option String) (options : Option QueryOptions) (engine : σ) :
    (optAllowDestructive options = false →
      (∃ nm, (⟨DatabaseType.postgresql, url, nm⟩ : DefaultDbConfig) ∈ defaults) →
      (pgIsDestructiveQuery query).1 = true →
      pgExecuteQuery runPg (pgConnect defaults url) query database options engine =
        .ok (pgSimulateDestructiveOperation
              (((pgIsDestructiveQuery query).2).getD "destructive operation"),
            engine, []))
    ∧ (optAllowDestructive options = false →
      (∃ nm, (⟨DatabaseType.mysql, url, nm⟩ : DefaultDbConfig) ∈ defaults) →
      (mysqlIsDestructiveQuery query).1 = true →
      mysqlExecuteQuery runMy (mysqlConnect defaults url) query database options engine =
        .ok (mysqlSimulateDestructiveOperation
              (((mysqlIsDestructiveQuery query).2).getD "destructive operation"),
            engine, []))
    ∧ (∀ op, (pgSimulateDestructiveOperation op).rowCount = 1 ∧
        ∃ msg, (pgSimulateDestructiveOperation op).rows =
          [[("acknowledged", CellValue.boolV true), ("simulated", CellValue.boolV true),
            ("message", CellValue.strV msg), ("operation", CellValue.strV op)]])
    ∧ (∀ op, (mysqlSimulateDestructiveOperation op).rowCount = 1 ∧
        ∃ msg, (mysqlSimulateDestructiveOperation op).rows =
          [[("acknowledged", CellValue.boolV true), ("simulated", CellValue.boolV true),
            ("message", CellValue.strV msg), ("operation", CellValue.strV op)]]) := by
  refine ⟨?_, ?_, ?_, ?_⟩
  · intro hallow ⟨nm, hmem⟩ hdes
    have hdef : (pgConnect defaults url).isDefaultConfig = true := by
      simp only [pgConnect, List.any_eq_true]
      exact ⟨_, hmem, by simp⟩
    rcases hq : pgIsDestructiveQuery query with ⟨flag, op⟩
    rw [hq] at hdes
    simp only at hdes
    subst hdes
    have hconn : (pgConnect defaults url).connected = true := rfl
    have hcond : ((pgConnect defaults url).isDefaultConfig &&
        !(optAllowDestructive options)) = true := by
      rw [hdef, hallow]
      rfl
    simp [pgExecuteQuery, hconn, hcond, hq]
  · intro hallow ⟨nm, hmem⟩ hdes
    have hdef : (mysqlConnect defaults url).isDefaultConfig = true := by
      simp only [mysqlConnect, List.any_eq_true]
      exact ⟨_, hmem, by simp⟩
    rcases hq : mysqlIsDestructiveQuery query with ⟨flag, op⟩
    rw [hq] at hdes
    simp only at hdes
    subst hdes
    have hconn : (mysqlConnect defaults url).connected = true := rfl
    simp [mysqlExecuteQuery, hconn, hdef, hq]
  · intro op
    exact ⟨rfl, _, rfl⟩
  · intro op
    exact ⟨rfl, _, rfl⟩

/-- Witness for C1: the spec scenario `DROP TABLE users;` on a default
Postgres connection is simulated with operation `DROP TABLE` and an empty
statement trace. -/
theorem claim_C1_destructive_simulation_witness :
    pgExecuteQuery (σ := Unit) (fun e _ => (e, ⟨[], [], none⟩))
        (pgConnect [⟨DatabaseType.postgresql, "postgres://h/db", "PostgreSQL"⟩]
          "postgres://h/db")
        "DROP TABLE users;" none none () =
      .ok (pgSimulateDestructiveOperation "DROP TABLE", (), []) := by
  have h := (claim_C1_destructive_simulation (σ := Unit)
    (fun e _ => (e, ⟨[], [], none⟩)) (fun e _ => (e, MysqlReply.header 0 0 0))
    [⟨DatabaseType.postgresql, "postgres://h/db", "PostgreSQL"⟩]
    "postgres://h/db" "DROP TABLE users;" none none ()).1
    rfl ⟨"PostgreSQL", by decide⟩ (by decide)
  rw [h]
  have hop : ((pgIsDestructiveQuery "DROP TABLE users;").2).getD "destructive operation" =
      "DROP TABLE" := by decide
  rw [hop]

set_option maxRecDepth 100000 in
/-- C2 counterexample: the claim's "the signature equals the hex HMAC"
direction fails.  Upper-casing a correct signature yields a different
string with the same lenient hex-decoding (`Buffer.from(sig, 'hex')`), and
`validateRequestSignature` still accepts it. -/
theorem claim_C2_counterexample :
    (validateRequestSignature 1000 "00ff" (JsValue.strV "hi") (some "1000")
        (some (jsToUpper (createSignature "00ff" (JsValue.strV "hi") "1000")))).1 = true
      ∧ jsToUpper (createSignature "00ff" (JsValue.strV "hi") "1000") ≠
          createSignature "00ff" (JsValue.strV "hi") "1000" := by
  constructor
  · decide
  · decide

theorem str_isEmpty_false {s : String} (h : s ≠ "") : s.isEmpty = false := by
  cases hh : s.isEmpty
  · rfl
  · exact absurd ((String.isEmpty_iff _).mp hh) h

theorem isSignatureValid_false_of {key : String} {payload : JsValue} {ts sig : String}
    (h : nodeHexDecode sig.data ≠
      hmacSha256 (nodeHexDecode key.data)
        (stringToBytes (ts ++ "." ++ stableStringify payload))) :
    isSignatureValid key payload ts sig = false := by
  cases hv : isSignatureValid key payload ts sig
  · rfl
  · exact absurd ((isSignatureValid_iff key payload ts sig).mp hv) h

/-- C2 (amended): `validateRequestSignature` returns `valid = true` exactly
when timestamp and signature are present (non-empty), the timestamp is
within the five-minute skew window, and the *hex-decoding* of the
signature equals the HMAC-SHA256 bytes of
`<timestamp>.<stableStringify(payload)>` under the hex-decoded signing
key; in particular a correctly signed request is accepted.  Signature
strings that decode to the same bytes (case changes, trailing non-hex
characters) are accepted even though they differ from the canonical hex
digest. -/
theorem claim_C2_signature_validation (now : Int) (key : String) (payload : JsValue)
    (tsOpt sigOpt : Option String) :
    ((validateRequestSignature now key payload tsOpt sigOpt).1 = true ↔
      (∃ ts sig, tsOpt = some ts ∧ sigOpt = some sig ∧ ts ≠ "" ∧ sig ≠ "" ∧
        isTimestampFresh now ts = true ∧
        nodeHexDecode sig.data =
          hmacSha256 (nodeHexDecode key.data)
            (stringToBytes (ts ++ "." ++ stableStringify payload))))
    ∧ (∀ ts, tsOpt = some ts → ts ≠ "" → isTimestampFresh now ts = true →
        (validateRequestSignature now key payload tsOpt
          (some (createSignature key payload ts))).1 = true) := by
  constructor
  · rcases tsOpt with _ | ts
    · have hv : (validateRequestSignature now key payload none sigOpt).1 = false := rfl
      rw [hv]
      simp only [Bool.false_eq_true, false_iff]
      rintro ⟨ts, sig, h1, -⟩
      cases h1
    · rcases sigOpt with _ | sig
      · have hv : (validateRequestSignature now key payload (some ts) none).1 = false := by
          simp [validateRequestSignature]
        rw [hv]
        simp only [Bool.false_eq_true, false_iff]
        rintro ⟨ts', sig', -, h2, -⟩
        cases h2
      · by_cases hts : ts = ""
        · subst hts
          have hv : (validateRequestSignature now key payload (some "") (some sig)).1 =
              false := by
            have h0 : ("" : String).isEmpty = true := rfl
            simp [validateRequestSignature, h0]
          rw [hv]
          simp only [Bool.false_eq_true, false_iff]
          rintro ⟨ts', sig', h1, -, hne, -⟩
          cases h1
          exact hne rfl
        · by_cases hsig : sig = ""
          · subst hsig
            have hv : (validateRequestSignature now key payload (some ts) (some "")).1 =
                false := by
              have h0 : ("" : String).isEmpty = true := rfl
              simp [validateRequestSignature, h0]
            rw [hv]
            simp only [Bool.false_eq_true, false_iff]
            rintro ⟨ts', sig', -, h2, -, hne, -⟩
            cases h2
            exact hne rfl
          · have htb := str_isEmpty_false hts
            have hsb := str_isEmpty_false hsig
            by_cases hfresh : isTimestampFresh now ts = true
            · by_cases hdec : nodeHexDecode sig.data =
                  hmacSha256 (nodeHexDecode key.data)
                    (stringToBytes (ts ++ "." ++ stableStringify payload))
              · have hsv : isSignatureValid key payload ts sig = true :=
                  (isSignatureValid_iff key payload ts sig).mpr hdec
                have hv : (validateRequestSignature now key payload (some ts)
                    (some sig)).1 = true := by
                  simp [validateRequestSignature, htb, hsb, hfresh, hsv]
                rw [hv]
                simp only [true_iff]
                exact ⟨ts, sig, rfl, rfl, hts, hsig, hfresh, hdec⟩
              · have hsv : isSignatureValid key payload ts sig = false :=
                  isSignatureValid_false_of hdec
                have hv : (validateRequestSignature now key payload (some ts)
                    (some sig)).1 = false := by
                  simp [validateRequestSignature, htb, hsb, hfresh, hsv]
                rw [hv]
                simp only [Bool.false_eq_true, false_iff]
                rintro ⟨ts', sig', h1, h2, -, -, -, hdec'⟩
                cases h1
                cases h2
                exact hdec hdec'
            · have hfr : isTimestampFresh now ts = false := by
                cases h : isTimestampFresh now ts
                · rfl
                · exact absurd h hfresh
              have hv : (validateRequestSignature now key payload (some ts)
                  (some sig)).1 = false := by
                simp [validateRequestSignature, htb, hsb, hfr]
              rw [hv]
              simp only [Bool.false_eq_true, false_iff]
              rintro ⟨ts', sig', h1, h2, -, -, hfresh', -⟩
              cases h1
              cases h2
              exact absurd hfresh' hfresh
  · intro ts hts htne hfresh
    subst hts
    have hsne : createSignature key payload ts ≠ "" := createSignature_ne_empty _ _ _
    have htb := str_isEmpty_false htne
    have hsb := str_isEmpty_false hsne
    have hvalid : isSignatureValid key payload ts (createSignature key payload ts) = true := by
      rw [isSignatureValid_iff]
      unfold createSignature
      exact nodeHexDecode_bytesToHex _ (hmacSha256_bytes_lt _ _)
    simp [validateRequestSignature, htb, hsb, hfresh, hvalid]

/-- Witness for C2: a correctly signed concrete request is accepted. -/
theorem claim_C2_signature_validation_witness :
    (validateRequestSignature 1000 "00ff" (JsValue.strV "hi") (some "1000")
        (some (createSignature "00ff" (JsValue.strV "hi") "1000"))).1 = true :=
  (claim_C2_signature_validation 1000 "00ff" (JsValue.strV "hi") (some "1000")
    (some (createSignature "00ff" (JsValue.strV "hi") "1000"))).2
    "1000" rfl (by decide) (by decide)

/-- C5: `applySqlPagination` leaves the query unchanged when it is empty,
multi-statement, already limited (`LIMIT` / `FETCH FIRST`), or not
SELECT-like; otherwise it strips an optional trailing semicolon from the
trimmed query, appends ` LIMIT <limit>` (default `DEFAULT_QUERY_LIMIT`),
appends ` OFFSET <offset>` only when `offset > 0` and no `OFFSET` is
present, and reattaches the semicolon; and the rewriter is idempotent. -/
theorem claim_C5_apply_sql_pagination (q : String) (o : Option QueryOptions) :
    ((jsTrimList q.data).isEmpty = true → applySqlPagination q o = q)
    ∧ (selectLikeTest q.data = false → applySqlPagination q o = q)
    ∧ (hasMultipleStatements q = true → applySqlPagination q o = q)
    ∧ (limitRegexTest q.data = true ∨ fetchRegexTest q.data = true →
        applySqlPagination q o = q)
    ∧ ((jsTrimList q.data).isEmpty = false → selectLikeTest q.data = true →
        hasMultipleStatements q = false → limitRegexTest q.data = false →
        fetchRegexTest q.data = false →
        applySqlPagination q o =
          (let stripped := stripTrailSemiList (jsTrimList q.data)
           let limit := (o.bind QueryOptions.limit).getD DEFAULT_QUERY_LIMIT
           let withLimit := stripped.1 ++ " LIMIT ".data ++ (intDecString limit).data
           let paginated :=
             match o.bind QueryOptions.offset with
             | some off =>
                 if 0 < off && !offsetRegexTest q.data then
                   withLimit ++ " OFFSET ".data ++ (intDecString off).data
                 else withLimit
             | none => withLimit
           if stripped.2 then ⟨paginated ++ [';']⟩ else ⟨paginated⟩))
    ∧ applySqlPagination (applySqlPagination q o) o = applySqlPagination q o := by
  refine ⟨?_, ?_, ?_, ?_, ?_, ?_⟩
  · intro h1
    simp [applySqlPagination, h1]
  · intro h2
    by_cases h1 : (jsTrimList q.data).isEmpty
    · simp [applySqlPagination, h1]
    · simp [applySqlPagination, h1, h2]
  · intro h3
    by_cases h1 : (jsTrimList q.data).isEmpty
    · simp [applySqlPagination, h1]
    · by_cases h2 : selectLikeTest q.data
      · simp [applySqlPagination, h1, h2, h3]
      · simp [applySqlPagination, h1, h2]
  · intro h4
    by_cases h1 : (jsTrimList q.data).isEmpty
    · simp [applySqlPagination, h1]
    · by_cases h2 : selectLikeTest q.data
      · by_cases h3 : hasMultipleStatements q
        · simp [applySqlPagination, h1, h2, h3]
        · rcases h4 with h4 | h4 <;> simp [applySqlPagination, h1, h2, h3, h4]
      · simp [applySqlPagination, h1, h2]
  · intro hc1 hc2 hc3 hc4 hc5
    simp [applySqlPagination, hc1, hc2, hc3, hc4, hc5]
  · by_cases h1 : (jsTrimList q.data).isEmpty
    · have hq : applySqlPagination q o = q := by simp [applySqlPagination, h1]
      rw [hq, hq]
    · by_cases h2 : selectLikeTest q.data
      case neg =>
        have hq : applySqlPagination q o = q := by simp [applySqlPagination, h1, h2]
        rw [hq, hq]
      · by_cases h3 : hasMultipleStatements q
        · have hq : applySqlPagination q o = q := by simp [applySqlPagination, h1, h2, h3]
          rw [hq, hq]
        · by_cases h4 : limitRegexTest q.data
          · have hq : applySqlPagination q o = q := by
              simp [applySqlPagination, h1, h2, h3, h4]
            rw [hq, hq]
          · by_cases h5 : fetchRegexTest q.data
            · have hq : applySqlPagination q o = q := by
                simp [applySqlPagination, h1, h2, h3, h4, h5]
              rw [hq, hq]
            · -- the rewriting case: the output still passes the no-op tests
              have h2' : selectLikeTest q.data = true := h2
              have h3' : hasMultipleStatements q = false := by
                rw [Bool.eq_false_iff]; exact h3
              rcases hoff : o.bind QueryOptions.offset with _ | off
              · obtain ⟨c, cs, hcrev, hdig⟩ :=
                  intDecString_rev_head ((o.bind QueryOptions.limit).getD DEFAULT_QUERY_LIMIT)
                refine applySqlPagination_fix o h2' h3' _
                  ((intDecString ((o.bind QueryOptions.limit).getD DEFAULT_QUERY_LIMIT)).data)
                  rfl ?_ ?_ _ ?_
                · intro hsemi
                  rcases List.mem_append.mp hsemi with h | h
                  · revert h; decide
                  · exact semi_not_mem_intDec _ h
                · refine ⟨c, cs ++ (" LIMIT ".data).reverse, ?_, not_space_of_digit hdig⟩
                  rw [List.reverse_append, hcrev]
                  rfl
                · by_cases hsm : (stripTrailSemiList (jsTrimList q.data)).2
                  · right
                    simp [applySqlPagination, h1, h2, h3, h4, h5, hoff, hsm,
                      List.append_assoc]
                  · left
                    simp [applySqlPagination, h1, h2, h3, h4, h5, hoff, hsm,
                      List.append_assoc]
              · by_cases hcond : (decide (0 < off) && !offsetRegexTest q.data) = true
                · obtain ⟨c, cs, hcrev, hdig⟩ := intDecString_rev_head off
                  refine applySqlPagination_fix o h2' h3' _
                    ((intDecString ((o.bind QueryOptions.limit).getD DEFAULT_QUERY_LIMIT)).data
                      ++ (" OFFSET ".data ++ (intDecString off).data))
                    rfl ?_ ?_ _ ?_
                  · intro hsemi
                    rcases List.mem_append.mp hsemi with h | h
                    · revert h; decide
                    · rcases List.mem_append.mp h with h | h
                      · exact semi_not_mem_intDec _ h
                      · rcases List.mem_append.mp h with h | h
                        · revert h; decide
                        · exact semi_not_mem_intDec _ h
                  · refine ⟨c, cs ++ ((" OFFSET ".data).reverse ++
                      ((intDecString ((o.bind QueryOptions.limit).getD
                        DEFAULT_QUERY_LIMIT)).data.reverse ++ (" LIMIT ".data).reverse)),
                      ?_, not_space_of_digit hdig⟩
                    simp [List.reverse_append, hcrev]
                  · by_cases hsm : (stripTrailSemiList (jsTrimList q.data)).2
                    · right
                      simp [applySqlPagination, h1, h2, h3, h4, h5, hoff, hcond, hsm,
                        List.append_assoc]
                    · left
                      simp [applySqlPagination, h1, h2, h3, h4, h5, hoff, hcond, hsm,
                        List.append_assoc]
                · obtain ⟨c, cs, hcrev, hdig⟩ :=
                    intDecString_rev_head ((o.bind QueryOptions.limit).getD DEFAULT_QUERY_LIMIT)
                  refine applySqlPagination_fix o h2' h3' _
                    ((intDecString ((o.bind QueryOptions.limit).getD DEFAULT_QUERY_LIMIT)).data)
                    rfl ?_ ?_ _ ?_
                  · intro hsemi
                    rcases List.mem_append.mp hsemi with h | h
                    · revert h; decide
                    · exact semi_not_mem_intDec _ h
                  · refine ⟨c, cs ++ (" LIMIT ".data).reverse, ?_, not_space_of_digit hdig⟩
                    rw [List.reverse_append, hcrev]
                    rfl
                  · by_cases hsm : (stripTrailSemiList (jsTrimList q.data)).2
                    · right
                      simp [applySqlPagination, h1, h2, h3, h4, h5, hoff, hcond, hsm,
                        List.append_assoc]
                    · left
                      simp [applySqlPagination, h1, h2, h3, h4, h5, hoff, hcond, hsm,
                        List.append_assoc]

/-- C6: two JSON-like values that are structurally equal up to object-key
insertion order at any depth (same canonical form) stringify to the
identical string, so HMAC signatures over `stableStringify` are stable
across key insertion order. -/
theorem claim_C6_stable_stringify_key_order (v w : JsValue)
    (h : keyNormal v = keyNormal w) :
    stableStringify v = stableStringify w ∧
      ∀ signingKey timestamp,
        createSignature signingKey v timestamp = createSignature signingKey w timestamp := by
  have hs : stableStringify v = stableStringify w := by
    rw [← stableStringify_keyNormal v, ← stableStringify_keyNormal w, h]
  refine ⟨hs, fun k t => ?_⟩
  unfold createSignature
  rw [hs]

/-- Witness for C6: a two-level object with keys inserted in different
orders stringifies identically. -/
theorem claim_C6_stable_stringify_key_order_witness :
    stableStringify (JsValue.objV [("b", JsValue.numV 1),
        ("a", JsValue.objV [("y", JsValue.strV "p"),
          ("x", JsValue.arrV [JsValue.numV 2, JsValue.nullV])])]) =
      stableStringify (JsValue.objV [("a", JsValue.objV
          [("x", JsValue.arrV [JsValue.numV 2, JsValue.nullV]),
           ("y", JsValue.strV "p")]), ("b", JsValue.numV 1)]) :=
  (claim_C6_stable_stringify_key_order _ _
    (by simp +decide [keyNormal, keyNormalEntries, keyNormalList])).1

/-- Witness for C5: the spec scenario `SELECT * FROM t` with `limit = 50`. -/
theorem claim_C5_apply_sql_pagination_witness :
    applySqlPagination "SELECT * FROM t" (some { limit := some 50 }) =
      "SELECT * FROM t LIMIT 50" := by
  have h := (claim_C5_apply_sql_pagination "SELECT * FROM t"
    (some { limit := some 50 })).2.2.2.2.1
    (by decide) (by decide) (by decide) (by decide) (by decide)
  rw [h]
  decide

/-! ### Association-list map lemmas -/

theorem mapGet_mapSet_self {α : Type} (m : List (String × α)) (k : String) (v : α) :
    mapGet (mapSet m k v) k = some v := by
  induction m with
  | nil => simp [mapSet, mapGet]
  | cons p rest ih =>
    by_cases h : p.1 == k
    · simp [mapSet, mapGet, h]
    · simp [mapSet, mapGet, h, ih]

theorem mapGet_mapSet_ne {α : Type} (m : List (String × α)) (k k' : String) (v : α)
    (h : k' ≠ k) : mapGet (mapSet m k v) k' = mapGet m k' := by
  induction m with
  | nil =>
    have hk : (k == k') = false := by
      simp [beq_iff_eq]; exact fun he => h he.symm
    simp [mapSet, mapGet, hk]
  | cons p rest ih =>
    by_cases hp : p.1 == k
    · have hpk : p.1 = k := by simpa [beq_iff_eq] using hp
      have hk : (k == k') = false := by
        simp [beq_iff_eq]; exact fun he => h he.symm
      simp [mapSet, mapGet, hp, hk, hpk]
    · simp [mapSet, mapGet, hp, ih]

theorem mapGet_mapDelete_self {α : Type} (m : List (String × α)) (k : String) :
    mapGet (mapDelete m k) k = none := by
  induction m with
  | nil => simp [mapDelete, mapGet]
  | cons p rest ih =>
    by_cases h : p.1 == k
    · simp [mapDelete, h, ih]
    · simp [mapDelete, mapGet, h, ih]

theorem mapGet_mapDelete_ne {α : Type} (m : List (String × α)) (k k' : String)
    (h : k' ≠ k) : mapGet (mapDelete m k) k' = mapGet m k' := by
  induction m with
  | nil => simp [mapDelete]
  | cons p rest ih =>
    by_cases hp : p.1 == k
    · have hpk : p.1 = k := by simpa [beq_iff_eq] using hp
      have hk : (p.1 == k') = false := by
        simp [beq_iff_eq, hpk]; exact fun he => h he.symm
      simp [mapDelete, mapGet, hp, hk, ih]
    · simp [mapDelete, mapGet, hp, ih]

theorem optTruthy_some_iff (u : String) : optTruthy (some u) = true ↔ u ≠ "" := by
  unfold optTruthy
  rw [Bool.not_eq_true', Bool.eq_false_iff]
  exact not_congr (String.isEmpty_iff _)

theorem optTruthy_eq_true_iff (o : Option String) :
    optTruthy o = true ↔ ∃ u, o = some u ∧ u ≠ "" := by
  cases o with
  | none => simp [optTruthy]
  | some v => simp [optTruthy_some_iff v]

/-! ### Connection-manager invariant lemmas -/

theorem closeSession_sessions_sub (st : CMState) (p x : String) (t : Session)
    (h : mapGet (closeSession st p).sessions x = some t) :
    mapGet st.sessions x = some t := by
  unfold closeSession at h
  cases hf : mapGet st.sessions p with
  | none => rw [hf] at h; exact h
  | some s =>
    rw [hf] at h
    simp only at h
    by_cases hx : x = p
    · rw [hx, mapGet_mapDelete_self] at h; exact absurd h (by simp)
    · rw [mapGet_mapDelete_ne _ _ _ hx] at h; exact h

theorem CMInv_initial : CMInv initialCMState := by
  constructor
  · intro u sid h; simp [initialCMState, mapGet] at h
  · intro sid s u h; simp [initialCMState, mapGet] at h

theorem CMInv_close (st : CMState) (sid : String) (h : CMInv st) :
    CMInv (closeSession st sid) := by
  unfold closeSession
  cases hf : mapGet st.sessions sid with
  | none => exact h
  | some s =>
    simp only
    by_cases ht : optTruthy s.userId
    · rw [if_pos ht]
      obtain ⟨u0, hu0, hu0ne⟩ := (optTruthy_eq_true_iff _).mp ht
      have hkey : s.userId.getD "" = u0 := by rw [hu0]; rfl
      have hbind : mapGet st.userSessions u0 = some sid := h.2 sid s u0 hf hu0 hu0ne
      rw [hkey, hbind]
      simp only [beq_self_eq_true, if_pos]
      constructor
      · intro u x hx
        by_cases hu : u = u0
        · rw [hu, mapGet_mapDelete_self] at hx; exact absurd hx (by simp)
        · rw [mapGet_mapDelete_ne _ _ _ hu] at hx
          obtain ⟨t, htg, htu, htne⟩ := h.1 u x hx
          refine ⟨t, ?_, htu, htne⟩
          have hxs : x ≠ sid := by
            intro he
            rw [he, hf] at htg
            have : s = t := by injection htg
            rw [← this] at htu
            rw [htu] at hu0
            exact hu (Option.some.inj hu0)
          rw [mapGet_mapDelete_ne _ _ _ hxs]; exact htg
      · intro x t u hx htu hune
        have hxs : x ≠ sid := by
          intro he; rw [he, mapGet_mapDelete_self] at hx; exact absurd hx (by simp)
        rw [mapGet_mapDelete_ne _ _ _ hxs] at hx
        have hb := h.2 x t u hx htu hune
        have hu : u ≠ u0 := by
          intro he; rw [he, hbind] at hb
          exact hxs (Option.some.inj hb).symm
        rw [mapGet_mapDelete_ne _ _ _ hu]; exact hb
    · rw [if_neg ht]
      constructor
      · intro u x hx
        obtain ⟨t, htg, htu, htne⟩ := h.1 u x hx
        refine ⟨t, ?_, htu, htne⟩
        have hxs : x ≠ sid := by
          intro he
          rw [he, hf] at htg
          have : s = t := by injection htg
          rw [← this] at htu
          exact ht (by rw [htu]; exact (optTruthy_some_iff _).mpr htne)
        rw [mapGet_mapDelete_ne _ _ _ hxs]; exact htg
      · intro x t u hx htu hune
        have hxs : x ≠ sid := by
          intro he; rw [he, mapGet_mapDelete_self] at hx; exact absurd hx (by simp)
        rw [mapGet_mapDelete_ne _ _ _ hxs] at hx
        exact h.2 x t u hx htu hune

theorem close_unbinds (st : CMState) (u prev : String) (h : CMInv st)
    (hb : mapGet st.userSessions u = some prev) :
    mapGet (closeSession st prev).userSessions u = none ∧
      (∀ x t, mapGet (closeSession st prev).sessions x = some t → t.userId ≠ some u) := by
  obtain ⟨s, hsg, hsu, hune⟩ := h.1 u prev hb
  unfold closeSession
  rw [hsg]
  simp only
  have ht : optTruthy s.userId = true := by
    rw [hsu]; exact (optTruthy_some_iff _).mpr hune
  rw [if_pos ht]
  have hkey : s.userId.getD "" = u := by rw [hsu]; rfl
  rw [hkey, hb]
  simp only [beq_self_eq_true, if_pos]
  refine ⟨mapGet_mapDelete_self _ _, ?_⟩
  intro x t hx htu
  have hxs : x ≠ prev := by
    intro he; rw [he, mapGet_mapDelete_self] at hx; exact absurd hx (by simp)
  rw [mapGet_mapDelete_ne _ _ _ hxs] at hx
  have := h.2 x t u hx htu hune
  rw [hb] at this
  exact hxs (Option.some.inj this).symm

theorem closePrevious_inv (st : CMState) (userId : Option String) (h : CMInv st) :
    CMInv (closePrevious st userId) := by
  unfold closePrevious
  by_cases ht : optTruthy userId
  · rw [if_pos ht]
    cases hb : mapGet st.userSessions (userId.getD "") with
    | some prev => exact CMInv_close st prev h
    | none => exact h
  · rw [if_neg ht]; exact h

theorem closePrevious_sessions_sub (st : CMState) (userId : Option String)
    (x : String) (t : Session)
    (h : mapGet (closePrevious st userId).sessions x = some t) :
    mapGet st.sessions x = some t := by
  unfold closePrevious at h
  by_cases ht : optTruthy userId
  · rw [if_pos ht] at h
    cases hb : mapGet st.userSessions (userId.getD "") with
    | some prev => rw [hb] at h; exact closeSession_sessions_sub st prev x t h
    | none => rw [hb] at h; exact h
  · rw [if_neg ht] at h; exact h

theorem closePrevious_clears (st : CMState) (u0 : String) (h : CMInv st)
    (hu : u0 ≠ "") :
    mapGet (closePrevious st (some u0)).userSessions u0 = none ∧
      (∀ x t, mapGet (closePrevious st (some u0)).sessions x = some t →
        t.userId ≠ some u0) := by
  unfold closePrevious
  have ht : optTruthy (some u0) = true := (optTruthy_some_iff _).mpr hu
  rw [if_pos ht]
  have hkey : (some u0).getD "" = u0 := rfl
  rw [hkey]
  cases hb : mapGet st.userSessions u0 with
  | some prev => exact close_unbinds st u0 prev h hb
  | none =>
    refine ⟨hb, ?_⟩
    intro x t hx htu
    have hc := h.2 x t u0 hx htu hu
    rw [hb] at hc
    exact Option.noConfusion hc

theorem createSession_ok_shape {env : CreateEnv} {st : CMState} {type : DatabaseType}
    {url : String} {userId : Option String} {iso isDef : Bool}
    {sid key : String} {now : Int} {st' : CMState} {sess : Session}
    (hok : createSession env st type url userId iso isDef sid key now =
      .ok (st', sess)) :
    sess.userId = userId ∧ sess.id = sid ∧
      st'.sessions = mapSet (closePrevious st userId).sessions sid sess ∧
      st'.userSessions = (if optTruthy userId then
          mapSet (closePrevious st userId).userSessions (userId.getD "") sid
        else (closePrevious st userId).userSessions) := by
  simp only [createSession] at hok
  split at hok
  · exact Except.noConfusion hok
  · simp only [Except.ok.injEq, Prod.mk.injEq] at hok
    obtain ⟨h1, h2⟩ := hok
    subst h1; subst h2
    exact ⟨rfl, rfl, rfl, rfl⟩

theorem CMInv_create {env : CreateEnv} {st : CMState} {type : DatabaseType}
    {url : String} {userId : Option String} {iso isDef : Bool}
    {sid key : String} {now : Int} {st' : CMState} {sess : Session}
    (h : CMInv st) (hfresh : mapGet st.sessions sid = none)
    (hok : createSession env st type url userId iso isDef sid key now =
      .ok (st', sess)) :
    CMInv st' := by
  obtain ⟨hsu, hsid, hss, hus⟩ := createSession_ok_shape hok
  have hinv1 : CMInv (closePrevious st userId) := closePrevious_inv st userId h
  have hfresh1 : mapGet (closePrevious st userId).sessions sid = none := by
    cases hq : mapGet (closePrevious st userId).sessions sid with
    | none => rfl
    | some t =>
      have hc := closePrevious_sessions_sub st userId sid t hq
      rw [hfresh] at hc
      exact Option.noConfusion hc
  by_cases ht : optTruthy userId
  · obtain ⟨u0, huid, hu0ne⟩ := (optTruthy_eq_true_iff userId).mp ht
    subst huid
    have hclears := closePrevious_clears st u0 h hu0ne
    have hus' : st'.userSessions =
        mapSet (closePrevious st (some u0)).userSessions u0 sid := by
      rw [hus, if_pos ht]; rfl
    constructor
    · intro u x hx
      rw [hus'] at hx
      by_cases hu : u = u0
      · subst hu
        rw [mapGet_mapSet_self] at hx
        have hx' : x = sid := (Option.some.inj hx).symm
        subst hx'
        refine ⟨sess, ?_, ?_, hu0ne⟩
        · rw [hss]; exact mapGet_mapSet_self _ _ _
        · exact hsu
      · rw [mapGet_mapSet_ne _ _ _ _ hu] at hx
        obtain ⟨t, tg, tu, tne⟩ := hinv1.1 u x hx
        have hxs : x ≠ sid := by
          intro he; rw [he, hfresh1] at tg; exact Option.noConfusion tg
        refine ⟨t, ?_, tu, tne⟩
        rw [hss, mapGet_mapSet_ne _ _ _ _ hxs]
        exact tg
    · intro x t u hx htu hune
      rw [hss] at hx
      by_cases hxs : x = sid
      · subst hxs
        rw [mapGet_mapSet_self] at hx
        have hts : sess = t := Option.some.inj hx
        rw [← hts] at htu
        rw [hsu] at htu
        have huu : u = u0 := (Option.some.inj htu).symm
        subst huu
        rw [hus']
        exact mapGet_mapSet_self _ _ _
      · rw [mapGet_mapSet_ne _ _ _ _ hxs] at hx
        have hb := hinv1.2 x t u hx htu hune
        have hu : u ≠ u0 := by
          intro he
          subst he
          exact hclears.2 x t hx htu
        rw [hus', mapGet_mapSet_ne _ _ _ _ hu]
        exact hb
  · have hst1 : closePrevious st userId = st := by
      unfold closePrevious; rw [if_neg ht]
    have hus' : st'.userSessions = st.userSessions := by
      rw [hus, if_neg ht, hst1]
    have hss' : st'.sessions = mapSet st.sessions sid sess := by
      rw [hss, hst1]
    constructor
    · intro u x hx
      rw [hus'] at hx
      obtain ⟨t, tg, tu, tne⟩ := h.1 u x hx
      have hxs : x ≠ sid := by
        intro he; rw [he, hfresh] at tg; exact Option.noConfusion tg
      refine ⟨t, ?_, tu, tne⟩
      rw [hss', mapGet_mapSet_ne _ _ _ _ hxs]
      exact tg
    · intro x t u hx htu hune
      rw [hss'] at hx
      by_cases hxs : x = sid
      · subst hxs
        rw [mapGet_mapSet_self] at hx
        have hts : sess = t := Option.some.inj hx
        rw [← hts] at htu
        rw [hsu] at htu
        exact absurd ((optTruthy_eq_true_iff userId).mpr ⟨u, htu, hune⟩) ht
      · rw [mapGet_mapSet_ne _ _ _ _ hxs] at hx
        rw [hus']
        exact h.2 x t u hx htu hune

theorem CMInv_get (st : CMState) (sid : String) (now : Int) (h : CMInv st) :
    CMInv (getSession st sid now).1 := by
  unfold getSession
  cases hf : mapGet st.sessions sid with
  | none => exact h
  | some s =>
    constructor
    · intro u x hx
      have hx' : mapGet st.userSessions u = some x := hx
      obtain ⟨t, tg, tu, tne⟩ := h.1 u x hx'
      by_cases hxs : x = sid
      · subst hxs
        rw [hf] at tg
        have hts : s = t := Option.some.inj tg
        refine ⟨{ s with lastActivity := now }, ?_, ?_, tne⟩
        · exact mapGet_mapSet_self _ _ _
        · show s.userId = some u
          rw [hts]; exact tu
      · exact ⟨t, by
          show mapGet (mapSet st.sessions sid { s with lastActivity := now }) x = some t
          rw [mapGet_mapSet_ne _ _ _ _ hxs]; exact tg, tu, tne⟩
    · intro x t u hx htu hune
      have hx' : mapGet (mapSet st.sessions sid { s with lastActivity := now }) x =
          some t := hx
      by_cases hxs : x = sid
      · subst hxs
        rw [mapGet_mapSet_self] at hx'
        have hts : { s with lastActivity := now } = t := Option.some.inj hx'
        rw [← hts] at htu
        have hsu : s.userId = some u := htu
        exact h.2 _ s u hf hsu hune
      · rw [mapGet_mapSet_ne _ _ _ _ hxs] at hx'
        exact h.2 x t u hx' htu hune

theorem CMInv_setAllow (st : CMState) (sid : String) (allow : Bool) (now : Int)
    (h : CMInv st) : CMInv (setSessionAllowDestructive st sid allow now).1 := by
  unfold setSessionAllowDestructive
  cases hf : mapGet st.sessions sid with
  | none => exact h
  | some s =>
    simp only
    by_cases hd : !s.isDefaultConnection
    · rw [if_pos hd]; exact h
    · rw [if_neg hd]
      constructor
      · intro u x hx
        have hx' : mapGet st.userSessions u = some x := hx
        obtain ⟨t, tg, tu, tne⟩ := h.1 u x hx'
        by_cases hxs : x = sid
        · subst hxs
          rw [hf] at tg
          have hts : s = t := Option.some.inj tg
          refine ⟨{ s with allowDestructive := some allow, lastActivity := now },
            ?_, ?_, tne⟩
          · exact mapGet_mapSet_self _ _ _
          · show s.userId = some u
            rw [hts]; exact tu
        · exact ⟨t, by
            show mapGet (mapSet st.sessions sid
              { s with allowDestructive := some allow, lastActivity := now }) x =
              some t
            rw [mapGet_mapSet_ne _ _ _ _ hxs]; exact tg, tu, tne⟩
      · intro x t u hx htu hune
        have hx' : mapGet (mapSet st.sessions sid
            { s with allowDestructive := some allow, lastActivity := now }) x =
            some t := hx
        by_cases hxs : x = sid
        · subst hxs
          rw [mapGet_mapSet_self] at hx'
          have hts : { s with allowDestructive := some allow, lastActivity := now } =
              t := Option.some.inj hx'
          rw [← hts] at htu
          have hsu : s.userId = some u := htu
          exact h.2 _ s u hf hsu hune
        · rw [mapGet_mapSet_ne _ _ _ _ hxs] at hx'
          exact h.2 x t u hx' htu hune

theorem CMInv_step {st st' : CMState} (h : CMInv st) (hs : CMStep st st') :
    CMInv st' := by
  cases hs with
  | create hok hfresh => exact CMInv_create h hfresh hok
  | close sessionId => exact CMInv_close st sessionId h
  | get sessionId now => exact CMInv_get st sessionId now h
  | setAllow sessionId allow now => exact CMInv_setAllow st sessionId allow now h

theorem CMInv_reachable {st : CMState} (h : CMReachable st) : CMInv st := by
  unfold CMReachable at h
  induction h with
  | refl => exact CMInv_initial
  | tail hab hbc ih => exact CMInv_step ih hbc

/-- C8: in every registry state reachable from the empty registry by any
sequence of `createSession`, `getSession`, `closeSession` and
`setSessionAllowDestructive` operations, at most one registered session
carries any given non-empty `userId`. -/
theorem claim_C8_one_session_per_user (st : CMState) (h : CMReachable st)
    (u sid1 sid2 : String) (s1 s2 : Session)
    (h1 : mapGet st.sessions sid1 = some s1)
    (h2 : mapGet st.sessions sid2 = some s2)
    (hu1 : s1.userId = some u) (hu2 : s2.userId = some u) (hne : u ≠ "") :
    sid1 = sid2 := by
  have hinv := CMInv_reachable h
  have b1 := hinv.2 sid1 s1 u h1 hu1 hne
  have b2 := hinv.2 sid2 s2 u h2 hu2 hne
  rw [b1] at b2
  exact Option.some.inj b2

/-- Witness for C8 at a concrete reachable state: the registry created by
one `createSession` call for alice. -/
theorem claim_C8_one_session_per_user_witness :
    mapGet exStateA.sessions "sid1" = some exSessionA ∧
      ("sid1" : String) = "sid1" := by
  have hstep : CMStep initialCMState exStateA :=
    CMStep.create
      (show createSession ⟨false, false, false⟩ initialCMState DatabaseType.postgresql
          "postgres://h/db" (some "alice") false false "sid1" "k" 0 =
        .ok (exStateA, exSessionA) from rfl)
      (show mapGet initialCMState.sessions "sid1" = none from rfl)
  have hreach : CMReachable exStateA := Relation.ReflTransGen.single hstep
  exact ⟨rfl, claim_C8_one_session_per_user exStateA hreach "alice" "sid1" "sid1"
    exSessionA exSessionA rfl rfl rfl rfl (by decide)⟩

/-- C10: `closeSession sid` removes only the registry entry for `sid`; every
other session is untouched; the user binding is removed only when it still
points at `sid` (in particular a binding that moved on to a newer session
is left alone); and a miss leaves the state unchanged. -/
theorem claim_C10_close_session_frame (st : CMState) (sid : String) :
    mapGet (closeSession st sid).sessions sid = none ∧
    (∀ x, x ≠ sid →
      mapGet (closeSession st sid).sessions x = mapGet st.sessions x) ∧
    (∀ s u, mapGet st.sessions sid = some s → s.userId = some u →
      mapGet st.userSessions u ≠ some sid →
      (closeSession st sid).userSessions = st.userSessions) ∧
    (∀ s u, mapGet st.sessions sid = some s → s.userId = some u → u ≠ "" →
      mapGet st.userSessions u = some sid →
      (closeSession st sid).userSessions = mapDelete st.userSessions u) ∧
    (mapGet st.sessions sid = none → closeSession st sid = st) := by
  refine ⟨?_, ?_, ?_, ?_, ?_⟩
  · unfold closeSession
    cases hf : mapGet st.sessions sid with
    | none => exact hf
    | some s => exact mapGet_mapDelete_self _ _
  · intro x hx
    unfold closeSession
    cases hf : mapGet st.sessions sid with
    | none => rfl
    | some s => exact mapGet_mapDelete_ne _ _ _ hx
  · intro s u hg hsu hnb
    unfold closeSession
    rw [hg]
    simp only
    by_cases ht : optTruthy s.userId
    · rw [if_pos ht]
      have hkey : s.userId.getD "" = u := by rw [hsu]; rfl
      rw [hkey]
      cases hb : mapGet st.userSessions u with
      | none => rfl
      | some current =>
        have hcc : ¬ ((current == sid) = true) := by
          simp only [beq_iff_eq]
          intro he; rw [he] at hb; exact hnb hb
        simp only
        rw [if_neg hcc]
    · rw [if_neg ht]
  · intro s u hg hsu hune hb
    unfold closeSession
    rw [hg]
    simp only
    have ht : optTruthy s.userId = true := by
      rw [hsu]; exact (optTruthy_some_iff _).mpr hune
    rw [if_pos ht]
    have hkey : s.userId.getD "" = u := by rw [hsu]; rfl
    rw [hkey, hb]
    simp only [beq_self_eq_true, if_pos]
  · intro hg
    unfold closeSession
    rw [hg]

/-- Witness for C10: closing the stale `sid1` after alice reconnected as
`sid2` removes only `sid1` and leaves the binding to `sid2` untouched. -/
theorem claim_C10_close_session_frame_witness :
    mapGet (closeSession exStaleState "sid1").sessions "sid1" = none ∧
    mapGet (closeSession exStaleState "sid1").sessions "sid2" =
      mapGet exStaleState.sessions "sid2" ∧
    (closeSession exStaleState "sid1").userSessions =
      exStaleState.userSessions := by
  have h := claim_C10_close_session_frame exStaleState "sid1"
  exact ⟨h.1, h.2.1 "sid2" (by decide),
    h.2.2.1 exStaleSession "alice" rfl rfl (by decide)⟩

/-- C3 counterexample: an isolated `createSession` for alice whose
provisioning fails records a session whose `userDatabase` is cleared but
whose `isIsolated` flag is still `true`, so the stored-session invariant
`isIsolated → userDatabase ≠ ∅` claimed by the spec does not hold. -/
theorem claim_C3_counterexample :
    createSession ⟨true, false, false⟩ initialCMState DatabaseType.postgresql
        "postgres://h/db" (some "alice") true false "sid1" "k" 0 =
      .ok (exDowngradeState, exDowngradeSession) ∧
    mapGet exDowngradeState.sessions "sid1" = some exDowngradeSession ∧
    exDowngradeSession.isIsolated = true ∧
    exDowngradeSession.userDatabase = none :=
  ⟨rfl, rfl, rfl, rfl⟩

/-- C3 (amended): when isolation provisioning fails in `createSession` with
a non-empty userId, the recorded session has `userDatabase` cleared and the
adapter reconnected to the original URL, but the catch block never resets
`isIsolated`, which stays `true` on the stored session. -/
theorem claim_C3_provisioning_failure_keeps_isolated (env : CreateEnv)
    (st : CMState) (type : DatabaseType) (url u sid key : String)
    (isDefault : Bool) (now : Int)
    (hp : env.provisionFails = true) (hu : u ≠ "")
    (st' : CMState) (sess : Session)
    (hok : createSession env st type url (some u) true isDefault sid key now =
      .ok (st', sess)) :
    sess.isIsolated = true ∧ sess.userDatabase = none ∧ sess.adapterUrl = url ∧
      mapGet st'.sessions sid = some sess := by
  have ht : optTruthy (some u) = true := (optTruthy_some_iff _).mpr hu
  simp only [createSession, Bool.true_and, ht, if_true, hp] at hok
  cases hfc : env.fallbackConnectFails with
  | true => rw [hfc] at hok; simp at hok
  | false =>
    rw [hfc] at hok
    simp only [Bool.false_eq_true, if_false, Except.ok.injEq, Prod.mk.injEq] at hok
    obtain ⟨h1, h2⟩ := hok
    subst h1; subst h2
    exact ⟨rfl, rfl, rfl, mapGet_mapSet_self _ _ _⟩

/-- Witness for the amended C3 at a concrete failing provisioning run. -/
theorem claim_C3_provisioning_failure_keeps_isolated_witness :
    exDowngradeSession.isIsolated = true ∧
      exDowngradeSession.userDatabase = none ∧
      exDowngradeSession.adapterUrl = "postgres://h/db" ∧
      mapGet exDowngradeState.sessions "sid1" = some exDowngradeSession :=
  claim_C3_provisioning_failure_keeps_isolated ⟨true, false, false⟩
    initialCMState DatabaseType.postgresql "postgres://h/db" "alice" "sid1" "k"
    false 0 rfl (by decide) exDowngradeState exDowngradeSession rfl

/-! ### SQL splitter lemmas -/

theorem tagRegexTest_false (tag : List Char) : tagRegexTest tag = false := by
  cases tag with
  | nil => rfl
  | cons x xs =>
    cases xs with
    | nil => simp [tagRegexTest, rMatchL, sqlDollarTagItems]
    | cons y ys => simp [tagRegexTest, rMatchL, sqlDollarTagItems]

theorem splitAtChar_eq (c : Char) : ∀ l before after,
    splitAtChar c l = some (before, after) →
    l = before ++ c :: after ∧ ∀ x ∈ before, x ≠ c := by
  intro l
  induction l with
  | nil => intro b a h; exact absurd h (by simp [splitAtChar])
  | cons x xs ih =>
    intro b a h
    by_cases hx : x = c
    · unfold splitAtChar at h
      rw [if_pos hx] at h
      simp only [Option.some.injEq, Prod.mk.injEq] at h
      obtain ⟨hb, ha⟩ := h
      subst hb; subst ha; subst hx
      exact ⟨rfl, by simp⟩
    · unfold splitAtChar at h
      rw [if_neg hx] at h
      cases hs : splitAtChar c xs with
      | none => rw [hs] at h; exact absurd h (by simp)
      | some p =>
        obtain ⟨b2, a2⟩ := p
        rw [hs] at h
        simp only [Option.some.injEq, Prod.mk.injEq] at h
        obtain ⟨hb, ha⟩ := h
        subst hb; subst ha
        obtain ⟨hl, hnotin⟩ := ih b2 a2 hs
        refine ⟨by rw [hl]; simp, ?_⟩
        intro y hy
        rcases List.mem_cons.mp hy with rfl | hy2
        · exact hx
        · exact hnotin y hy2

theorem refStep_top_quote (rest current acc) :
    refSplitSqlGo ('\'' :: rest) SqlRefMode.top current acc =
      refSplitSqlGo rest SqlRefMode.single (current ++ ['\'']) acc := by
  conv_lhs => rw [refSplitSqlGo.eq_def]
  simp

theorem refStep_top_dquote (rest current acc) :
    refSplitSqlGo ('"' :: rest) SqlRefMode.top current acc =
      refSplitSqlGo rest SqlRefMode.double (current ++ ['"']) acc := by
  conv_lhs => rw [refSplitSqlGo.eq_def]
  simp

theorem refStep_top_dollar2 (rest current acc) :
    refSplitSqlGo ('$' :: '$' :: rest) SqlRefMode.top current acc =
      refSplitSqlGo rest SqlRefMode.dollar (current ++ ['$', '$']) acc := by
  conv_lhs => rw [refSplitSqlGo.eq_def]
  simp

theorem refStep_top_dollar1 (r2 rest2 current acc) (h : r2 ≠ '$') :
    refSplitSqlGo ('$' :: r2 :: rest2) SqlRefMode.top current acc =
      refSplitSqlGo (r2 :: rest2) SqlRefMode.top (current ++ ['$']) acc := by
  conv_lhs => rw [refSplitSqlGo.eq_def]
  simp [h]

theorem refStep_top_dollar0 (current acc) :
    refSplitSqlGo ['$'] SqlRefMode.top current acc =
      refSplitSqlGo [] SqlRefMode.top (current ++ ['$']) acc := by
  conv_lhs => rw [refSplitSqlGo.eq_def]
  simp

theorem refStep_top_semi (rest current acc) :
    refSplitSqlGo (';' :: rest) SqlRefMode.top current acc =
      refSplitSqlGo rest SqlRefMode.top []
        (if jsTrimList current = [] then acc
         else acc ++ [(⟨jsTrimList current⟩ : String)]) := by
  conv_lhs => rw [refSplitSqlGo.eq_def]
  simp

theorem refStep_top_other (c rest current acc) (h1 : c ≠ '\'') (h2 : c ≠ '"')
    (h3 : c ≠ '$') (h4 : c ≠ ';') :
    refSplitSqlGo (c :: rest) SqlRefMode.top current acc =
      refSplitSqlGo rest SqlRefMode.top (current ++ [c]) acc := by
  conv_lhs => rw [refSplitSqlGo.eq_def]
  simp [h1, h2, h3, h4]

theorem refStep_single_quote (rest current acc) :
    refSplitSqlGo ('\'' :: rest) SqlRefMode.single current acc =
      refSplitSqlGo rest SqlRefMode.top (current ++ ['\'']) acc := by
  conv_lhs => rw [refSplitSqlGo.eq_def]
  simp

theorem refStep_single_other (c rest current acc) (h : c ≠ '\'') :
    refSplitSqlGo (c :: rest) SqlRefMode.single current acc =
      refSplitSqlGo rest SqlRefMode.single (current ++ [c]) acc := by
  conv_lhs => rw [refSplitSqlGo.eq_def]
  simp [h]

theorem refStep_double_quote (rest current acc) :
    refSplitSqlGo ('"' :: rest) SqlRefMode.double current acc =
      refSplitSqlGo rest SqlRefMode.top (current ++ ['"']) acc := by
  conv_lhs => rw [refSplitSqlGo.eq_def]
  simp

theorem refStep_double_other (c rest current acc) (h : c ≠ '"') :
    refSplitSqlGo (c :: rest) SqlRefMode.double current acc =
      refSplitSqlGo rest SqlRefMode.double (current ++ [c]) acc := by
  conv_lhs => rw [refSplitSqlGo.eq_def]
  simp [h]

theorem refStep_dollar_close (rest2 current acc) :
    refSplitSqlGo ('$' :: '$' :: rest2) SqlRefMode.dollar current acc =
      refSplitSqlGo rest2 SqlRefMode.top (current ++ ['$', '$']) acc := by
  conv_lhs => rw [refSplitSqlGo.eq_def]
  simp

theorem refStep_dollar_step (c r2 rest2 current acc) (h : ¬(c = '$' ∧ r2 = '$')) :
    refSplitSqlGo (c :: r2 :: rest2) SqlRefMode.dollar current acc =
      refSplitSqlGo (r2 :: rest2) SqlRefMode.dollar (current ++ [c]) acc := by
  conv_lhs => rw [refSplitSqlGo.eq_def]
  simp [h]

theorem refStep_dollar_one (c current acc) :
    refSplitSqlGo [c] SqlRefMode.dollar current acc =
      refSplitSqlGo [] SqlRefMode.dollar (current ++ [c]) acc := by
  conv_lhs => rw [refSplitSqlGo.eq_def]

theorem splitSqlGo_agree (fuel : Nat) : ∀ (rem : List Char) (prev : String)
    (current : List Char) (acc : List String),
    rem.length < fuel → prev.data.length ≤ 1 →
    (splitSqlGo fuel rem prev false false none current acc =
        refSplitSqlGo rem SqlRefMode.top current acc) ∧
    (splitSqlGo fuel rem prev true false none current acc =
        refSplitSqlGo rem SqlRefMode.single current acc) ∧
    (splitSqlGo fuel rem prev false true none current acc =
        refSplitSqlGo rem SqlRefMode.double current acc) ∧
    (splitSqlGo fuel rem prev false false (some ['$', '$']) current acc =
        refSplitSqlGo rem SqlRefMode.dollar current acc) := by
  induction fuel with
  | zero => intro rem prev current acc hlen hprev; exact absurd hlen (Nat.not_lt_zero _)
  | succ f ih =>
    intro rem prev current acc hlen hprev
    have hprevne : prev ≠ "\\\\" := by
      intro he; rw [he] at hprev; exact absurd hprev (by decide)
    cases rem with
    | nil => exact ⟨rfl, rfl, rfl, rfl⟩
    | cons c rest =>
      have hlen' : rest.length < f := by
        simp only [List.length_cons] at hlen; omega
      refine ⟨?_, ?_, ?_, ?_⟩
      · -- top mode
        by_cases h1 : c = '\''
        · subst h1
          rw [refStep_top_quote]
          have hr := (ih rest ⟨['\'']⟩ (current ++ ['\'']) acc hlen' (by simp)).2.1
          simp only [splitSqlGo]
          simpa using hr
        · by_cases h2 : c = '"'
          · subst h2
            rw [refStep_top_dquote]
            have hr := (ih rest ⟨['"']⟩ (current ++ ['"']) acc hlen' (by simp)).2.2.1
            simp only [splitSqlGo]
            simpa using hr
          · by_cases h3 : c = '$'
            · subst h3
              cases hsp : splitAtChar '$' rest with
              | none =>
                cases rest with
                | nil =>
                  rw [refStep_top_dollar0]
                  have hr := (ih [] ⟨['$']⟩ (current ++ ['$']) acc hlen' (by simp)).1
                  simp only [splitSqlGo]
                  simpa [splitSqlGo, hsp] using hr
                | cons r2 rest2 =>
                  have hr2 : r2 ≠ '$' := by
                    intro he
                    unfold splitAtChar at hsp
                    rw [if_pos he] at hsp
                    exact absurd hsp (by simp)
                  rw [refStep_top_dollar1 r2 rest2 current acc hr2]
                  have hr := (ih (r2 :: rest2) ⟨['$']⟩ (current ++ ['$']) acc hlen'
                    (by simp)).1
                  simp only [splitSqlGo]
                  simpa [hsp] using hr
              | some p =>
                obtain ⟨middle, after⟩ := p
                obtain ⟨hl, hnotin⟩ := splitAtChar_eq '$' rest middle after hsp
                cases middle with
                | nil =>
                  simp only [List.nil_append] at hl
                  subst hl
                  have hlen2 : after.length < f := by
                    simp only [List.length_cons] at hlen'; omega
                  rw [refStep_top_dollar2]
                  have hr := (ih after "$" (current ++ ['$', '$']) acc hlen2
                    (by decide)).2.2.2
                  simp only [splitSqlGo]
                  simpa [hsp, tagRegexTest_false] using hr
                | cons m ms =>
                  have hm : m ≠ '$' := hnotin m (by simp)
                  subst hl
                  simp only [List.cons_append] at hsp ⊢
                  rw [refStep_top_dollar1 _ _ _ _ hm]
                  have hr := (ih (m :: (ms ++ '$' :: after)) ⟨['$']⟩
                    (current ++ ['$']) acc (by simpa using hlen') (by simp)).1
                  simp only [splitSqlGo]
                  simpa [hsp, tagRegexTest_false] using hr
            · by_cases h4 : c = ';'
              · subst h4
                rw [refStep_top_semi]
                have hr := (ih rest ⟨[';']⟩ []
                  (if jsTrimList current = [] then acc
                   else acc ++ [(⟨jsTrimList current⟩ : String)]) hlen' (by simp)).1
                simp only [splitSqlGo]
                simpa using hr
              · rw [refStep_top_other c rest current acc h1 h2 h3 h4]
                have hr := (ih rest ⟨[c]⟩ (current ++ [c]) acc hlen' (by simp)).1
                simp only [splitSqlGo]
                simpa [h1, h2, h3, h4] using hr
      · -- single mode
        by_cases h1 : c = '\''
        · subst h1
          rw [refStep_single_quote]
          have hr := (ih rest ⟨['\'']⟩ (current ++ ['\'']) acc hlen' (by simp)).1
          simp only [splitSqlGo]
          simpa [hprevne] using hr
        · rw [refStep_single_other c rest current acc h1]
          have hr := (ih rest ⟨[c]⟩ (current ++ [c]) acc hlen' (by simp)).2.1
          simp only [splitSqlGo]
          simpa [h1] using hr
      · -- double mode
        by_cases h1 : c = '"'
        · subst h1
          rw [refStep_double_quote]
          have hr := (ih rest ⟨['"']⟩ (current ++ ['"']) acc hlen' (by simp)).1
          simp only [splitSqlGo]
          simpa [hprevne] using hr
        · rw [refStep_double_other c rest current acc h1]
          have hr := (ih rest ⟨[c]⟩ (current ++ [c]) acc hlen' (by simp)).2.2.1
          simp only [splitSqlGo]
          simpa [h1] using hr
      · -- dollar mode
        cases rest with
        | nil =>
          rw [refStep_dollar_one]
          have hr := (ih [] ⟨[c]⟩ (current ++ [c]) acc hlen' (by simp)).2.2.2
          simp only [splitSqlGo]
          simpa [splitSqlGo, startsWithL] using hr
        | cons r2 rest2 =>
          by_cases hb : c = '$' ∧ r2 = '$'
          · obtain ⟨hb1, hb2⟩ := hb
            subst hb1; subst hb2
            have hlen2 : rest2.length < f := by
              simp only [List.length_cons] at hlen'; omega
            rw [refStep_dollar_close]
            have hr := (ih rest2 "$" (current ++ ['$', '$']) acc hlen2
              (by decide)).1
            simp only [splitSqlGo]
            simpa [startsWithL] using hr
          · have hsw : startsWithL ['$', '$'] (c :: r2 :: rest2) = false := by
              simp only [startsWithL, Bool.and_true, Bool.and_eq_false_iff]
              by_cases hc : c = '$'
              · right
                exact beq_eq_false_iff_ne.mpr (fun he => hb ⟨hc, he.symm⟩)
              · left
                exact beq_eq_false_iff_ne.mpr (fun he => hc he.symm)
            rw [refStep_dollar_step c r2 rest2 current acc hb]
            have hr := (ih (r2 :: rest2) ⟨[c]⟩ (current ++ [c]) acc hlen'
              (by simp)).2.2.2
            simp only [splitSqlGo]
            simpa [hsw] using hr

set_option maxRecDepth 100000 in
/-- C4 counterexample: `splitSqlStatements` splits at a semicolon inside a
line comment, after a backslash-escaped quote, and inside a named
`$tag$`-quoted body — the source tracks no comments, its escaped-quote
guard compares a one-character string with a two-character one and is
always true, and its tag regex never matches — so each input below yields
two statements where the claim requires one. -/
theorem claim_C4_counterexample :
    splitSqlStatements "SELECT 1 -- a;b" = ["SELECT 1 -- a", "b"] ∧
    splitSqlStatements "SELECT 'a\\';b'" = ["SELECT 'a\\'", "b'"] ∧
    splitSqlStatements "DO $fn$ a; b $fn$" = ["DO $fn$ a", "b $fn$"] := by
  refine ⟨by decide, by decide, by decide⟩

set_option maxRecDepth 400000 in
/-- C4 (amended): `splitSqlStatements` behaves exactly like a splitter that
honours single quotes, double quotes and anonymous `$$` dollar-quoting but
no escapes, no comments, and no named `$tag$` delimiters; on the
specification scenario (whose function body is `$$`-quoted) it still
produces the three expected statements with the body kept verbatim. -/
theorem claim_C4_split_sql_statements :
    (∀ query : String, splitSqlStatements query = refSplitSql query) ∧
    splitSqlStatements "INSERT INTO t VALUES ('a;b'); CREATE FUNCTION f() RETURNS void AS $$ BEGIN END; $$ LANGUAGE plpgsql; SELECT 1" =
      ["INSERT INTO t VALUES ('a;b')",
        "CREATE FUNCTION f() RETURNS void AS $$ BEGIN END; $$ LANGUAGE plpgsql",
        "SELECT 1"] := by
  constructor
  · intro query
    exact (splitSqlGo_agree (query.data.length + 1) query.data "" [] []
      (Nat.lt_succ_self _) (by simp)).1
  · decide

/-! ### Mongo argument parsing lemmas -/

theorem hexVal?_isSome_ranges {c : Char} (h : (hexVal? c).isSome = true) :
    (48 ≤ c.toNat ∧ c.toNat ≤ 57) ∨ (97 ≤ c.toNat ∧ c.toNat ≤ 102) ∨
      (65 ≤ c.toNat ∧ c.toNat ≤ 70) := by
  unfold hexVal? at h
  by_cases h1 : c.isDigit
  · left
    simp only [Char.isDigit, Bool.and_eq_true, decide_eq_true_eq] at h1
    obtain ⟨ha, hb⟩ := h1
    exact ⟨ha, hb⟩
  · rw [if_neg (by simpa using h1)] at h
    by_cases h2 : 'a' ≤ c ∧ c ≤ 'f'
    · right; left
      obtain ⟨ha, hb⟩ := h2
      exact ⟨ha, hb⟩
    · rw [if_neg h2] at h
      by_cases h3 : 'A' ≤ c ∧ c ≤ 'F'
      · right; right
        obtain ⟨ha, hb⟩ := h3
        exact ⟨ha, hb⟩
      · rw [if_neg h3] at h
        exact absurd h (by simp)

theorem hex_ne_of_toNat {c : Char} (h : (hexVal? c).isSome = true) (d : Char)
    (hd : d.toNat < 48 ∨ (57 < d.toNat ∧ d.toNat < 65) ∨
      (70 < d.toNat ∧ d.toNat < 97) ∨ 102 < d.toNat) : c ≠ d := by
  intro he
  subst he
  rcases hexVal?_isSome_ranges h with ⟨a, b⟩ | ⟨a, b⟩ | ⟨a, b⟩ <;> omega

theorem hex_toLower_range {c : Char} (h : (hexVal? c).isSome = true) :
    (48 ≤ c.toLower.toNat ∧ c.toLower.toNat ≤ 57) ∨
      (97 ≤ c.toLower.toNat ∧ c.toLower.toNat ≤ 102) := by
  rcases hexVal?_isSome_ranges h with ⟨a, b⟩ | ⟨a, b⟩ | ⟨a, b⟩
  · left
    unfold Char.toLower
    rw [if_neg (by omega)]
    exact ⟨a, b⟩
  · right
    unfold Char.toLower
    rw [if_neg (by omega)]
    exact ⟨a, b⟩
  · right
    have h6 : c.toNat = 65 ∨ c.toNat = 66 ∨ c.toNat = 67 ∨ c.toNat = 68 ∨
        c.toNat = 69 ∨ c.toNat = 70 := by omega
    rcases h6 with h6 | h6 | h6 | h6 | h6 | h6
    · have hc : c = 'A' := char_eq_of_toNat_eq (by rw [h6]; rfl)
      subst hc; decide
    · have hc : c = 'B' := char_eq_of_toNat_eq (by rw [h6]; rfl)
      subst hc; decide
    · have hc : c = 'C' := char_eq_of_toNat_eq (by rw [h6]; rfl)
      subst hc; decide
    · have hc : c = 'D' := char_eq_of_toNat_eq (by rw [h6]; rfl)
      subst hc; decide
    · have hc : c = 'E' := char_eq_of_toNat_eq (by rw [h6]; rfl)
      subst hc; decide
    · have hc : c = 'F' := char_eq_of_toNat_eq (by rw [h6]; rfl)
      subst hc; decide

theorem hex_toLower_ne {c : Char} (h : (hexVal? c).isSome = true) (d : Char)
    (hd : d.toNat < 48 ∨ (57 < d.toNat ∧ d.toNat < 97) ∨ 102 < d.toNat) :
    c.toLower ≠ d := by
  intro he
  have := congrArg Char.toNat he
  rcases hex_toLower_range h with ⟨a, b⟩ | ⟨a, b⟩ <;> omega

theorem hex_char_facts {c : Char} (h : (hexVal? c).isSome = true) :
    c ≠ '/' ∧ c ≠ '\'' ∧ c ≠ '"' ∧ c ≠ '\\' ∧ c ≠ '{' ∧ c ≠ ',' ∧
      jsIsSpaceChar c = false ∧ isQuote c = false ∧ ¬ c.toNat < 32 ∧
      c.toLower ≠ 'i' ∧ c.toLower ≠ 'n' ∧ jsonWsChar c = false := by
  have hr := hexVal?_isSome_ranges h
  have h47 : c ≠ '/' := hex_ne_of_toNat h '/' (by left; decide)
  have h39 : c ≠ '\'' := hex_ne_of_toNat h '\'' (by left; decide)
  have h34 : c ≠ '"' := hex_ne_of_toNat h '"' (by left; decide)
  have h92 : c ≠ '\\' := hex_ne_of_toNat h '\\' (by right; right; left; decide)
  have h123 : c ≠ '{' := hex_ne_of_toNat h '{' (by right; right; right; decide)
  have h44 : c ≠ ',' := hex_ne_of_toNat h ',' (by left; decide)
  have hsp : jsIsSpaceChar c = false := by
    unfold jsIsSpaceChar
    have s1 : c ≠ ' ' := hex_ne_of_toNat h ' ' (by left; decide)
    have s2 : c ≠ '\t' := hex_ne_of_toNat h '\t' (by left; decide)
    have s3 : c ≠ '\n' := hex_ne_of_toNat h '\n' (by left; decide)
    have s4 : c ≠ '\r' := hex_ne_of_toNat h '\r' (by left; decide)
    have s5 : c ≠ '\x0b' := hex_ne_of_toNat h '\x0b' (by left; decide)
    have s6 : c ≠ '\x0c' := hex_ne_of_toNat h '\x0c' (by left; decide)
    simp [s1, s2, s3, s4, s5, s6]
  have hq : isQuote c = false := by
    unfold isQuote
    simp [h34, h39]
  have h32 : ¬ c.toNat < 32 := by
    rcases hr with ⟨a, _⟩ | ⟨a, _⟩ | ⟨a, _⟩ <;> omega
  have hi : c.toLower ≠ 'i' := hex_toLower_ne h 'i' (by right; right; decide)
  have hn : c.toLower ≠ 'n' := hex_toLower_ne h 'n' (by right; right; decide)
  have hw : jsonWsChar c = false := by
    unfold jsonWsChar
    have s1 : c ≠ ' ' := hex_ne_of_toNat h ' ' (by left; decide)
    have s2 : c ≠ '\t' := hex_ne_of_toNat h '\t' (by left; decide)
    have s3 : c ≠ '\n' := hex_ne_of_toNat h '\n' (by left; decide)
    have s4 : c ≠ '\r' := hex_ne_of_toNat h '\r' (by left; decide)
    simp [s1, s2, s3, s4]
  exact ⟨h47, h39, h34, h92, h123, h44, hsp, hq, h32, hi, hn, hw⟩

theorem replaceScanFuel_nil (m : List Char → Option (List Char × List Char))
    (f : Nat) : replaceScanFuel f m [] = [] := by
  cases f <;> rfl

theorem replaceScanFuel_zero (m : List Char → Option (List Char × List Char))
    (l : List Char) : replaceScanFuel 0 m l = l := by
  cases l <;> rfl

theorem replaceScanFuel_cons_none (m : List Char → Option (List Char × List Char))
    (f : Nat) (c : Char) (rest : List Char) (h : m (c :: rest) = none) :
    replaceScanFuel f m (c :: rest) = c :: replaceScanFuel (f - 1) m rest := by
  cases f with
  | zero => rw [replaceScanFuel_zero, replaceScanFuel_zero]
  | succ f2 => simp [replaceScanFuel, h]

theorem replaceScanFuel_cons_some (m : List Char → Option (List Char × List Char))
    (f : Nat) (c : Char) (rest rep rest2 : List Char)
    (h : m (c :: rest) = some (rep, rest2)) :
    replaceScanFuel (f + 1) m (c :: rest) = rep ++ replaceScanFuel f m rest2 := by
  simp [replaceScanFuel, h]

theorem replaceScanFuel_hexSkip (m : List Char → Option (List Char × List Char))
    (hfail : ∀ c t, (hexVal? c).isSome = true → m (c :: t) = none) :
    ∀ (mid : List Char), (∀ c ∈ mid, (hexVal? c).isSome = true) →
    ∀ f suffix, replaceScanFuel f m (mid ++ suffix) =
      mid ++ replaceScanFuel (f - mid.length) m suffix := by
  intro mid
  induction mid with
  | nil => intro _ f suffix; simp
  | cons c cs ih =>
    intro hmid f suffix
    rw [List.cons_append,
      replaceScanFuel_cons_none m f c (cs ++ suffix)
        (hfail c (cs ++ suffix) (hmid c (by simp))),
      ih (fun x hx => hmid x (by simp [hx])) (f - 1) suffix]
    have harith : f - 1 - cs.length = f - (cs.length + 1) := by omega
    rw [harith]
    simp

theorem span_append_stop (p : Char → Bool) :
    ∀ (xs : List Char), (∀ x ∈ xs, p x = true) →
    ∀ (y : Char), p y = false → ∀ ys, (xs ++ y :: ys).span p = (xs, y :: ys) := by
  intro xs
  induction xs with
  | nil =>
    intro _ y hy ys
    simp [List.span_eq_take_drop, hy]
  | cons x rest ih =>
    intro hx y hy ys
    have hpx : p x = true := hx x (by simp)
    have hih := ih (fun z hz => hx z (by simp [hz])) y hy ys
    rw [List.span_eq_take_drop] at hih ⊢
    have h1 : List.takeWhile p (rest ++ y :: ys) = rest := congrArg Prod.fst hih
    have h2 : List.dropWhile p (rest ++ y :: ys) = y :: ys := congrArg Prod.snd hih
    simp [List.takeWhile_cons, List.dropWhile_cons, hpx, h1, h2]

theorem matchLitCI_head (p : Char) (ps : List Char) (c : Char) (cs : List Char)
    (h : c.toLower ≠ p) : matchLitCI (p :: ps) (c :: cs) = none := by
  simp [matchLitCI, h]

theorem matchRegexLitPass_head (c : Char) (t : List Char) (h : c ≠ '/') :
    matchRegexLitPass (c :: t) = none := by
  rw [matchRegexLitPass.eq_def]
  split
  · next r1 heq =>
    injection heq with hc _
    exact absurd hc h
  · rfl

theorem matchSingleQuotePass_head (c : Char) (t : List Char) (h : c ≠ '\'') :
    matchSingleQuotePass (c :: t) = none := by
  rw [matchSingleQuotePass.eq_def]
  split
  · next r1 heq =>
    injection heq with hc _
    exact absurd hc h
  · rfl

theorem matchUnquotedKeyPass_head (c : Char) (t : List Char) (h1 : c ≠ '{')
    (h2 : c ≠ ',') : matchUnquotedKeyPass (c :: t) = none := by
  simp [matchUnquotedKeyPass, h1, h2]

theorem matchObjectIdPass_head (c : Char) (t : List Char) (h : c.toLower ≠ 'o') :
    matchObjectIdPass (c :: t) = none := by
  have hm := matchLitCI_head 'o' ['b', 'j', 'e', 'c', 't', 'i', 'd'] c t h
  simp [matchObjectIdPass, hm]

theorem matchISODatePass_head (c : Char) (t : List Char) (h : c.toLower ≠ 'i') :
    matchISODatePass (c :: t) = none := by
  have hm := matchLitCI_head 'i' ['s', 'o', 'd', 'a', 't', 'e'] c t h
  simp [matchISODatePass, hm]

theorem matchNewDatePass_head (c : Char) (t : List Char) (h : c.toLower ≠ 'n') :
    matchNewDatePass (c :: t) = none := by
  have hm := matchLitCI_head 'n' ['e', 'w'] c t h
  simp [matchNewDatePass, hm]

theorem matchNumberLongPass_head (c : Char) (t : List Char) (h : c.toLower ≠ 'n') :
    matchNumberLongPass (c :: t) = none := by
  have hm := matchLitCI_head 'n' ['u', 'm', 'b', 'e', 'r', 'l', 'o', 'n', 'g'] c t h
  simp [matchNumberLongPass, hm]

theorem matchNumberIntPass_head (c : Char) (t : List Char) (h : c.toLower ≠ 'n') :
    matchNumberIntPass (c :: t) = none := by
  have hm := matchLitCI_head 'n' ['u', 'm', 'b', 'e', 'r', 'i', 'n', 't'] c t h
  simp [matchNumberIntPass, hm]

theorem matchNumberDecimalPass_head (c : Char) (t : List Char)
    (h : c.toLower ≠ 'n') : matchNumberDecimalPass (c :: t) = none := by
  have hm := matchLitCI_head 'n'
    ['u', 'm', 'b', 'e', 'r', 'd', 'e', 'c', 'i', 'm', 'a', 'l'] c t h
  simp [matchNumberDecimalPass, hm]

theorem pass_id_oidMarker (m : List Char → Option (List Char × List Char))
    (hex : List Char) (hh : ∀ c ∈ hex, (hexVal? c).isSome = true)
    (hfail : ∀ c t, (hexVal? c).isSome = true → m (c :: t) = none)
    (p1 : m ('{' :: '"' :: '_' :: '_' :: '$' :: 'o' :: 'i' :: 'd' :: '"' :: ':' ::
      '"' :: (hex ++ ['"', '}'])) = none)
    (p2 : m ('"' :: '_' :: '_' :: '$' :: 'o' :: 'i' :: 'd' :: '"' :: ':' ::
      '"' :: (hex ++ ['"', '}'])) = none)
    (p3 : m ('_' :: '_' :: '$' :: 'o' :: 'i' :: 'd' :: '"' :: ':' ::
      '"' :: (hex ++ ['"', '}'])) = none)
    (p4 : m ('_' :: '$' :: 'o' :: 'i' :: 'd' :: '"' :: ':' ::
      '"' :: (hex ++ ['"', '}'])) = none)
    (p5 : m ('$' :: 'o' :: 'i' :: 'd' :: '"' :: ':' ::
      '"' :: (hex ++ ['"', '}'])) = none)
    (p6 : m ('o' :: 'i' :: 'd' :: '"' :: ':' :: '"' :: (hex ++ ['"', '}'])) = none)
    (p7 : m ('i' :: 'd' :: '"' :: ':' :: '"' :: (hex ++ ['"', '}'])) = none)
    (p8 : m ('d' :: '"' :: ':' :: '"' :: (hex ++ ['"', '}'])) = none)
    (p9 : m ('"' :: ':' :: '"' :: (hex ++ ['"', '}'])) = none)
    (p10 : m (':' :: '"' :: (hex ++ ['"', '}'])) = none)
    (p11 : m ('"' :: (hex ++ ['"', '}'])) = none)
    (p12 : m ['"', '}'] = none)
    (p13 : m ['}'] = none) (f : Nat) :
    replaceScanFuel f m (oidMarkPre ++ (hex ++ markSuf)) =
      oidMarkPre ++ (hex ++ markSuf) := by
  simp only [oidMarkPre, markSuf, List.cons_append, List.nil_append]
  rw [replaceScanFuel_cons_none _ _ _ _ p1]
  rw [replaceScanFuel_cons_none _ _ _ _ p2]
  rw [replaceScanFuel_cons_none _ _ _ _ p3]
  rw [replaceScanFuel_cons_none _ _ _ _ p4]
  rw [replaceScanFuel_cons_none _ _ _ _ p5]
  rw [replaceScanFuel_cons_none _ _ _ _ p6]
  rw [replaceScanFuel_cons_none _ _ _ _ p7]
  rw [replaceScanFuel_cons_none _ _ _ _ p8]
  rw [replaceScanFuel_cons_none _ _ _ _ p9]
  rw [replaceScanFuel_cons_none _ _ _ _ p10]
  rw [replaceScanFuel_cons_none _ _ _ _ p11]
  rw [replaceScanFuel_hexSkip m hfail hex hh]
  rw [replaceScanFuel_cons_none _ _ _ _ p12]
  rw [replaceScanFuel_cons_none _ _ _ _ p13]
  rw [replaceScanFuel_nil]

/-- The call shape rewritten by the `ObjectId` pass: `ObjectId("`. -/
def oidCallPre : List Char := ['O', 'b', 'j', 'e', 'c', 't', 'I', 'd', '(', '"']

theorem matchObjectIdPass_full (hex : List Char) (hne : hex ≠ [])
    (hq : ∀ c ∈ hex, isQuote c = false) (rest : List Char) :
    matchObjectIdPass ('O' :: 'b' :: 'j' :: 'e' :: 'c' :: 't' :: 'I' :: 'd' ::
      '(' :: '"' :: (hex ++ '"' :: ')' :: rest)) =
      some (oidMarkPre ++ (hex ++ markSuf), rest) := by
  have hspan := span_append_stop (fun c => !(isQuote c)) hex
    (fun x hx => by simp [hq x hx]) '"' (by decide) (')' :: rest)
  have htake : List.takeWhile (fun c => !isQuote c) (hex ++ '"' :: ')' :: rest) =
      hex := by
    have := congrArg Prod.fst hspan
    simpa [List.span_eq_take_drop] using this
  have hdrop : List.dropWhile (fun c => !isQuote c) (hex ++ '"' :: ')' :: rest) =
      '"' :: ')' :: rest := by
    have := congrArg Prod.snd hspan
    simpa [List.span_eq_take_drop] using this
  simp +decide [matchObjectIdPass, matchLitCI, parenQuotedPart, skipWs, htake,
    hdrop, hne, oidMarkPre, markSuf]

theorem hex_not_slash {c : Char} (h : (hexVal? c).isSome = true) : c ≠ '/' :=
  (hex_char_facts h).1

theorem hex_not_squote {c : Char} (h : (hexVal? c).isSome = true) : c ≠ '\'' :=
  (hex_char_facts h).2.1

theorem hex_not_dquote {c : Char} (h : (hexVal? c).isSome = true) : c ≠ '"' :=
  (hex_char_facts h).2.2.1

theorem hex_not_bslash {c : Char} (h : (hexVal? c).isSome = true) : c ≠ '\\' :=
  (hex_char_facts h).2.2.2.1

theorem hex_not_lbrace {c : Char} (h : (hexVal? c).isSome = true) : c ≠ '{' :=
  (hex_char_facts h).2.2.2.2.1

theorem hex_not_comma {c : Char} (h : (hexVal? c).isSome = true) : c ≠ ',' :=
  (hex_char_facts h).2.2.2.2.2.1

theorem hex_not_space {c : Char} (h : (hexVal? c).isSome = true) :
    jsIsSpaceChar c = false :=
  (hex_char_facts h).2.2.2.2.2.2.1

theorem hex_not_quote {c : Char} (h : (hexVal? c).isSome = true) :
    isQuote c = false :=
  (hex_char_facts h).2.2.2.2.2.2.2.1

theorem hex_not_ctl {c : Char} (h : (hexVal? c).isSome = true) : ¬ c.toNat < 32 :=
  (hex_char_facts h).2.2.2.2.2.2.2.2.1

theorem hex_lower_ne_i {c : Char} (h : (hexVal? c).isSome = true) :
    c.toLower ≠ 'i' :=
  (hex_char_facts h).2.2.2.2.2.2.2.2.2.1

theorem hex_lower_ne_n {c : Char} (h : (hexVal? c).isSome = true) :
    c.toLower ≠ 'n' :=
  (hex_char_facts h).2.2.2.2.2.2.2.2.2.2.1

theorem hex_not_jsonws {c : Char} (h : (hexVal? c).isSome = true) :
    jsonWsChar c = false :=
  (hex_char_facts h).2.2.2.2.2.2.2.2.2.2.2

theorem isodate_id_marker (hex : List Char)
    (hh : ∀ c ∈ hex, (hexVal? c).isSome = true) (f : Nat) :
    replaceScanFuel f matchISODatePass (oidMarkPre ++ (hex ++ markSuf)) =
      oidMarkPre ++ (hex ++ markSuf) :=
  pass_id_oidMarker _ hex hh
    (fun c t hc => matchISODatePass_head c t (hex_lower_ne_i hc))
    (by simp +decide [matchISODatePass, matchLitCI])
    (by simp +decide [matchISODatePass, matchLitCI])
    (by simp +decide [matchISODatePass, matchLitCI])
    (by simp +decide [matchISODatePass, matchLitCI])
    (by simp +decide [matchISODatePass, matchLitCI])
    (by simp +decide [matchISODatePass, matchLitCI])
    (by simp +decide [matchISODatePass, matchLitCI])
    (by simp +decide [matchISODatePass, matchLitCI])
    (by simp +decide [matchISODatePass, matchLitCI])
    (by simp +decide [matchISODatePass, matchLitCI])
    (by simp +decide [matchISODatePass, matchLitCI])
    (by simp +decide [matchISODatePass, matchLitCI])
    (by simp +decide [matchISODatePass, matchLitCI]) f

theorem newdate_id_marker (hex : List Char)
    (hh : ∀ c ∈ hex, (hexVal? c).isSome = true) (f : Nat) :
    replaceScanFuel f matchNewDatePass (oidMarkPre ++ (hex ++ markSuf)) =
      oidMarkPre ++ (hex ++ markSuf) :=
  pass_id_oidMarker _ hex hh
    (fun c t hc => matchNewDatePass_head c t (hex_lower_ne_n hc))
    (by simp +decide [matchNewDatePass, matchLitCI])
    (by simp +decide [matchNewDatePass, matchLitCI])
    (by simp +decide [matchNewDatePass, matchLitCI])
    (by simp +decide [matchNewDatePass, matchLitCI])
    (by simp +decide [matchNewDatePass, matchLitCI])
    (by simp +decide [matchNewDatePass, matchLitCI])
    (by simp +decide [matchNewDatePass, matchLitCI])
    (by simp +decide [matchNewDatePass, matchLitCI])
    (by simp +decide [matchNewDatePass, matchLitCI])
    (by simp +decide [matchNewDatePass, matchLitCI])
    (by simp +decide [matchNewDatePass, matchLitCI])
    (by simp +decide [matchNewDatePass, matchLitCI])
    (by simp +decide [matchNewDatePass, matchLitCI]) f

theorem numberlong_id_marker (hex : List Char)
    (hh : ∀ c ∈ hex, (hexVal? c).isSome = true) (f : Nat) :
    replaceScanFuel f matchNumberLongPass (oidMarkPre ++ (hex ++ markSuf)) =
      oidMarkPre ++ (hex ++ markSuf) :=
  pass_id_oidMarker _ hex hh
    (fun c t hc => matchNumberLongPass_head c t (hex_lower_ne_n hc))
    (by simp +decide [matchNumberLongPass, matchLitCI])
    (by simp +decide [matchNumberLongPass, matchLitCI])
    (by simp +decide [matchNumberLongPass, matchLitCI])
    (by simp +decide [matchNumberLongPass, matchLitCI])
    (by simp +decide [matchNumberLongPass, matchLitCI])
    (by simp +decide [matchNumberLongPass, matchLitCI])
    (by simp +decide [matchNumberLongPass, matchLitCI])
    (by simp +decide [matchNumberLongPass, matchLitCI])
    (by simp +decide [matchNumberLongPass, matchLitCI])
    (by simp +decide [matchNumberLongPass, matchLitCI])
    (by simp +decide [matchNumberLongPass, matchLitCI])
    (by simp +decide [matchNumberLongPass, matchLitCI])
    (by simp +decide [matchNumberLongPass, matchLitCI]) f

theorem numberint_id_marker (hex : List Char)
    (hh : ∀ c ∈ hex, (hexVal? c).isSome = true) (f : Nat) :
    replaceScanFuel f matchNumberIntPass (oidMarkPre ++ (hex ++ markSuf)) =
      oidMarkPre ++ (hex ++ markSuf) :=
  pass_id_oidMarker _ hex hh
    (fun c t hc => matchNumberIntPass_head c t (hex_lower_ne_n hc))
    (by simp +decide [matchNumberIntPass, matchLitCI])
    (by simp +decide [matchNumberIntPass, matchLitCI])
    (by simp +decide [matchNumberIntPass, matchLitCI])
    (by simp +decide [matchNumberIntPass, matchLitCI])
    (by simp +decide [matchNumberIntPass, matchLitCI])
    (by simp +decide [matchNumberIntPass, matchLitCI])
    (by simp +decide [matchNumberIntPass, matchLitCI])
    (by simp +decide [matchNumberIntPass, matchLitCI])
    (by simp +decide [matchNumberIntPass, matchLitCI])
    (by simp +decide [matchNumberIntPass, matchLitCI])
    (by simp +decide [matchNumberIntPass, matchLitCI])
    (by simp +decide [matchNumberIntPass, matchLitCI])
    (by simp +decide [matchNumberIntPass, matchLitCI]) f

theorem numberdecimal_id_marker (hex : List Char)
    (hh : ∀ c ∈ hex, (hexVal? c).isSome = true) (f : Nat) :
    replaceScanFuel f matchNumberDecimalPass (oidMarkPre ++ (hex ++ markSuf)) =
      oidMarkPre ++ (hex ++ markSuf) :=
  pass_id_oidMarker _ hex hh
    (fun c t hc => matchNumberDecimalPass_head c t (hex_lower_ne_n hc))
    (by simp +decide [matchNumberDecimalPass, matchLitCI])
    (by simp +decide [matchNumberDecimalPass, matchLitCI])
    (by simp +decide [matchNumberDecimalPass, matchLitCI])
    (by simp +decide [matchNumberDecimalPass, matchLitCI])
    (by simp +decide [matchNumberDecimalPass, matchLitCI])
    (by simp +decide [matchNumberDecimalPass, matchLitCI])
    (by simp +decide [matchNumberDecimalPass, matchLitCI])
    (by simp +decide [matchNumberDecimalPass, matchLitCI])
    (by simp +decide [matchNumberDecimalPass, matchLitCI])
    (by simp +decide [matchNumberDecimalPass, matchLitCI])
    (by simp +decide [matchNumberDecimalPass, matchLitCI])
    (by simp +decide [matchNumberDecimalPass, matchLitCI])
    (by simp +decide [matchNumberDecimalPass, matchLitCI]) f

theorem singlequote_id_marker (hex : List Char)
    (hh : ∀ c ∈ hex, (hexVal? c).isSome = true) (f : Nat) :
    replaceScanFuel f matchSingleQuotePass (oidMarkPre ++ (hex ++ markSuf)) =
      oidMarkPre ++ (hex ++ markSuf) :=
  pass_id_oidMarker _ hex hh
    (fun c t hc => matchSingleQuotePass_head c t (hex_not_squote hc))
    (matchSingleQuotePass_head _ _ (by decide))
    (matchSingleQuotePass_head _ _ (by decide))
    (matchSingleQuotePass_head _ _ (by decide))
    (matchSingleQuotePass_head _ _ (by decide))
    (matchSingleQuotePass_head _ _ (by decide))
    (matchSingleQuotePass_head _ _ (by decide))
    (matchSingleQuotePass_head _ _ (by decide))
    (matchSingleQuotePass_head _ _ (by decide))
    (matchSingleQuotePass_head _ _ (by decide))
    (matchSingleQuotePass_head _ _ (by decide))
    (matchSingleQuotePass_head _ _ (by decide))
    (matchSingleQuotePass_head _ _ (by decide))
    (matchSingleQuotePass_head _ _ (by decide)) f

theorem unquotedkey_id_marker (hex : List Char)
    (hh : ∀ c ∈ hex, (hexVal? c).isSome = true) (f : Nat) :
    replaceScanFuel f matchUnquotedKeyPass (oidMarkPre ++ (hex ++ markSuf)) =
      oidMarkPre ++ (hex ++ markSuf) :=
  pass_id_oidMarker _ hex hh
    (fun c t hc =>
      matchUnquotedKeyPass_head c t (hex_not_lbrace hc) (hex_not_comma hc))
    (by simp +decide [matchUnquotedKeyPass, jsIdentStart])
    (matchUnquotedKeyPass_head _ _ (by decide) (by decide))
    (matchUnquotedKeyPass_head _ _ (by decide) (by decide))
    (matchUnquotedKeyPass_head _ _ (by decide) (by decide))
    (matchUnquotedKeyPass_head _ _ (by decide) (by decide))
    (matchUnquotedKeyPass_head _ _ (by decide) (by decide))
    (matchUnquotedKeyPass_head _ _ (by decide) (by decide))
    (matchUnquotedKeyPass_head _ _ (by decide) (by decide))
    (matchUnquotedKeyPass_head _ _ (by decide) (by decide))
    (matchUnquotedKeyPass_head _ _ (by decide) (by decide))
    (matchUnquotedKeyPass_head _ _ (by decide) (by decide))
    (matchUnquotedKeyPass_head _ _ (by decide) (by decide))
    (matchUnquotedKeyPass_head _ _ (by decide) (by decide)) f

theorem mongoNormalize_oidCall (hex : List Char) (hlen : hex.length = 24)
    (hh : ∀ c ∈ hex, (hexVal? c).isSome = true) :
    mongoNormalize (oidCallPre ++ (hex ++ ['"', ')'])) =
      oidMarkPre ++ (hex ++ markSuf) := by
  have hq : ∀ c ∈ hex, isQuote c = false := fun c hc => hex_not_quote (hh c hc)
  have hne : hex ≠ [] := by
    intro he; rw [he] at hlen; simp at hlen
  have h1 : passRun matchRegexLitPass (oidCallPre ++ (hex ++ ['"', ')'])) =
      oidCallPre ++ (hex ++ ['"', ')']) := by
    unfold passRun
    simp only [oidCallPre, List.cons_append, List.nil_append]
    rw [replaceScanFuel_cons_none _ _ _ _ (matchRegexLitPass_head _ _ (by decide))]
    rw [replaceScanFuel_cons_none _ _ _ _ (matchRegexLitPass_head _ _ (by decide))]
    rw [replaceScanFuel_cons_none _ _ _ _ (matchRegexLitPass_head _ _ (by decide))]
    rw [replaceScanFuel_cons_none _ _ _ _ (matchRegexLitPass_head _ _ (by decide))]
    rw [replaceScanFuel_cons_none _ _ _ _ (matchRegexLitPass_head _ _ (by decide))]
    rw [replaceScanFuel_cons_none _ _ _ _ (matchRegexLitPass_head _ _ (by decide))]
    rw [replaceScanFuel_cons_none _ _ _ _ (matchRegexLitPass_head _ _ (by decide))]
    rw [replaceScanFuel_cons_none _ _ _ _ (matchRegexLitPass_head _ _ (by decide))]
    rw [replaceScanFuel_cons_none _ _ _ _ (matchRegexLitPass_head _ _ (by decide))]
    rw [replaceScanFuel_cons_none _ _ _ _ (matchRegexLitPass_head _ _ (by decide))]
    rw [replaceScanFuel_hexSkip matchRegexLitPass
      (fun c t hc => matchRegexLitPass_head c t (hex_not_slash hc)) hex hh]
    rw [replaceScanFuel_cons_none _ _ _ _ (matchRegexLitPass_head _ _ (by decide))]
    rw [replaceScanFuel_cons_none _ _ _ _ (matchRegexLitPass_head _ _ (by decide))]
    rw [replaceScanFuel_nil]
  have h2 : passRun matchObjectIdPass (oidCallPre ++ (hex ++ ['"', ')'])) =
      oidMarkPre ++ (hex ++ markSuf) := by
    unfold passRun
    have hlen36 : (oidCallPre ++ (hex ++ ['"', ')'])).length = 35 + 1 := by
      simp [oidCallPre, hlen]
    rw [hlen36]
    simp only [oidCallPre, List.cons_append, List.nil_append]
    rw [replaceScanFuel_cons_some _ 35 _ _ _ _ (matchObjectIdPass_full hex hne hq [])]
    rw [replaceScanFuel_nil, List.append_nil]
  have hiso : passRun matchISODatePass (oidMarkPre ++ (hex ++ markSuf)) =
      oidMarkPre ++ (hex ++ markSuf) := isodate_id_marker hex hh _
  have hnew : passRun matchNewDatePass (oidMarkPre ++ (hex ++ markSuf)) =
      oidMarkPre ++ (hex ++ markSuf) := newdate_id_marker hex hh _
  have hlong : passRun matchNumberLongPass (oidMarkPre ++ (hex ++ markSuf)) =
      oidMarkPre ++ (hex ++ markSuf) := numberlong_id_marker hex hh _
  have hint : passRun matchNumberIntPass (oidMarkPre ++ (hex ++ markSuf)) =
      oidMarkPre ++ (hex ++ markSuf) := numberint_id_marker hex hh _
  have hdec : passRun matchNumberDecimalPass (oidMarkPre ++ (hex ++ markSuf)) =
      oidMarkPre ++ (hex ++ markSuf) := numberdecimal_id_marker hex hh _
  have hsq : passRun matchSingleQuotePass (oidMarkPre ++ (hex ++ markSuf)) =
      oidMarkPre ++ (hex ++ markSuf) := singlequote_id_marker hex hh _
  have huk : passRun matchUnquotedKeyPass (oidMarkPre ++ (hex ++ markSuf)) =
      oidMarkPre ++ (hex ++ markSuf) := unquotedkey_id_marker hex hh _
  simp only [mongoNormalize]
  rw [h1, h2, hiso, hnew, hlong, hint, hdec, hsq, huk]

theorem jsTrim_oidCall (hex : List Char) :
    jsTrimList (oidCallPre ++ (hex ++ ['"', ')'])) =
      oidCallPre ++ (hex ++ ['"', ')']) := by
  apply jsTrimList_eq_self
  · simp only [oidCallPre, List.cons_append]
    simp +decide [List.dropWhile_cons]
  · have hrev : (oidCallPre ++ (hex ++ ['"', ')'])).reverse =
        ')' :: '"' :: (hex.reverse ++ oidCallPre.reverse) := by
      simp [oidCallPre]
    rw [hrev]
    simp +decide [List.dropWhile_cons]

theorem jsonStringBody_plain (hex : List Char)
    (hh : ∀ c ∈ hex, (hexVal? c).isSome = true) (r : List Char) :
    jsonStringBody (hex ++ '"' :: r) = some (hex, r) := by
  induction hex with
  | nil => simp [jsonStringBody]
  | cons c cs ih =>
    have h1 : c ≠ '"' := hex_not_dquote (hh c (by simp))
    have h2 : c ≠ '\\' := hex_not_bslash (hh c (by simp))
    have h3 : ¬ c.toNat < 32 := hex_not_ctl (hh c (by simp))
    have hih := ih (fun x hx => hh x (by simp [hx]))
    rw [List.cons_append]
    simp [jsonStringBody, h1, h2, h3, hih]

theorem jsonValue_oidMarker (hex : List Char)
    (hh : ∀ c ∈ hex, (hexVal? c).isSome = true) (f : Nat) :
    jsonValue (f + 3) (oidMarkPre ++ (hex ++ markSuf)) =
      some (JVal.jobj [("__$oid", JVal.jstr hex)], []) := by
  have hbody := jsonStringBody_plain hex hh ['}']
  simp only [oidMarkPre, markSuf, List.cons_append, List.nil_append]
  simp +decide [jsonValue, jsonObjectTail, jsonWsDrop, List.dropWhile_cons,
    jsonStringBody, hbody, mapSet]

theorem jsonParse_oidMarker (hex : List Char) (hlen : hex.length = 24)
    (hh : ∀ c ∈ hex, (hexVal? c).isSome = true) :
    jsonParse (oidMarkPre ++ (hex ++ markSuf)) =
      some (JVal.jobj [("__$oid", JVal.jstr hex)]) := by
  unfold jsonParse
  have hl : (oidMarkPre ++ (hex ++ markSuf)).length + 1 = 35 + 3 := by
    simp [oidMarkPre, markSuf, hlen]
  rw [hl, jsonValue_oidMarker hex hh 35]
  simp [jsonWsDrop]

theorem revive_oidMarker (hex : List Char) (hlen : hex.length = 24)
    (hh : ∀ c ∈ hex, (hexVal? c).isSome = true) :
    reviveMongoTypes (JVal.jobj [("__$oid", JVal.jstr hex)]) = BVal.boid hex := by
  have hvalid : objectIdValid hex = true := by
    have hall : hex.all (fun c => (hexVal? c).isSome) = true :=
      List.all_eq_true.mpr (fun c hc => hh c hc)
    unfold objectIdValid
    simp [hlen, hall]
  simp [reviveMongoTypes, singletonStr?, getStr?, mapGet, hvalid]

set_option maxRecDepth 1000000 in
set_option maxHeartbeats 1000000 in
/-- C9 counterexample: an argument list containing `ObjectId("zz")` does not
produce a BSON ObjectId: the id is not 24 hex characters, so the
`new ObjectId` call in `reviveMongoTypes` throws and the raw marker object
is returned instead. -/
theorem claim_C9_counterexample :
    parseMongoArgs "ObjectId(\"zz\")" =
      Except.ok [BVal.bobj [("__$oid", BVal.bstr ['z', 'z'])]] ∧
    ∀ h : List Char,
      (Except.ok [BVal.bobj [("__$oid", BVal.bstr ['z', 'z'])]] :
        Except String (List BVal)) ≠ Except.ok [BVal.boid h] := by
  refine ⟨rfl, ?_⟩
  intro h hc
  simp at hc

theorem parseMongoAttempt_direct (normalized : List Char) (v : JVal)
    (hp : jsonParse normalized = some v) :
    parseMongoAttempt normalized = Except.ok (asArgsList (reviveMongoTypes v)) := by
  unfold parseMongoAttempt
  rw [hp]

theorem parseMongoArgs_direct (argsStr : String)
    (hne : (jsTrimList argsStr.data).isEmpty = false) (v : JVal)
    (hp : jsonParse (mongoNormalize (jsTrimList argsStr.data)) = some v) :
    parseMongoArgs argsStr = Except.ok (asArgsList (reviveMongoTypes v)) := by
  unfold parseMongoArgs
  rw [hne, parseMongoAttempt_direct _ _ hp]
  rfl

set_option maxRecDepth 1000000 in
set_option maxHeartbeats 4000000 in
/-- C9 (amended): `parseMongoArgs` rewrites every `ObjectId("<24 hex>")`
argument into the `__$oid` marker, parses the normalized text as JSON and
revives the marker into a BSON ObjectId; `NumberLong` yields a `Long`,
`ISODate` a `Date` and a regex literal a `RegExp`, shown on concrete
arguments. -/
theorem claim_C9_parse_mongo_args :
    (∀ hex : List Char, hex.length = 24 →
      (∀ c ∈ hex, (hexVal? c).isSome = true) →
      parseMongoArgs ("ObjectId(\"" ++ (⟨hex⟩ : String) ++ "\")") =
        Except.ok [BVal.boid hex]) ∧
    parseMongoArgs "NumberLong(\"9007199254740993\")" =
      Except.ok [BVal.blong 9007199254740993] ∧
    parseMongoArgs "ISODate(\"2024-01-02T03:04:05.000Z\")" =
      Except.ok [BVal.bdate 1704164645000] ∧
    parseMongoArgs "/ab+c/i" =
      Except.ok [BVal.bregex ['a', 'b', '+', 'c'] ['i']] := by
  refine ⟨?_, rfl, rfl, rfl⟩
  intro hex hlen hh
  have hdata : ("ObjectId(\"" ++ (⟨hex⟩ : String) ++ "\")").data =
      oidCallPre ++ (hex ++ ['"', ')']) := by
    show ("ObjectId(\"".data ++ hex) ++ "\")".data = _
    rw [List.append_assoc]
    rfl
  have hne : (jsTrimList ("ObjectId(\"" ++ (⟨hex⟩ : String) ++ "\")").data).isEmpty =
      false := by
    rw [hdata, jsTrim_oidCall hex]
    simp [oidCallPre]
  have hp : jsonParse (mongoNormalize
      (jsTrimList ("ObjectId(\"" ++ (⟨hex⟩ : String) ++ "\")").data)) =
      some (JVal.jobj [("__$oid", JVal.jstr hex)]) := by
    rw [hdata, jsTrim_oidCall hex, mongoNormalize_oidCall hex hlen hh,
      jsonParse_oidMarker hex hlen hh]
  rw [parseMongoArgs_direct _ hne _ hp, revive_oidMarker hex hlen hh]
  rfl

set_option maxRecDepth 1000000 in
set_option maxHeartbeats 1000000 in
/-- Witness for the universal part of C9 at a concrete 24-hex id. -/
theorem claim_C9_parse_mongo_args_witness :
    parseMongoArgs "ObjectId(\"507f1f77bcf86cd799439011\")" =
      Except.ok [BVal.boid "507f1f77bcf86cd799439011".data] := by
  have h := claim_C9_parse_mongo_args.1 "507f1f77bcf86cd799439011".data
    (by decide) (by decide)
  exact h

end QueryHub
